import Mathlib

/-!
# Goose: translation of a Go subset to a monadic IR

A shallow embedding of `goose.go` and `interface.go`.

* The Go syntax tree (`go/ast`), the tokens (`go/token`) and the type facts
  (`go/types`) are inductive types; `Ctx.typeOf` is the table `ctx.info.TypeOf`.
* The IR of package `coq` and the error reporter are not part of the two source
  files; they are modelled from the specification and marked as such.
* Every reporter call and every Go run-time panic is a non-local abort, so each
  translation function returns in `Except Abort`.  The pointer `c *cursor` that
  the statement functions mutate is passed in and returned.
-/

namespace Goose

/-! ## Go tokens and type facts -/

/-- Tokens of `go/token` that occur in literals, operators, assignments, branch
statements and generic declarations. -/
inductive Token
  | INT | FLOAT | IMAG | CHAR | STRING
  | ADD | SUB | MUL | QUO | REM
  | AND | OR | XOR | SHL | SHR | AND_NOT
  | LAND | LOR | ARROW
  | EQL | LSS | GTR | NOT | NEQ | LEQ | GEQ
  | ASSIGN | DEFINE
  | ADD_ASSIGN | SUB_ASSIGN | MUL_ASSIGN | QUO_ASSIGN | REM_ASSIGN
  | AND_ASSIGN | OR_ASSIGN | XOR_ASSIGN | SHL_ASSIGN | SHR_ASSIGN | AND_NOT_ASSIGN
  | BREAK | CONTINUE | GOTO | FALLTHROUGH
  | IMPORT | CONST | VAR | TYPE
  | ILLEGAL
  deriving DecidableEq

/-- Kinds of `types.Basic`. -/
inductive BasicKind
  | Invalid | Bool
  | Int | Int8 | Int16 | Int32 | Int64
  | Uint | Uint8 | Uint16 | Uint32 | Uint64 | Uintptr
  | Float32 | Float64 | Complex64 | Complex128
  | String | UnsafePointer
  | UntypedBool | UntypedInt | UntypedRune | UntypedFloat | UntypedComplex
  | UntypedString | UntypedNil
  deriving DecidableEq

/-- A `types.Type`.  `none` is the nil interface value that `TypeOf` returns for an
expression without a recorded type; `Struct` keeps the field names in order and the
text of `String()`; `Other` stands for the remaining kinds (array, channel,
signature, interface, tuple). -/
inductive GoType
  | none
  | Named (name : String) (underlying : GoType)
  | Struct (fields : List String) (str : String)
  | Basic (kind : BasicKind) (name : String)
  | Slice (elem : GoType)
  | Map (key elem : GoType)
  | Pointer (elem : GoType)
  | Other
  deriving DecidableEq

/-! ## Go syntax -/

/-- An `ast.Expr`.  `Ident.hasObj` is `e.Obj != nil`; `SelectorExpr.Sel` is the name of
the selected identifier; `CallExpr.Ellipsis` is `s.Ellipsis != token.NoPos`;
a field of `StructType` is its list of names and its type; `Other` stands for
the node kinds no function of the translator names (function literals, type
assertions, ...). -/
inductive Expr
  | Ident (Name : String) (hasObj : Bool)
  | CallExpr (Fun : Expr) (Args : List Expr) (Ellipsis : Bool)
  | MapType (Key Value : Expr)
  | SelectorExpr (X : Expr) (Sel : String)
  | CompositeLit (Typ : Option Expr) (Elts : List Expr)
  | KeyValueExpr (Key Value : Expr)
  | BasicLit (Kind : Token) (Value : String)
  | BinaryExpr (X : Expr) (Op : Token) (Y : Expr)
  | SliceExpr (X : Expr) (Low High Max : Option Expr) (Slice3 : Bool)
  | IndexExpr (X Index : Expr)
  | UnaryExpr (Op : Token) (X : Expr)
  | ParenExpr (X : Expr)
  | StarExpr (X : Expr)
  | ArrayType (Len : Option Expr) (Elt : Expr)
  | StructType (Fields : List (List String × Expr))
  | Other

/-- An `ast.Field`: the names it declares and its type expression. -/
structure Field where
  Names : List String
  Typ : Expr

/-- An `ast.Stmt`.  The body of an `IfStmt` and of a `ForStmt` is the statement list of its
`*ast.BlockStmt`; `Other` stands for the statement kinds `stmt` has no case for. -/
inductive Stmt
  | ReturnStmt (Results : List Expr)
  | BranchStmt (Tok : Token)
  | ExprStmt (X : Expr)
  | AssignStmt (Lhs : List Expr) (Tok : Token) (Rhs : List Expr)
  | BlockStmt (List : List Stmt)
  | IfStmt (Init : Option Stmt) (Cond : Expr) (Body : List Stmt) (Else : Option Stmt)
  | ForStmt (Init : Option Stmt) (Cond : Option Expr) (Post : Option Stmt) (Body : List Stmt)
  | GoStmt (Call : Expr)
  | Other

/-- An `ast.Spec` of a generic declaration. -/
inductive Spec
  | ImportSpec (Name : Option String) (PathKind : Token) (PathValue : String)
  | ValueSpec (Names : List String) (Values : List Expr)
  | TypeSpec (Name : String) (Typ : Expr) (Pos : String)

/-- An `ast.Decl`.  `Doc` is the text of the doc comment group when there is one, `Pos`
the rendering of the node by `ctx.where`; `Body` is absent for a declaration without
a body. -/
inductive Decl
  | FuncDecl (Doc : Option String) (Pos : String) (Recv : Option (List Field)) (Name : String)
      (Params : List Field) (Results : Option (List Field)) (Body : Option (List Stmt))
  | GenDecl (Doc : Option String) (Tok : Token) (Specs : List Spec)
  | BadDecl
  | Other

/-- An `ast.File`: its declarations. -/
structure AstFile where
  Decls : List Decl

/-! ## The IR (package `coq`) -/

/-- Modelled from the spec: the IR types of package `coq`, which is not among the source
files ("type-identifier, named-struct, slice-of T, map from fixed-64-bit-unsigned-integer
to T, pointer-to T, tuple-of types").  `nil` is the nil interface value, the `Value` of
the zero `coq.MapType{}`. -/
inductive CoqType
  | nil
  | TypeIdent (name : String)
  | StructName (name : String)
  | SliceType (Value : CoqType)
  | MapType (Value : CoqType)
  | PtrType (Value : CoqType)
  | TupleType (ts : List CoqType)

/-- Modelled from the spec: the binary operators of package `coq`. -/
inductive BinOp
  | OpPlus | OpMinus | OpEquals | OpLessThan | OpGreaterThan
  deriving DecidableEq

mutual
/-- Modelled from the spec: the IR expressions of package `coq` ("identifier, call,
binary operation, field projection, struct literal, tuple, conditional, loop, return,
loop-continue, loop-break, logical-not, integer literal"), with the forms the source
builds besides: a pure call, the insert action of a hash-table update, a block used
as an expression, and an IR type used as an expression.  `nil` is the nil interface
value. -/
inductive CoqExpr
  | nil
  | IdentExpr (name : String)
  | CallExpr (MethodName : String) (Args : List CoqExpr)
  | PureCall (MethodName : String) (Args : List CoqExpr)
  | BinaryExpr (X : CoqExpr) (Op : BinOp) (Y : CoqExpr)
  | ProjExpr (Projection : String) (Arg : CoqExpr)
  | StructLiteral (StructName : String) (Elts : List (String × CoqExpr))
  | TupleExpr (es : List CoqExpr)
  | IfExpr (Cond Then Else : CoqExpr)
  | LoopExpr (LoopVarIdent : String) (Initial : CoqExpr) (Body : CoqExpr)
  | ReturnExpr (Value : CoqExpr)
  | LoopContinueExpr (Value : CoqExpr)
  | LoopRetExpr
  | NotExpr (X : CoqExpr)
  | IntLiteral (Value : Nat)
  | HashTableInsert (Value : CoqExpr)
  | BlockExpr (Bindings : List Binding)
  | TypeExpr (t : CoqType)
/-- Modelled from the spec: an IR binding, "a name-list (zero or more names) paired with
one IR Expression it binds". -/
inductive Binding
  | mk (Names : List String) (Expr : CoqExpr)
end

/-- Modelled from the spec: a field of a struct declaration or a parameter. -/
structure FieldDecl where
  Name : String
  Typ : CoqType

/-- Modelled from the spec: an IR declaration, "function (name, ordered parameter list of
name+type, single tuple return type, body Block) or struct (name, ordered field list)". -/
inductive CoqDecl
  | FuncDecl (Name : String) (Args : List FieldDecl) (ReturnType : CoqType) (Body : CoqExpr)
      (Comment : String)
  | StructDecl (Name : String) (Fields : List FieldDecl) (Comment : String)

/-- Modelled from the spec: `coq.NewAnon`, the anonymous binding of an expression (a
binding with zero names). -/
def NewAnon (e : CoqExpr) : Binding := Binding.mk [] e

/-- Modelled from the spec: `Binding.Unwrap`, the expression of a binding that is
anonymous. -/
def Binding.Unwrap : Binding → Option CoqExpr
  | Binding.mk [] e => some e
  | Binding.mk (_ :: _) _ => none

/-- Modelled from the spec: `coq.NewCallExpr`, the call of a named primitive or function on
an argument list. -/
def NewCallExpr (name : String) (args : List CoqExpr) : CoqExpr := CoqExpr.CallExpr name args

/-- Modelled from the spec: `coq.NewTuple`, the tuple of a list of expressions. -/
def NewTuple (es : List CoqExpr) : CoqExpr := CoqExpr.TupleExpr es

/-- Modelled from the spec: the field `Value` of a map, slice or pointer type. -/
def CoqType.Value : CoqType → CoqType
  | CoqType.MapType v => v
  | CoqType.SliceType v => v
  | CoqType.PtrType v => v
  | _ => CoqType.nil

/-- Modelled from the spec: `coq.NewTupleType`, the tuple of a list of types. -/
def NewTupleType (ts : List CoqType) : CoqType := CoqType.TupleType ts

/-! ## Diagnostics -/

/-- The classes of diagnostic of the error reporter. -/
inductive DiagClass
  | unsupported | futureWork | todo | nope | noExample
  deriving DecidableEq

/-- A raised diagnostic (the `gooseError` a reporter panics with): its class and the
message, kept as the format string of the call. -/
structure Diagnostic where
  cls : DiagClass
  msg : String
  deriving DecidableEq

/-- A non-local abort: a diagnostic raised by a reporter, or any other Go panic (an index
out of range, a failed type assertion, a method call on nil, an explicit `panic`). -/
inductive Abort
  | goose (d : Diagnostic)
  | runtime (msg : String)
  deriving DecidableEq

/-- The result of a translation function. -/
abbrev M := Except Abort

/-- Modelled from the spec: `ctx.unsupported` ("All classes are raised through one non-local
abort"); the error reporter is not among the source files. -/
def unsupported {α : Type} (msg : String) : M α :=
  Except.error (Abort.goose ⟨DiagClass.unsupported, msg⟩)

/-- Modelled from the spec: `ctx.futureWork`. -/
def futureWork {α : Type} (msg : String) : M α :=
  Except.error (Abort.goose ⟨DiagClass.futureWork, msg⟩)

/-- Modelled from the spec: `ctx.todo`. -/
def todo {α : Type} (msg : String) : M α :=
  Except.error (Abort.goose ⟨DiagClass.todo, msg⟩)

/-- Modelled from the spec: `ctx.nope`. -/
def nope {α : Type} (msg : String) : M α :=
  Except.error (Abort.goose ⟨DiagClass.nope, msg⟩)

/-- Modelled from the spec: `ctx.noExample`. -/
def noExample {α : Type} (msg : String) : M α :=
  Except.error (Abort.goose ⟨DiagClass.noExample, msg⟩)

/-- A Go run-time panic. -/
def runtimePanic {α : Type} (msg : String) : M α :=
  Except.error (Abort.runtime msg)

/-- The element `xs[i]` of a Go slice; an index out of range panics. -/
def index {α : Type} (xs : List α) (i : Nat) : M α :=
  match xs.get? i with
  | some x => pure x
  | Option.none => runtimePanic "index out of range"

/-! ## Context -/

/-- The context `Ctx`: the type table of `ctx.info` and the configuration. -/
structure Ctx where
  typeOf : Expr → GoType
  AddSourceFileComments : Bool

/-- The result of `t.Underlying()`; calling it on the nil type panics. -/
def GoType.Underlying : GoType → M GoType
  | GoType.none => runtimePanic "nil pointer dereference"
  | GoType.Named _ u => pure u
  | t => pure t

def getIdent : Expr → Option String
  | Expr.Ident name _ => some name
  | _ => Option.none

def isIdent (e : Expr) (ident : String) : Bool :=
  match getIdent e with
  | some i => i == ident
  | Option.none => false

/-! ## Type resolver

The translation functions recurse on the syntax tree.  A function that the source
calls on a node and that itself calls `ctx.coqType` or `ctx.expr` on the children
of the node takes the results of those calls as arguments, in the order of the
source; a result is only run where the source makes the call. -/

def selectorExprType (X : Expr) (Sel : String) : M CoqType :=
  if isIdent X "filesys" && Sel == "File" then
    pure (CoqType.TypeIdent "Fd")
  else
    unsupported "selector for unknown type %s"

def coqTypeOfType (t : GoType) : M CoqType :=
  match t with
  | GoType.Named name u =>
    match u with
    | GoType.Struct _ _ => pure (CoqType.StructName name)
    | _ => pure (CoqType.TypeIdent name)
  | GoType.Struct _ str => pure (CoqType.StructName str)
  | GoType.Basic _ name =>
    if name = "string" then pure (CoqType.TypeIdent "Path")
    else if name = "uint64" then pure (CoqType.TypeIdent "uint64")
    else if name = "byte" then pure (CoqType.TypeIdent "byte")
    else todo "explicitly handle basic types"
  | _ => pure (CoqType.TypeIdent "<type>")

/-- The function `mapType`; `value` is the call `ctx.coqType(e.Value)`. -/
def mapType (Key : Expr) (value : M CoqType) : M CoqType :=
  match Key with
  | Expr.Ident name _ =>
    if name = "uint64" then do
      let v ← value
      pure (CoqType.MapType v)
    else
      pure (CoqType.MapType CoqType.nil)
  | _ => unsupported "maps must be from uint64 (not %v)"

/-- The function `arrayType`; `elt` is the call `ctx.coqType(e.Elt)`. -/
def arrayType (Len : Option Expr) (elt : M CoqType) : M CoqType :=
  match Len with
  | some _ => unsupported "array types"
  | Option.none => do
    let t ← elt
    pure (CoqType.SliceType t)

def coqType (ctx : Ctx) : Expr → M CoqType
  | Expr.Ident name hasObj => coqTypeOfType (ctx.typeOf (Expr.Ident name hasObj))
  | Expr.MapType Key Value => mapType Key (coqType ctx Value)
  | Expr.SelectorExpr X Sel => selectorExprType X Sel
  | Expr.ArrayType Len Elt => arrayType Len (coqType ctx Elt)
  | Expr.StarExpr X => do
    let t ← coqType ctx X
    pure (CoqType.PtrType t)
  | _ => unsupported "unexpected type expr"

def fieldDecl (ctx : Ctx) (f : Field) : M FieldDecl :=
  if f.Names.length > 1 then
    futureWork "multiple fields for same type (split them up)"
  else
    match f.Names with
    | [] => unsupported "unnamed field/parameter"
    | name :: _ => do
      let t ← coqType ctx f.Typ
      pure ⟨name, t⟩

/-! ## Expression translator -/

/-- Modelled from the spec: the conversion `coq.PureCall(...)` of a call expression to a
pure call. -/
def PureCall : CoqExpr → CoqExpr
  | CoqExpr.CallExpr name args => CoqExpr.PureCall name args
  | e => e

/-- The function `strconv.ParseUint(s, 10, 64)` of the Go library: a non-empty string of
decimal digits whose value is below `2^64`; anything else is an error. -/
def ParseUint (s : String) : Option Nat :=
  if s.data.isEmpty then Option.none
  else if s.data.all Char.isDigit then
    let n := s.data.foldl (fun acc ch => 10 * acc + (ch.toNat - 48)) 0
    if n < 2 ^ 64 then some n else Option.none
  else Option.none

/-- The simple lower-case mappings of the Unicode character database (version 14.0), the
table behind `unicode.ToLower` of the Go library: an entry `(lo, hi, stride, delta)` maps the
code points `lo, lo + stride, ..., hi` to themselves plus `delta`. -/
def unicode.lowerRanges : List (Nat × Nat × Nat × Int) :=
  [(65, 90, 1, 32), (192, 214, 1, 32), (216, 222, 1, 32), (256, 302, 2, 1),
   (304, 304, 1, -199), (306, 310, 2, 1), (313, 327, 2, 1), (330, 374, 2, 1),
   (376, 376, 1, -121), (377, 381, 2, 1), (385, 385, 1, 210), (386, 388, 2, 1),
   (390, 390, 1, 206), (391, 391, 1, 1), (393, 394, 1, 205), (395, 395, 1, 1),
   (398, 398, 1, 79), (399, 399, 1, 202), (400, 400, 1, 203), (401, 401, 1, 1),
   (403, 403, 1, 205), (404, 404, 1, 207), (406, 406, 1, 211), (407, 407, 1, 209),
   (408, 408, 1, 1), (412, 412, 1, 211), (413, 413, 1, 213), (415, 415, 1, 214),
   (416, 420, 2, 1), (422, 422, 1, 218), (423, 423, 1, 1), (425, 425, 1, 218),
   (428, 428, 1, 1), (430, 430, 1, 218), (431, 431, 1, 1), (433, 434, 1, 217),
   (435, 437, 2, 1), (439, 439, 1, 219), (440, 440, 1, 1), (444, 444, 1, 1), (452, 452, 1, 2),
   (453, 453, 1, 1), (455, 455, 1, 2), (456, 456, 1, 1), (458, 458, 1, 2), (459, 475, 2, 1),
   (478, 494, 2, 1), (497, 497, 1, 2), (498, 500, 2, 1), (502, 502, 1, -97),
   (503, 503, 1, -56), (504, 542, 2, 1), (544, 544, 1, -130), (546, 562, 2, 1),
   (570, 570, 1, 10795), (571, 571, 1, 1), (573, 573, 1, -163), (574, 574, 1, 10792),
   (577, 577, 1, 1), (579, 579, 1, -195), (580, 580, 1, 69), (581, 581, 1, 71),
   (582, 590, 2, 1), (880, 882, 2, 1), (886, 886, 1, 1), (895, 895, 1, 116), (902, 902, 1, 38),
   (904, 906, 1, 37), (908, 908, 1, 64), (910, 911, 1, 63), (913, 929, 1, 32),
   (931, 939, 1, 32), (975, 975, 1, 8), (984, 1006, 2, 1), (1012, 1012, 1, -60),
   (1015, 1015, 1, 1), (1017, 1017, 1, -7), (1018, 1018, 1, 1), (1021, 1023, 1, -130),
   (1024, 1039, 1, 80), (1040, 1071, 1, 32), (1120, 1152, 2, 1), (1162, 1214, 2, 1),
   (1216, 1216, 1, 15), (1217, 1229, 2, 1), (1232, 1326, 2, 1), (1329, 1366, 1, 48),
   (4256, 4293, 1, 7264), (4295, 4295, 1, 7264), (4301, 4301, 1, 7264), (5024, 5103, 1, 38864),
   (5104, 5109, 1, 8), (7312, 7354, 1, -3008), (7357, 7359, 1, -3008), (7680, 7828, 2, 1),
   (7838, 7838, 1, -7615), (7840, 7934, 2, 1), (7944, 7951, 1, -8), (7960, 7965, 1, -8),
   (7976, 7983, 1, -8), (7992, 7999, 1, -8), (8008, 8013, 1, -8), (8025, 8031, 2, -8),
   (8040, 8047, 1, -8), (8072, 8079, 1, -8), (8088, 8095, 1, -8), (8104, 8111, 1, -8),
   (8120, 8121, 1, -8), (8122, 8123, 1, -74), (8124, 8124, 1, -9), (8136, 8139, 1, -86),
   (8140, 8140, 1, -9), (8152, 8153, 1, -8), (8154, 8155, 1, -100), (8168, 8169, 1, -8),
   (8170, 8171, 1, -112), (8172, 8172, 1, -7), (8184, 8185, 1, -128), (8186, 8187, 1, -126),
   (8188, 8188, 1, -9), (8486, 8486, 1, -7517), (8490, 8490, 1, -8383), (8491, 8491, 1, -8262),
   (8498, 8498, 1, 28), (8544, 8559, 1, 16), (8579, 8579, 1, 1), (9398, 9423, 1, 26),
   (11264, 11311, 1, 48), (11360, 11360, 1, 1), (11362, 11362, 1, -10743),
   (11363, 11363, 1, -3814), (11364, 11364, 1, -10727), (11367, 11371, 2, 1),
   (11373, 11373, 1, -10780), (11374, 11374, 1, -10749), (11375, 11375, 1, -10783),
   (11376, 11376, 1, -10782), (11378, 11378, 1, 1), (11381, 11381, 1, 1),
   (11390, 11391, 1, -10815), (11392, 11490, 2, 1), (11499, 11501, 2, 1), (11506, 11506, 1, 1),
   (42560, 42604, 2, 1), (42624, 42650, 2, 1), (42786, 42798, 2, 1), (42802, 42862, 2, 1),
   (42873, 42875, 2, 1), (42877, 42877, 1, -35332), (42878, 42886, 2, 1), (42891, 42891, 1, 1),
   (42893, 42893, 1, -42280), (42896, 42898, 2, 1), (42902, 42920, 2, 1),
   (42922, 42922, 1, -42308), (42923, 42923, 1, -42319), (42924, 42924, 1, -42315),
   (42925, 42925, 1, -42305), (42926, 42926, 1, -42308), (42928, 42928, 1, -42258),
   (42929, 42929, 1, -42282), (42930, 42930, 1, -42261), (42931, 42931, 1, 928),
   (42932, 42946, 2, 1), (42948, 42948, 1, -48), (42949, 42949, 1, -42307),
   (42950, 42950, 1, -35384), (42951, 42953, 2, 1), (42960, 42960, 1, 1), (42966, 42968, 2, 1),
   (42997, 42997, 1, 1), (65313, 65338, 1, 32), (66560, 66599, 1, 40), (66736, 66771, 1, 40),
   (66928, 66938, 1, 39), (66940, 66954, 1, 39), (66956, 66962, 1, 39), (66964, 66965, 1, 39),
   (68736, 68786, 1, 64), (71840, 71871, 1, 32), (93760, 93791, 1, 32), (125184, 125217, 1, 34)]

/-- The function `unicode.ToLower` of the Go library: the lower case of a code point that
has one, and the code point itself otherwise. -/
def unicode.ToLower (r : Char) : Char :=
  match unicode.lowerRanges.find?
      (fun e => e.1 ≤ r.toNat && r.toNat ≤ e.2.1 && (r.toNat - e.1) % e.2.2.1 == 0) with
  | some e => Char.ofNat (Int.toNat (Int.ofNat r.toNat + e.2.2.2))
  | Option.none => r

/-- The function `toInitialLower`: `strings.Map` applies `unicode.ToLower` to the first
character and leaves the others as they are. -/
def toInitialLower (s : String) : String :=
  match s.data with
  | [] => s
  | ch :: rest => String.mk (unicode.ToLower ch :: rest)

def methodExpr (f : Expr) : M String :=
  match f with
  | Expr.Ident name _ => pure name
  | Expr.SelectorExpr X Sel =>
    if isIdent X "fs" then
      if Sel = "ReadAt" then pure "Base.sliceReadAt"
      else if Sel = "Append" then pure "Base.sliceAppend"
      else pure ("FS." ++ toInitialLower Sel)
    else if isIdent X "machine" then
      if Sel = "UInt64Get" then pure "Data.uint64Get"
      else if Sel = "UInt64Encode" then pure "Data.uint64Put"
      else unsupported "cannot call methods selected from %s"
    else unsupported "cannot call methods selected from %s"
  | _ => unsupported "call on expression"

/-- The function `makeExpr`, on the arguments of the call. -/
def makeExpr (ctx : Ctx) (args : List Expr) : M CoqExpr :=
  match args with
  | [] => runtimePanic "index out of range"
  | Expr.MapType Key Value :: _ => do
    let mapTy ← mapType Key (coqType ctx Value)
    pure (NewCallExpr "Data.newHashTable" [CoqExpr.TypeExpr mapTy.Value])
  | Expr.ArrayType Len _ :: _ =>
    match Len with
    | some _ => nope "can't make() arrays (only slices)"
    | Option.none => todo "array types are not really implemented"
  | _ :: _ => nope "make() of %s, not a map or array"

def newExpr (ctx : Ctx) (ty : Expr) : M CoqExpr := do
  let t ← coqType ctx ty
  pure (NewCallExpr "Data.newIORef" [NewCallExpr "zeroValue" [CoqExpr.TypeExpr t]])

def basicallyUInt64 (ctx : Ctx) (e : Expr) : Bool :=
  match ctx.typeOf e with
  | GoType.Basic kind _ =>
    match kind with
    | BasicKind.Int => true
    | BasicKind.Uint64 => true
    | _ => false
  | _ => false

/-- The function `basicLiteral`, on the kind and the text of the literal. -/
def basicLiteral (Kind : Token) (Value : String) : M CoqExpr :=
  if Kind ≠ Token.INT then
    unsupported "non-integer literals are not supported"
  else
    match ParseUint Value with
    | Option.none => runtimePanic "strconv.ParseUint: parsing failed"
    | some n => pure (CoqExpr.IntLiteral n)

/-- The function `nilExpr`, on the type recorded for the identifier. -/
def nilExpr (t : GoType) : M CoqExpr :=
  match t with
  | GoType.Basic kind _ =>
    if kind ≠ BasicKind.UntypedNil then
      nope "nil that is of a non-nil basic kind"
    else
      pure (CoqExpr.CallExpr "slice.nil" [CoqExpr.TypeExpr (CoqType.TypeIdent "_")])
  | _ => todo "take advantage of nil type %s"

/-- The call `ctx.expr(s.Args[i])`, given the calls on all arguments: an index out of
range panics. -/
def sub (args : List (M CoqExpr)) (i : Nat) : M CoqExpr :=
  match args.get? i with
  | some m => m
  | Option.none => runtimePanic "index out of range"

/-- A loop `for _, x := range xs \x7b ys = append(ys, f(x)) \x7d`, given the calls `f(x)`: they
run in order and the first abort ends the loop. -/
def collect {α : Type} : List (M α) → M (List α)
  | [] => pure []
  | m :: rest => do
    let x ← m
    let xs ← collect rest
    pure (x :: xs)

/-- The function `lenExpr`, on the arguments of the call; `args` are the calls of `ctx.expr`
on them. -/
def lenExpr (ctx : Ctx) (Args : List Expr) (args : List (M CoqExpr)) : M CoqExpr := do
  let x ← index Args 0
  match ctx.typeOf x with
  | GoType.Slice _ => do
    let x' ← sub args 0
    pure (PureCall (NewCallExpr "slice.length" [x']))
  | _ => unsupported "length of object of type %v"

/-- The function `callExpr`, on the fields of the call; `args` are the calls of `ctx.expr`
on the arguments. -/
def callExpr (ctx : Ctx) (Fun : Expr) (Args : List Expr) (Ellipsis : Bool)
    (args : List (M CoqExpr)) : M CoqExpr :=
  if isIdent Fun "make" then makeExpr ctx Args
  else if isIdent Fun "new" then do
    let ty ← index Args 0
    newExpr ctx ty
  else if isIdent Fun "len" then lenExpr ctx Args args
  else if isIdent Fun "append" then
    if !Ellipsis then do
      let a ← sub args 0
      let b ← sub args 1
      pure (NewCallExpr "Data.sliceAppend" [a, b])
    else do
      let a ← sub args 0
      let b ← sub args 1
      pure (NewCallExpr "Data.sliceAppendSlice" [a, b])
  else if isIdent Fun "uint64" then do
    let x ← index Args 0
    if basicallyUInt64 ctx x then sub args 0
    else unsupported "casts from non-int type %v to uint64"
  else do
    let name ← methodExpr Fun
    let as ← collect args
    pure (CoqExpr.CallExpr name as)

/-- The function `structSelector`; `x` is the call `ctx.expr(e.X)`. -/
def structSelector (ctx : Ctx) (X : Expr) (Sel : String) (x : M CoqExpr) : M CoqExpr :=
  match ctx.typeOf X with
  | GoType.Named name _ => do
    let arg ← x
    pure (CoqExpr.ProjExpr (name ++ "." ++ Sel) arg)
  | _ => runtimePanic "interface conversion: types.Type is not *types.Named"

/-- The function `structTypeFields`: the names of the fields of a struct type. -/
def structTypeFields (fields : List String) : List String := fields

/-- The last loop of `structLiteral`: every declared field must have been found. -/
def checkFields (fields : List String) (foundFields : List String) : M Unit :=
  match fields with
  | [] => pure ()
  | f :: rest =>
    if foundFields.contains f then checkFields rest foundFields
    else unsupported "incomplete struct literal"

/-- The function `structLiteral`, on the type `t` recorded for the literal and on `e.Type`;
`elts` is the loop over `e.Elts`, which gives `lit.Elts` and the keys of `foundFields`. -/
def structLiteral (t : GoType) (Typ : Option Expr)
    (elts : M (List (String × CoqExpr) × List String)) : M CoqExpr := do
  let u ← t.Underlying
  match u with
  | GoType.Struct fields _ =>
    match Typ.bind getIdent with
    | Option.none => nope "non-struct literal after type check"
    | some structName => do
      let (lit, foundFields) ← elts
      checkFields (structTypeFields fields) foundFields
      pure (CoqExpr.StructLiteral structName lit)
  | _ => unsupported "non-struct literal"

/-- The function `binExpr`; `x` and `y` are the calls `ctx.expr(e.X)` and `ctx.expr(e.Y)`. -/
def binExpr (x : M CoqExpr) (Op : Token) (y : M CoqExpr) : M CoqExpr := do
  let x ← x
  let y ← y
  match Op with
  | Token.LSS => pure (CoqExpr.BinaryExpr x BinOp.OpLessThan y)
  | Token.GTR => pure (CoqExpr.BinaryExpr x BinOp.OpGreaterThan y)
  | Token.ADD => pure (CoqExpr.BinaryExpr x BinOp.OpPlus y)
  | Token.SUB => pure (CoqExpr.BinaryExpr x BinOp.OpMinus y)
  | Token.EQL => pure (CoqExpr.BinaryExpr x BinOp.OpEquals y)
  | _ => unsupported "binary operator %v"

/-- The call `ctx.expr(e)` on an expression `e` that may be nil, given the call where it is
not nil: on nil the type switch of `expr` takes its default case. -/
def exprCall (e : Option (M CoqExpr)) : M CoqExpr :=
  match e with
  | some m => m
  | Option.none => unsupported "unexpected expr"

/-- The function `sliceExpr`; `x` is the call `ctx.expr(e.X)`, and `Low` and `High` are the
calls on `e.Low` and `e.High` where these are not nil (`Low.isSome` is `e.Low != nil`). -/
def sliceExpr (x : M CoqExpr) (Low High : Option (M CoqExpr)) (Slice3 : Bool) : M CoqExpr :=
  if Slice3 then unsupported "3-index slice"
  else do
    let x ← x
    if Low.isSome && High.isNone then do
      let l ← exprCall Low
      pure (PureCall (NewCallExpr "slice.skip" [l, x]))
    else if Low.isNone && High.isSome then do
      let h ← exprCall High
      pure (PureCall (NewCallExpr "slice.take" [h, x]))
    else if Low.isSome && High.isSome then do
      let l ← exprCall Low
      let h ← exprCall High
      pure (PureCall (NewCallExpr "slice.subslice" [l, h, x]))
    else if Low.isNone && High.isNone then
      unsupported "complete slice doesn't do anything"
    else pure CoqExpr.nil

mutual
def expr (ctx : Ctx) : Expr → M CoqExpr
  | Expr.CallExpr Fun Args Ellipsis => callExpr ctx Fun Args Ellipsis (exprList ctx Args)
  | Expr.MapType Key Value => do
    let t ← mapType Key (coqType ctx Value)
    pure (CoqExpr.TypeExpr t)
  | Expr.Ident Name hasObj =>
    if hasObj then pure (CoqExpr.IdentExpr Name)
    else if Name = "nil" then nilExpr (ctx.typeOf (Expr.Ident Name hasObj))
    else unsupported "special identifier"
  | Expr.SelectorExpr X Sel => structSelector ctx X Sel (expr ctx X)
  | Expr.CompositeLit Typ Elts =>
    structLiteral (ctx.typeOf (Expr.CompositeLit Typ Elts)) Typ (structLiteralElts ctx Elts [] [])
  | Expr.BasicLit Kind Value => basicLiteral Kind Value
  | Expr.BinaryExpr X Op Y => binExpr (expr ctx X) Op (expr ctx Y)
  | Expr.SliceExpr X Low High _ Slice3 =>
    sliceExpr (expr ctx X) (exprOpt ctx Low) (exprOpt ctx High) Slice3
  | Expr.IndexExpr X Index =>
    match ctx.typeOf X with
    | GoType.Map _ _ => do
      let x ← expr ctx X
      let i ← expr ctx Index
      pure (NewCallExpr "Data.goHashTableLookup" [x, i])
    | GoType.Slice _ => todo "slice indexing"
    | _ => unsupported "index into unknown type %v"
  | Expr.UnaryExpr Op X =>
    if Op = Token.NOT then do
      let x ← expr ctx X
      pure (CoqExpr.NotExpr x)
    else unsupported "unary expression %s"
  | Expr.ParenExpr X => expr ctx X
  | Expr.StarExpr X => do
    let x ← expr ctx X
    pure (NewCallExpr "Data.readIORef" [x])
  | _ => unsupported "unexpected expr"
/-- The calls of `ctx.expr` on the expressions of a list. -/
def exprList (ctx : Ctx) : List Expr → List (M CoqExpr)
  | [] => []
  | e :: rest => expr ctx e :: exprList ctx rest
/-- The call of `ctx.expr` on an expression that may be nil. -/
def exprOpt (ctx : Ctx) : Option Expr → Option (M CoqExpr)
  | Option.none => Option.none
  | some e => some (expr ctx e)
/-- The loop over `e.Elts` of `structLiteral`: `lit` is `lit.Elts` so far and `foundFields`
holds the keys set in the map `foundFields`. -/
def structLiteralElts (ctx : Ctx) :
    List Expr → List (String × CoqExpr) → List String → M (List (String × CoqExpr) × List String)
  | [], lit, foundFields => pure (lit, foundFields)
  | Expr.KeyValueExpr Key Value :: rest, lit, foundFields =>
    match getIdent Key with
    | Option.none => noExample "struct field keyed by non-identifier %+v"
    | some ident => do
      let v ← expr ctx Value
      structLiteralElts ctx rest (lit ++ [(ident, v)]) (ident :: foundFields)
  | _ :: _, _, _ => nope "literal component in struct"
end

/-- The function `returnExpr`. -/
def returnExpr (ctx : Ctx) (es : List Expr) : M CoqExpr := do
  let exprs ← collect (exprList ctx es)
  pure (CoqExpr.ReturnExpr (NewTuple exprs))

/-! ## Statement sequencer -/

/-- The cursor over the statements that remain in a list. -/
structure cursor where
  Stmts : List Stmt

/-- The result of `c.Next()`: the statement, and the cursor after it (`c` itself in the
source, which `Next` advances).  The last field records that the statement and the new
cursor are parts of the old one. -/
structure Advance (c : cursor) where
  stmt : Stmt
  next : cursor
  shrinks : sizeOf stmt + sizeOf next.Stmts < sizeOf c.Stmts

/-- The result of a statement function called with the cursor `c`: the binding it returns
and the cursor after the call (`c` itself in the source, which the call may advance).  The
last field records that a cursor only moves forward. -/
structure Step (c : cursor) where
  binding : Binding
  next : cursor
  shrinks : sizeOf next.Stmts ≤ sizeOf c.Stmts

/-- The binding and the cursor of a step. -/
def Step.out {c : cursor} (r : Step c) : Binding × cursor := (r.binding, r.next)

/-- A step that returns a binding and leaves the cursor where it is. -/
def Step.stay (c : cursor) (b : Binding) : Step c := ⟨b, c, Nat.le_refl _⟩

def cursor.HasNext (c : cursor) : Bool := c.Stmts.length > 0

def cursor.Next (c : cursor) : M (Advance c) :=
  match h : c.Stmts with
  | [] => runtimePanic "index out of range"
  | s :: rest => pure ⟨s, ⟨rest⟩, by rw [h]; simp only [List.cons.sizeOf_spec]; omega⟩

/-- The function `c.Remainder()`: the statements that remain; the cursor is empty after
the call. -/
def cursor.Remainder (c : cursor) : List Stmt × cursor := (c.Stmts, ⟨[]⟩)

/-- The function `endsWithReturn`, on the statement list of the block; the index
`len(b.List)-1` is out of range for an empty list. -/
def endsWithReturn (b : List Stmt) : M Bool := do
  let last ← match b.length with
    | 0 => runtimePanic "index out of range"
    | n + 1 => index b n
  match last with
  | Stmt.ReturnStmt _ => pure true
  | Stmt.BranchStmt _ => pure true
  | _ => pure false

/-- The loop of `defineStmt` over the left-hand sides. -/
def defineNames : List Expr → M (List String)
  | [] => pure []
  | lhsExpr :: rest =>
    match getIdent lhsExpr with
    | Option.none => nope "defining a non-identifier"
    | some ident => do
      let names ← defineNames rest
      pure (ident :: names)

/-- The function `defineStmt`, on the two sides of the assignment. -/
def defineStmt (ctx : Ctx) (Lhs Rhs : List Expr) : M Binding :=
  if Rhs.length > 1 then futureWork "multiple defines (split them up)"
  else do
    let rhs ← index Rhs 0
    let names ← defineNames Lhs
    let e ← expr ctx rhs
    pure (Binding.mk names e)

/-- The function `loopAssignStmt`, on the two sides of the assignment. -/
def loopAssignStmt (ctx : Ctx) (Lhs Rhs : List Expr) (c : cursor) : M (Step c) :=
  if !c.HasNext then
    unsupported "implicit control flow in loop (expected continue)"
  else do
    let a ← c.Next
    let isContinue := match a.stmt with
      | Stmt.BranchStmt Tok => Tok == Token.CONTINUE
      | _ => false
    if !isContinue then do
      let lhs ← index Lhs 0
      match lhs with
      | Expr.Ident _ _ => unsupported "expected continue following %s loop assignment"
      | _ => runtimePanic "interface conversion: ast.Expr is not *ast.Ident"
    else do
      let r ← index Rhs 0
      let rhs ← expr ctx r
      pure ⟨NewAnon (CoqExpr.LoopContinueExpr rhs), a.next, by have := a.shrinks; omega⟩

/-- The function `assignStmt`, on the fields of the assignment. -/
def assignStmt (ctx : Ctx) (Lhs : List Expr) (Tok : Token) (Rhs : List Expr) (c : cursor)
    (loopVar : Option String) : M (Step c) :=
  if Tok = Token.DEFINE then do
    let b ← defineStmt ctx Lhs Rhs
    pure (Step.stay c b)
  else if Lhs.length > 1 || Rhs.length > 1 then
    unsupported "multiple assignment"
  else do
    let lhs ← index Lhs 0
    match lhs with
    | Expr.Ident Name _ =>
      match loopVar with
      | some v =>
        if Name ≠ v then unsupported "expected assignment to loop variable %s"
        else loopAssignStmt ctx Lhs Rhs c
      | Option.none => futureWork "general re-assignments are future work"
    | Expr.IndexExpr X Index =>
      match ctx.typeOf X with
      | GoType.Slice _ => todo "slice updates"
      | GoType.Map _ _ => do
        let r ← index Rhs 0
        let value ← expr ctx r
        let x ← expr ctx X
        let i ← expr ctx Index
        pure (Step.stay c (NewAnon (NewCallExpr "Data.hashTableAlter"
          [x, i, CoqExpr.HashTableInsert value])))
      | _ => unsupported "index update to unexpected target of type %v"
    | Expr.StarExpr X => do
      let x ← expr ctx X
      let r ← index Rhs 0
      let v ← expr ctx r
      pure (Step.stay c (NewAnon (NewCallExpr "Data.writeIORef" [x, v])))
    | _ => unsupported "assigning to complex "

/-- The function `loopVar`. -/
def loopVar (ctx : Ctx) (s : Stmt) : M (String × CoqExpr) :=
  match s with
  | Stmt.AssignStmt Lhs Tok Rhs =>
    if Lhs.length > 1 || Rhs.length > 1 || Tok ≠ Token.DEFINE then
      unsupported "loop initialization must be a single assignment"
    else do
      let lhs ← index Lhs 0
      let rhs ← index Rhs 0
      match getIdent lhs with
      | Option.none => nope "definition of non-identifier"
      | some loopIdent => do
        let init ← expr ctx rhs
        pure (loopIdent, init)
  | _ => unsupported "loop initialization must be a single assignment"

mutual
/-- The function `blockStmt`, on the statement list of the block. -/
def blockStmt (ctx : Ctx) (List : List Stmt) (loopVar : Option String) : M CoqExpr :=
  stmts ctx List loopVar
termination_by (sizeOf List, 3)
/-- The loop `for c.HasNext() \x7b bindings = append(bindings, ctx.stmt(c.Next(), c, loopVar)) \x7d`
of `stmts` and of `forStmt`. -/
def stmtLoop (ctx : Ctx) (c : cursor) (bindings : List Binding) (loopVar : Option String) :
    M (List Binding) :=
  if c.HasNext then do
    let a ← c.Next
    let r ← stmt ctx a.stmt a.next loopVar
    stmtLoop ctx r.next (bindings ++ [r.binding]) loopVar
  else pure bindings
termination_by (sizeOf c.Stmts, 0)
decreasing_by
  · have := a.shrinks
    apply Prod.Lex.left; omega
  · have := a.shrinks
    have := r.shrinks
    apply Prod.Lex.left; omega
def stmts (ctx : Ctx) (ss : List Stmt) (loopVar : Option String) : M CoqExpr := do
  let bindings ← stmtLoop ctx ⟨ss⟩ [] loopVar
  if bindings.length = 0 then
    pure (CoqExpr.BlockExpr [NewAnon (CoqExpr.ReturnExpr (CoqExpr.IdentExpr "tt"))])
  else
    pure (CoqExpr.BlockExpr bindings)
termination_by (sizeOf ss, 2)
/-- The function `ifStmt`, on the fields of the conditional. -/
def ifStmt (ctx : Ctx) (Cond : Expr) (Body : List Stmt) (Else : Option Stmt) (c : cursor)
    (loopVar : Option String) : M (Step c) := do
  let thenStep ← stmt ctx (Stmt.BlockStmt Body) ⟨[]⟩ loopVar
  match thenStep.binding.Unwrap with
  | Option.none => nope "if statement body ends with an assignment"
  | some thenExpr => do
    let cond ← expr ctx Cond
    let remaining := c.HasNext
    let ends ← endsWithReturn Body
    if ends && remaining then
      match Else with
      | some _ => futureWork "else with early return"
      | Option.none => do
        let els ← stmts ctx c.Remainder.1 loopVar
        pure ⟨NewAnon (CoqExpr.IfExpr cond thenExpr els), c.Remainder.2,
          by cases c.Stmts <;> simp [cursor.Remainder]; omega⟩
    else if !remaining then
      match Else with
      | Option.none =>
        match loopVar with
        | some _ => unsupported "implicit loop continue"
        | Option.none =>
          pure (Step.stay c (NewAnon (CoqExpr.IfExpr cond thenExpr
            (CoqExpr.ReturnExpr (CoqExpr.IdentExpr "tt")))))
      | some els => do
        let elseStep ← stmt ctx els c loopVar
        match elseStep.binding.Unwrap with
        | Option.none => nope "if statement else ends with an assignment"
        | some elseExpr =>
          pure ⟨NewAnon (CoqExpr.IfExpr cond thenExpr elseExpr), elseStep.next,
            elseStep.shrinks⟩
    else futureWork "non-terminal if expressions are only partially supported"
termination_by (sizeOf Body + sizeOf Else + sizeOf c.Stmts + 1, 0)
decreasing_by
  all_goals simp_wf
  · apply Prod.Lex.left
    have h1 : 0 < sizeOf Else := by cases Else <;> simp
    have h2 : 0 < sizeOf c.Stmts := by cases c.Stmts <;> simp
    omega
  · apply Prod.Lex.left
    simp only [cursor.Remainder]
    omega
  · apply Prod.Lex.left
    omega
/-- The function `forStmt`, on the fields of the loop. -/
def forStmt (ctx : Ctx) (Init : Option Stmt) (Cond : Option Expr) (Post : Option Stmt)
    (Body : List Stmt) : M CoqExpr :=
  if Cond.isSome || Post.isSome then
    unsupported "loop conditions and post expressions are unsupported"
  else
    match Init with
    | Option.none => futureWork "loops without a loop variable"
    | some init => do
      let (ident, initial) ← loopVar ctx init
      let bindings ← stmtLoop ctx ⟨Body⟩ [] (some ident)
      pure (CoqExpr.LoopExpr ident initial (CoqExpr.BlockExpr bindings))
termination_by (sizeOf Body, 1)
def stmt (ctx : Ctx) (s : Stmt) (c : cursor) (loopVar : Option String) : M (Step c) :=
  match s with
  | Stmt.ReturnStmt Results =>
    if c.HasNext then unsupported "statement following return"
    else if loopVar.isSome then futureWork "return in loop (use break)"
    else do
      let r ← returnExpr ctx Results
      pure (Step.stay c (NewAnon r))
  | Stmt.BranchStmt Tok =>
    if loopVar.isNone then unsupported "branching outside of a loop"
    else if Tok ≠ Token.BREAK then unsupported "only break is supported to exit loops"
    else pure (Step.stay c (NewAnon CoqExpr.LoopRetExpr))
  | Stmt.ExprStmt X => do
    let e ← expr ctx X
    pure (Step.stay c (NewAnon e))
  | Stmt.AssignStmt Lhs Tok Rhs => assignStmt ctx Lhs Tok Rhs c loopVar
  | Stmt.BlockStmt List => do
    let b ← blockStmt ctx List loopVar
    pure (Step.stay c (NewAnon b))
  | Stmt.IfStmt _ Cond Body Else => ifStmt ctx Cond Body Else c loopVar
  | Stmt.ForStmt Init Cond Post Body => do
    let l ← forStmt ctx Init Cond Post Body
    pure (Step.stay c (NewAnon l))
  | Stmt.GoStmt _ => todo "go func()\x7b ... \x7d statements"
  | Stmt.Other => unsupported "statement"
termination_by (sizeOf s + sizeOf c.Stmts, 4)
decreasing_by
  all_goals simp_wf
  · apply Prod.Lex.left; omega
  · apply Prod.Lex.left
    have h1 : 0 < sizeOf Cond := by cases Cond <;> simp
    omega
  · apply Prod.Lex.left; omega
end

/-! ## Declaration translator -/

/-- The first loop of `returnType`: a result that names an identifier is rejected. -/
def checkUnnamed : List Field → M Unit
  | [] => pure ()
  | r :: rest =>
    if r.Names.length > 0 then unsupported "named returned value"
    else checkUnnamed rest

/-- The second loop of `returnType`: the types of the results, in order. -/
def resultTypes (ctx : Ctx) : List Field → M (List CoqType)
  | [] => pure []
  | r :: rest =>
    if r.Names.length > 0 then unsupported "named returned value"
    else do
      let t ← coqType ctx r.Typ
      let ts ← resultTypes ctx rest
      pure (t :: ts)

def returnType (ctx : Ctx) (results : Option (List Field)) : M CoqType :=
  match results with
  | Option.none => pure (CoqType.TypeIdent "unit")
  | some rs => do
    checkUnnamed rs
    let ts ← resultTypes ctx rs
    pure (NewTupleType ts)

def stripTrailingNewline (text : String) : String :=
  if text = "" then text
  else if text.back = '\n' then text.dropRight 1
  else text

/-- The function `addSourceDoc`: `doc` is the text of the comment group, and the result
is the new value of `*comment`. -/
def addSourceDoc (doc : Option String) (comment : String) : String :=
  match doc with
  | Option.none => comment
  | some text =>
    (if comment ≠ "" then comment ++ "\n\n" else comment) ++ stripTrailingNewline text

/-- The function `addSourceFile`: `pos` is `ctx.where(node)`, and the result is the new
value of `*comment`. -/
def addSourceFile (ctx : Ctx) (pos : String) (comment : String) : String :=
  if !ctx.AddSourceFileComments then comment
  else (if comment ≠ "" then comment ++ "\n\n   " else comment) ++ "go: " ++ pos

/-- The loops `for _, f := range ... \x7b ... ctx.fieldDecl(f) \x7d` of `typeDecl` and
`funcDecl`. -/
def fieldDecls (ctx : Ctx) : List Field → M (List FieldDecl)
  | [] => pure []
  | f :: rest => do
    let d ← fieldDecl ctx f
    let ds ← fieldDecls ctx rest
    pure (d :: ds)

/-- The function `typeDecl`, on the text of the doc comment and the fields of the spec. -/
def typeDecl (ctx : Ctx) (doc : Option String) (Name : String) (Typ : Expr) (Pos : String) :
    M CoqDecl :=
  match Typ with
  | Expr.StructType Fields => do
    let comment := addSourceFile ctx Pos (addSourceDoc doc "")
    let fields ← fieldDecls ctx (Fields.map (fun f => ⟨f.1, f.2⟩))
    pure (CoqDecl.StructDecl Name fields comment)
  | _ => unsupported "non-struct type"

/-- The function `funcDecl`, on the fields of the declaration. -/
def funcDecl (ctx : Ctx) (Doc : Option String) (Pos : String) (Recv : Option (List Field))
    (Name : String) (Params : List Field) (Results : Option (List Field))
    (Body : Option (List Stmt)) : M CoqDecl := do
  let comment := addSourceFile ctx Pos (addSourceDoc Doc "")
  if Recv.isSome then
    futureWork "methods need to be lifted by moving the receiver to the arg list"
  else do
    let args ← fieldDecls ctx Params
    let returnTy ← returnType ctx Results
    match Body with
    | Option.none => runtimePanic "nil pointer dereference"
    | some body => do
      let b ← blockStmt ctx body Option.none
      pure (CoqDecl.FuncDecl Name args returnTy b comment)

/-- The function `checkGlobalVar`, on the fields of the value spec.  For an initializer that
is not a selector expression `v` is the nil pointer of the failed type assertion, and the
reporter, which attributes every failure to the source position of its node, is called on it:
reading the position of a nil `*ast.SelectorExpr` dereferences it. -/
def checkGlobalVar (Names : List String) (Values : List Expr) : M Unit := do
  let name ← index Names 0
  if name ≠ "fs" || Names.length > 1 then unsupported "non-fs global variable"
  else do
    let v ← index Values 0
    match v with
    | Expr.SelectorExpr X Sel =>
      if isIdent X "filesys" && Sel == "Fs" then pure ()
      else unsupported "bad initializer for fs (should be filesys.Fs)"
    | _ => runtimePanic "invalid memory address or nil pointer dereference"

/-- The function `stringBasicLit`, on the kind and the text of the literal. -/
def stringBasicLit (Kind : Token) (Value : String) : M String :=
  if Kind ≠ Token.STRING then runtimePanic "unexpected non-string literal"
  else if Value.length < 2 then runtimePanic "slice bounds out of range"
  else pure (String.mk (Value.data.drop 1).dropLast)

def checkImports : List Spec → M Unit
  | [] => pure ()
  | Spec.ImportSpec Name PathKind PathValue :: rest => do
    let importPath ← stringBasicLit PathKind PathValue
    if !("github.com/tchajed/goose/machine".data.isPrefixOf importPath.data) then
      unsupported "non-whitelisted import"
    else if Name.isSome then unsupported "renaming imports"
    else checkImports rest
  | _ :: _ => runtimePanic "interface conversion: ast.Spec is not *ast.ImportSpec"

def maybeDecl (ctx : Ctx) (d : Decl) : M (Option CoqDecl) :=
  match d with
  | Decl.FuncDecl Doc Pos Recv Name Params Results Body => do
    let fd ← funcDecl ctx Doc Pos Recv Name Params Results Body
    pure (some fd)
  | Decl.GenDecl Doc Tok Specs =>
    match Tok with
    | Token.IMPORT => do
      checkImports Specs
      pure Option.none
    | Token.CONST => todo "global constants"
    | Token.VAR =>
      if Specs.length > 1 then unsupported "multiple vars"
      else do
        let spec ← index Specs 0
        match spec with
        | Spec.ValueSpec Names Values => do
          checkGlobalVar Names Values
          pure Option.none
        | _ => runtimePanic "interface conversion: ast.Spec is not *ast.ValueSpec"
    | Token.TYPE =>
      if Specs.length > 1 then noExample "multiple specs in a type decl"
      else do
        let spec ← index Specs 0
        match spec with
        | Spec.TypeSpec Name Typ Pos => do
          let ty ← typeDecl ctx Doc Name Typ Pos
          pure (some ty)
        | _ => runtimePanic "interface conversion: ast.Spec is not *ast.TypeSpec"
    | _ => nope "unknown token type in decl"
  | Decl.BadDecl => nope "bad declaration in type-checked code"
  | Decl.Other => nope "top-level decl"

/-- The struct `gooseError` that a reporter panics with; its declaration is not among the
source files, and `File` reads its one field `err` (nil when absent). -/
structure gooseError where
  err : Option Diagnostic
  deriving DecidableEq

/-- What a call of `File` does: it returns a file and an error (nil when absent), or its
deferred handler panics; the argument of that `panic` is a variable of type `gooseError`. -/
inductive FileResult
  | returned (file : List CoqDecl) (err : Option Diagnostic)
  | panicked (r : gooseError)

/-- The inner loop of `File`, over the declarations of one file; `decls` is the variable
`decls`. -/
def declLoop (ctx : Ctx) : List Decl → List CoqDecl → M (List CoqDecl)
  | [], decls => pure decls
  | d :: rest, decls => do
    let r ← maybeDecl ctx d
    match r with
    | some d' => declLoop ctx rest (decls ++ [d'])
    | Option.none => declLoop ctx rest decls

/-- The outer loop of `File`, over the files. -/
def fileLoop (ctx : Ctx) : List AstFile → List CoqDecl → M (List CoqDecl)
  | [], decls => pure decls
  | f :: rest, decls => do
    let decls' ← declLoop ctx f.Decls decls
    fileLoop ctx rest decls'

/-- The type assertion `r, ok := r.(gooseError)` of the deferred handler of `File`, on the
recovered value: for a value of another type the new `r` is the zero value of `gooseError` and
`ok` is false. -/
def assertGooseError : Abort → gooseError × Bool
  | Abort.goose d => (⟨some d⟩, true)
  | Abort.runtime _ => (⟨Option.none⟩, false)

/-- The function `File`.  The deferred handler turns a `gooseError` panic into the returned
error, with the zero value of `file`; in the else branch `panic(r)` names the `r` of the type
assertion, which shadows the recovered value. -/
def File (ctx : Ctx) (fs : List AstFile) : FileResult :=
  match fileLoop ctx fs [] with
  | Except.ok decls => FileResult.returned decls Option.none
  | Except.error recovered =>
    let (r, ok) := assertGooseError recovered
    if ok then FileResult.returned [] r.err
    else FileResult.panicked r

/-! ## Properties of the IR and example programs -/

/-- A terminal binding: its expression is a return, a loop break or a loop continue. -/
def Binding.isTerminal : Binding → Bool
  | Binding.mk _ (CoqExpr.ReturnExpr _) => true
  | Binding.mk _ CoqExpr.LoopRetExpr => true
  | Binding.mk _ (CoqExpr.LoopContinueExpr _) => true
  | _ => false

/-- No binding of the list follows a terminal binding. -/
def terminalOnlyLast : List Binding → Bool
  | [] => true
  | [_] => true
  | b :: rest => !b.isTerminal && terminalOnlyLast rest

/-- A return statement or a branch statement. -/
def Stmt.isReturnOrBranch : Stmt → Bool
  | Stmt.ReturnStmt _ => true
  | Stmt.BranchStmt _ => true
  | _ => false

/-- A context without type facts. -/
def exCtx : Ctx := ⟨fun _ => GoType.none, false⟩

/-- The initializer `i := x`. -/
def exInit : Stmt := Stmt.AssignStmt [Expr.Ident "i" true] Token.DEFINE [Expr.Ident "x" true]

/-- The statement `break`. -/
def exBreak : Stmt := Stmt.BranchStmt Token.BREAK

/-- The statement `f(i)`. -/
def exCallF : Stmt :=
  Stmt.ExprStmt (Expr.CallExpr (Expr.Ident "f" true) [Expr.Ident "i" true] false)

/-- The translation of `f(i)`. -/
def exCallFBinding : Binding := NewAnon (CoqExpr.CallExpr "f" [CoqExpr.IdentExpr "i"])

/-- The then-body `return x`. -/
def exThen : List Stmt := [Stmt.ReturnStmt [Expr.Ident "x" true]]

/-- The statements `y := f(); return y`. -/
def exRest : List Stmt :=
  [Stmt.AssignStmt [Expr.Ident "y" true] Token.DEFINE [Expr.CallExpr (Expr.Ident "f" true) [] false],
   Stmt.ReturnStmt [Expr.Ident "y" true]]

/-- The translation of `return x`. -/
def exThenBlock : CoqExpr :=
  CoqExpr.BlockExpr [NewAnon (CoqExpr.ReturnExpr (NewTuple [CoqExpr.IdentExpr "x"]))]

/-- The translation of `y := f(); return y`. -/
def exRestBlock : CoqExpr :=
  CoqExpr.BlockExpr [Binding.mk ["y"] (CoqExpr.CallExpr "f" []),
    NewAnon (CoqExpr.ReturnExpr (NewTuple [CoqExpr.IdentExpr "y"]))]

/-- A context in which `m` is a map from `uint64` to `uint64`. -/
def exMapCtx : Ctx :=
  ⟨fun e => match e with
    | Expr.Ident "m" _ =>
      GoType.Map (GoType.Basic BasicKind.Uint64 "uint64") (GoType.Basic BasicKind.Uint64 "uint64")
    | _ => GoType.none, false⟩

/-- The type expression `map[string]uint64`. -/
def exStringMap : Expr := Expr.MapType (Expr.Ident "string" false) (Expr.Ident "uint64" false)

/-- The call does not end in a Go run-time panic: it returns or raises a diagnostic. -/
def NoPanic {α : Type} (r : M α) : Prop := ∀ m, r ≠ Except.error (Abort.runtime m)

/-- All declarations of a list of files, in input order. -/
def allDecls (fs : List AstFile) : List Decl := (fs.map AstFile.Decls).flatten

/-- The declaration `func f() (r uint64) \x7b \x7d`, with a named result. -/
def exNamedResult : Decl :=
  Decl.FuncDecl Option.none "f.go:1:1" Option.none "f" [] (some [⟨["r"], Expr.Ident "uint64" false⟩])
    (some [])

/-- The declaration `func g(n uint64) \x7b \x7d`. -/
def exGDecl : Decl :=
  Decl.FuncDecl Option.none "f.go:1:1" Option.none "g" [⟨["n"], Expr.Ident "uint64" false⟩]
    Option.none (some [])

/-- The declaration `func f() \x7b g(0x10) \x7d`. -/
def exHexDecl : Decl :=
  Decl.FuncDecl Option.none "f.go:3:1" Option.none "f" [] Option.none
    (some [Stmt.ExprStmt (Expr.CallExpr (Expr.Ident "g" true)
      [Expr.BasicLit Token.INT "0x10"] false)])

/-- The declaration `func h(i uint64, n uint64) \x7b if i > n \x7b \x7d \x7d`. -/
def exEmptyIfDecl : Decl :=
  Decl.FuncDecl Option.none "f.go:5:1" Option.none "h"
    [⟨["i"], Expr.Ident "uint64" false⟩, ⟨["n"], Expr.Ident "uint64" false⟩] Option.none
    (some [Stmt.IfStmt Option.none
      (Expr.BinaryExpr (Expr.Ident "i" true) Token.GTR (Expr.Ident "n" true)) [] Option.none])

/-- A context in which `uint64` is the basic type and every composite literal has the
struct type `Pair` with the fields `A` and `B`. -/
def exPairCtx : Ctx :=
  ⟨fun e => match e with
    | Expr.Ident "uint64" _ => GoType.Basic BasicKind.Uint64 "uint64"
    | Expr.CompositeLit _ _ =>
      GoType.Named "Pair" (GoType.Struct ["A", "B"] "struct\x7bA uint64; B uint64\x7d")
    | _ => GoType.none, false⟩

/-- The declaration `type Pair struct \x7b A uint64; B uint64 \x7d`. -/
def exTypeDecl : Decl :=
  Decl.GenDecl Option.none Token.TYPE
    [Spec.TypeSpec "Pair" (Expr.StructType
      [(["A"], Expr.Ident "uint64" false), (["B"], Expr.Ident "uint64" false)]) "f.go:1:6"]

/-- The translation of the declaration of `Pair`. -/
def exPairDecl : CoqDecl :=
  CoqDecl.StructDecl "Pair"
    [⟨"A", CoqType.TypeIdent "uint64"⟩, ⟨"B", CoqType.TypeIdent "uint64"⟩] ""

/-- The literal `pkg.Pair\x7bA: 1, B: 2\x7d`, whose type expression is a selector. -/
def exQualifiedLit : Expr :=
  Expr.CompositeLit (some (Expr.SelectorExpr (Expr.Ident "pkg" true) "Pair"))
    [Expr.KeyValueExpr (Expr.Ident "A" false) (Expr.BasicLit Token.INT "1"),
     Expr.KeyValueExpr (Expr.Ident "B" false) (Expr.BasicLit Token.INT "2")]

/-- The literal `Pair\x7bA: 1, B: 2\x7d`, whose type expression is an identifier. -/
def exPlainLit : Expr :=
  Expr.CompositeLit (some (Expr.Ident "Pair" true))
    [Expr.KeyValueExpr (Expr.Ident "A" false) (Expr.BasicLit Token.INT "1"),
     Expr.KeyValueExpr (Expr.Ident "B" false) (Expr.BasicLit Token.INT "2")]

/-- The elements of a composite literal that are all keyed by identifiers: each is given by
the name of the key, its `Obj` flag and the value. -/
def keyedElts (kvs : List (String × Bool × Expr)) : List Expr :=
  kvs.map (fun kv => Expr.KeyValueExpr (Expr.Ident kv.1 kv.2.1) kv.2.2)

/-- A context in which `s` is a slice of bytes, so that `len(s)` has the typed basic kind
`int`, and `n` has the untyped integer kind. -/
def exLenCtx : Ctx :=
  ⟨fun e => match e with
    | Expr.Ident "s" _ => GoType.Slice (GoType.Basic BasicKind.Uint8 "byte")
    | Expr.CallExpr (Expr.Ident "len" _) _ _ => GoType.Basic BasicKind.Int "int"
    | Expr.Ident "n" _ => GoType.Basic BasicKind.UntypedInt "untyped int"
    | _ => GoType.none, false⟩

/-- The expression `len(s)`. -/
def exLenCall : Expr := Expr.CallExpr (Expr.Ident "len" false) [Expr.Ident "s" true] false

/-- A context in which `Block` is an alias of the slice type `[]byte`, as after
`type Block = []byte`: the type recorded for the identifier is the slice type; the type
recorded for the predeclared identifier `any` is an interface type. -/
def exAliasCtx : Ctx :=
  ⟨fun e => match e with
    | Expr.Ident "Block" _ => GoType.Slice (GoType.Basic BasicKind.Uint8 "byte")
    | Expr.Ident "any" _ => GoType.Other
    | _ => GoType.none, false⟩

/-- The declaration `func f(x any) \x7b \x7d`. -/
def exAnyDecl : Decl :=
  Decl.FuncDecl Option.none "f.go:1:1" Option.none "f" [⟨["x"], Expr.Ident "any" false⟩]
    Option.none (some [])

/-- A `:=` definition with exactly one left-hand identifier and exactly one right-hand
expression. -/
def Stmt.isLoopInit : Stmt → Bool
  | Stmt.AssignStmt [Expr.Ident _ _] Token.DEFINE [_] => true
  | _ => false

/-- An assignment has at least one expression on each side, as every assignment that the Go
parser builds; any other statement qualifies. -/
def Stmt.sidesPresent : Stmt → Bool
  | Stmt.AssignStmt Lhs _ Rhs => !Lhs.isEmpty && !Rhs.isEmpty
  | _ => true

/-- The loop body `i = next; continue`. -/
def exLoopBody : List Stmt :=
  [Stmt.AssignStmt [Expr.Ident "i" true] Token.ASSIGN [Expr.Ident "next" true],
   Stmt.BranchStmt Token.CONTINUE]

/-- The condition `i > n`. -/
def exCond : Expr := Expr.BinaryExpr (Expr.Ident "i" true) Token.GTR (Expr.Ident "n" true)

/-- The translation of `i > n`. -/
def exCondExpr : CoqExpr :=
  CoqExpr.BinaryExpr (CoqExpr.IdentExpr "i") BinOp.OpGreaterThan (CoqExpr.IdentExpr "n")

/-- The expression `tt` returned at the end of a block without a terminal statement. -/
def returnUnit : CoqExpr := CoqExpr.ReturnExpr (CoqExpr.IdentExpr "tt")

/-- The else branch of a conditional as the Go parser builds it: a block or another
conditional. -/
def Stmt.isBlockOrIf : Stmt → Bool
  | Stmt.BlockStmt _ => true
  | Stmt.IfStmt _ _ _ _ => true
  | _ => false

mutual
/-- Every conditional that the translator reaches inside the statement (in a block, in a
then-body, in an else branch or in a loop body) has an else branch that is absent, a block or
another conditional. -/
def Stmt.elseShape : Stmt → Bool
  | Stmt.BlockStmt List => stmtsElseShape List
  | Stmt.IfStmt _ _ Body Else => stmtsElseShape Body && optElseShape Else
  | Stmt.ForStmt _ _ _ Body => stmtsElseShape Body
  | _ => true
/-- The statements of a list all have the shape `Stmt.elseShape`. -/
def stmtsElseShape : List Stmt → Bool
  | [] => true
  | s :: rest => s.elseShape && stmtsElseShape rest
/-- An else branch is absent, or it is a block or a conditional of the shape
`Stmt.elseShape`. -/
def optElseShape : Option Stmt → Bool
  | Option.none => true
  | some s => s.isBlockOrIf && s.elseShape
end

/-- The diagnostic of the first `nope` branch of `ifStmt`. -/
def bodyNope : Abort :=
  Abort.goose ⟨DiagClass.nope, "if statement body ends with an assignment"⟩

/-- The diagnostic of the second `nope` branch of `ifStmt`. -/
def elseNope : Abort :=
  Abort.goose ⟨DiagClass.nope, "if statement else ends with an assignment"⟩

/-- The call ends in neither of the two `nope` diagnostics of `ifStmt`. -/
def Avoids {α : Type} (m : M α) : Prop :=
  m ≠ Except.error bodyNope ∧ m ≠ Except.error elseNope

/-- The conditional `if i > n \x7b return x \x7d else \x7b f(i) \x7d`. -/
def exElseIf : Stmt :=
  Stmt.IfStmt Option.none exCond exThen (some (Stmt.BlockStmt [exCallF]))

/-! ## Theorems -/

theorem stmts_exThen : stmts exCtx exThen Option.none = Except.ok exThenBlock := by
  simp [stmts, stmtLoop, exThen, exThenBlock, cursor.HasNext, cursor.Next, stmt, returnExpr,
    exprList, expr, collect, Step.stay, bind, Except.bind, pure, Except.pure]

theorem stmts_exRest : stmts exCtx exRest Option.none = Except.ok exRestBlock := by
  simp [stmts, stmtLoop, exRest, exRestBlock, cursor.HasNext, cursor.Next, stmt, returnExpr,
    assignStmt, defineStmt, defineNames, index, getIdent, isIdent, callExpr, methodExpr,
    exprList, expr, collect, Step.stay, bind, Except.bind, pure, Except.pure]

theorem endsWithReturn_of_getLast (b : List Stmt) (last : Stmt)
    (h : b.getLast? = some last) : endsWithReturn b = Except.ok last.isReturnOrBranch := by
  have hidx : ∃ n, b.length = n + 1 ∧ index b n = Except.ok last := by
    cases hb : b with
    | nil => simp [hb] at h
    | cons x xs =>
      refine ⟨xs.length, by simp, ?_⟩
      rw [hb, List.getLast?_eq_getElem?] at h
      simp at h
      simp [index, h, pure, Except.pure]
  obtain ⟨n, hn, hi⟩ := hidx
  unfold endsWithReturn
  rw [hn]
  simp only [hi, bind, Except.bind]
  cases last <;> rfl

/-- C2. Early-return lifting: for a conditional without an else branch whose then-body ends in
a return or branch statement and that is followed by a non-empty list `rest`, `ifStmt` returns
the anonymous binding of the conditional whose else-branch is `stmts rest` and leaves the cursor
empty, so `stmts` ends its block with that conditional. -/
theorem ifStmt_early_return_lifting (ctx : Ctx) (Init : Option Stmt) (Cond : Expr)
    (Body rest : List Stmt) (last : Stmt) (loopVar : Option String)
    (thenBlock cond els : CoqExpr)
    (hlast : Body.getLast? = some last) (hret : last.isReturnOrBranch = true)
    (hrest : rest ≠ [])
    (hthen : stmts ctx Body loopVar = Except.ok thenBlock)
    (hcond : expr ctx Cond = Except.ok cond)
    (hels : stmts ctx rest loopVar = Except.ok els) :
    (ifStmt ctx Cond Body Option.none ⟨rest⟩ loopVar).map Step.out
        = Except.ok (NewAnon (CoqExpr.IfExpr cond thenBlock els), ⟨[]⟩)
      ∧ stmts ctx (Stmt.IfStmt Init Cond Body Option.none :: rest) loopVar
        = Except.ok (CoqExpr.BlockExpr [NewAnon (CoqExpr.IfExpr cond thenBlock els)]) := by
  have hends := endsWithReturn_of_getLast Body last hlast
  rw [hret] at hends
  have hnext : cursor.HasNext ⟨rest⟩ = true := by
    cases rest with
    | nil => exact absurd rfl hrest
    | cons x xs => simp [cursor.HasNext]
  have hsz : sizeOf (cursor.mk []).Stmts ≤ sizeOf (cursor.mk rest).Stmts := by
    cases rest <;> simp
    omega
  have hif : ∃ h, ifStmt ctx Cond Body Option.none ⟨rest⟩ loopVar
      = Except.ok ⟨NewAnon (CoqExpr.IfExpr cond thenBlock els), ⟨[]⟩, h⟩ := by
    refine ⟨hsz, ?_⟩
    rw [ifStmt]
    simp [stmt, blockStmt, hthen, Step.stay, NewAnon, Binding.Unwrap, hcond, hends, hnext,
      cursor.Remainder, hels, bind, Except.bind, pure, Except.pure]
  obtain ⟨h, hif⟩ := hif
  constructor
  · rw [hif]; rfl
  · rw [stmts, stmtLoop]
    simp [cursor.HasNext, cursor.Next, stmt, hif, bind, Except.bind, pure, Except.pure]
    rw [stmtLoop]
    simp [cursor.HasNext, pure, Except.pure]

/-- The scenario `if cond \x7b return x \x7d; y := f(); return y`. -/
theorem ifStmt_early_return_lifting_witness :
    (ifStmt exCtx (Expr.Ident "cond" true) exThen Option.none ⟨exRest⟩ Option.none).map Step.out
        = Except.ok (NewAnon (CoqExpr.IfExpr (CoqExpr.IdentExpr "cond") exThenBlock exRestBlock), ⟨[]⟩)
      ∧ stmts exCtx (Stmt.IfStmt Option.none (Expr.Ident "cond" true) exThen Option.none :: exRest)
          Option.none
        = Except.ok (CoqExpr.BlockExpr
            [NewAnon (CoqExpr.IfExpr (CoqExpr.IdentExpr "cond") exThenBlock exRestBlock)]) :=
  ifStmt_early_return_lifting exCtx Option.none (Expr.Ident "cond" true) exThen exRest
    (Stmt.ReturnStmt [Expr.Ident "x" true]) Option.none exThenBlock (CoqExpr.IdentExpr "cond")
    exRestBlock rfl rfl (by simp [exRest]) stmts_exThen rfl stmts_exRest

/-- C1. The loop `for i := x; ; \x7b f(i); break; break \x7d` is accepted, and the block of the
resulting loop has a binding after the terminal binding of the first `break`: `stmt` checks
that nothing follows a return but makes no such check for a branch statement. -/
theorem forStmt_binding_after_break :
    forStmt exCtx (some exInit) Option.none Option.none [exCallF, exBreak, exBreak]
        = Except.ok (CoqExpr.LoopExpr "i" (CoqExpr.IdentExpr "x")
            (CoqExpr.BlockExpr
              [exCallFBinding, NewAnon CoqExpr.LoopRetExpr, NewAnon CoqExpr.LoopRetExpr]))
      ∧ (NewAnon CoqExpr.LoopRetExpr).isTerminal = true
      ∧ terminalOnlyLast
          [exCallFBinding, NewAnon CoqExpr.LoopRetExpr, NewAnon CoqExpr.LoopRetExpr] = false := by
  refine ⟨?_, rfl, rfl⟩
  simp [forStmt, loopVar, exInit, exBreak, exCallF, exCallFBinding, index, getIdent, isIdent,
    expr, exprList, callExpr, methodExpr, collect, stmtLoop, cursor.HasNext, cursor.Next, stmt,
    Step.stay, bind, Except.bind, pure, Except.pure]

/-- C3. The loop `for i := x; ; \x7b f(i) \x7d` and a loop with an empty body are both accepted by
`forStmt`: the body block of the first ends in a call, not in a loop continue or a loop break,
and the body block of the second is empty. -/
theorem forStmt_accepts_fall_through :
    forStmt exCtx (some exInit) Option.none Option.none [exCallF]
        = Except.ok (CoqExpr.LoopExpr "i" (CoqExpr.IdentExpr "x")
            (CoqExpr.BlockExpr [exCallFBinding]))
      ∧ exCallFBinding.isTerminal = false
      ∧ forStmt exCtx (some exInit) Option.none Option.none []
        = Except.ok (CoqExpr.LoopExpr "i" (CoqExpr.IdentExpr "x") (CoqExpr.BlockExpr [])) := by
  refine ⟨?_, rfl, ?_⟩
  · simp [forStmt, loopVar, exInit, exCallF, exCallFBinding, index, getIdent, isIdent, expr,
      exprList, callExpr, methodExpr, collect, stmtLoop, cursor.HasNext, cursor.Next, stmt,
      Step.stay, bind, Except.bind, pure, Except.pure]
  · simp [forStmt, loopVar, exInit, index, getIdent, expr, stmtLoop, cursor.HasNext,
      bind, Except.bind, pure, Except.pure]

/-- C4. Inside a loop with loop variable `v`, a plain assignment to `v` raises a diagnostic when
no statement follows it in the cursor or when the next statement is not `continue`; when the
next statement is `continue`, the pair is consumed and the result is the anonymous binding of
the loop continue of the translated right-hand side. -/
theorem assignStmt_loop_variable (ctx : Ctx) (v : String) (o : Bool) (rhs : Expr)
    (Rhs : List Expr) (next : Stmt) (rest : List Stmt)
    (hnext : next ≠ Stmt.BranchStmt Token.CONTINUE) :
    (∃ d, assignStmt ctx [Expr.Ident v o] Token.ASSIGN Rhs ⟨[]⟩ (some v)
        = Except.error (Abort.goose d))
      ∧ (∃ d, assignStmt ctx [Expr.Ident v o] Token.ASSIGN Rhs ⟨next :: rest⟩ (some v)
        = Except.error (Abort.goose d))
      ∧ (assignStmt ctx [Expr.Ident v o] Token.ASSIGN [rhs]
          ⟨Stmt.BranchStmt Token.CONTINUE :: rest⟩ (some v)).map Step.out
        = (expr ctx rhs).map (fun r => (NewAnon (CoqExpr.LoopContinueExpr r), ⟨rest⟩)) := by
  refine ⟨?_, ?_, ?_⟩
  · by_cases hR : Rhs.length > 1
    · exact ⟨_, by simp [assignStmt, hR, unsupported]; rfl⟩
    · exact ⟨_, by simp [assignStmt, hR, index, loopAssignStmt, cursor.HasNext, unsupported,
        bind, Except.bind, pure, Except.pure]; rfl⟩
  · by_cases hR : Rhs.length > 1
    · exact ⟨_, by simp [assignStmt, hR, unsupported]; rfl⟩
    · have hc : ∀ n : Stmt, n ≠ Stmt.BranchStmt Token.CONTINUE →
          (match n with
          | Stmt.BranchStmt Tok => Tok == Token.CONTINUE
          | _ => false) = false := by
        intro n hn
        cases n with
        | BranchStmt Tok =>
          cases Tok <;> first | rfl | exact absurd rfl hn
        | _ => rfl
      exact ⟨_, by simp [assignStmt, hR, index, loopAssignStmt, cursor.HasNext, cursor.Next,
        hc next hnext, unsupported, bind, Except.bind, pure, Except.pure]; rfl⟩
  · cases h : expr ctx rhs <;>
      simp [assignStmt, index, loopAssignStmt, cursor.HasNext, cursor.Next, h, Step.out,
        Except.map, bind, Except.bind, pure, Except.pure]

/-- The assignment `i = x` in a loop over `i`, followed by nothing, by `break` and by
`continue`. -/
theorem assignStmt_loop_variable_witness :
    (∃ d, assignStmt exCtx [Expr.Ident "i" true] Token.ASSIGN [Expr.Ident "x" true] ⟨[]⟩ (some "i")
        = Except.error (Abort.goose d))
      ∧ (∃ d, assignStmt exCtx [Expr.Ident "i" true] Token.ASSIGN [Expr.Ident "x" true]
          ⟨exBreak :: []⟩ (some "i") = Except.error (Abort.goose d))
      ∧ (assignStmt exCtx [Expr.Ident "i" true] Token.ASSIGN [Expr.Ident "x" true]
          ⟨Stmt.BranchStmt Token.CONTINUE :: []⟩ (some "i")).map Step.out
        = (expr exCtx (Expr.Ident "x" true)).map
            (fun r => (NewAnon (CoqExpr.LoopContinueExpr r), ⟨[]⟩)) :=
  assignStmt_loop_variable exCtx "i" true (Expr.Ident "x" true) [Expr.Ident "x" true] exBreak []
    (by simp [exBreak])

/-- C7. For arguments `a` and `b` that translate, `callExpr` on `append(a, b)` returns the
call `Data.sliceAppend` of the two translations, on `append(a, b...)` it returns the call
`Data.sliceAppendSlice` of the two translations, and the two results differ. -/
theorem callExpr_append_forms (ctx : Ctx) (o : Bool) (a b : Expr) (a' b' : CoqExpr)
    (ha : expr ctx a = Except.ok a') (hb : expr ctx b = Except.ok b') :
    callExpr ctx (Expr.Ident "append" o) [a, b] false (exprList ctx [a, b])
        = Except.ok (NewCallExpr "Data.sliceAppend" [a', b'])
      ∧ callExpr ctx (Expr.Ident "append" o) [a, b] true (exprList ctx [a, b])
        = Except.ok (NewCallExpr "Data.sliceAppendSlice" [a', b'])
      ∧ NewCallExpr "Data.sliceAppend" [a', b'] ≠ NewCallExpr "Data.sliceAppendSlice" [a', b'] := by
  refine ⟨?_, ?_, ?_⟩
  · simp [callExpr, isIdent, getIdent, exprList, sub, ha, hb, bind, Except.bind, pure,
      Except.pure]
  · simp [callExpr, isIdent, getIdent, exprList, sub, ha, hb, bind, Except.bind, pure,
      Except.pure]
  · simp [NewCallExpr]

/-- The calls `append(s, x)` and `append(s, x...)`. -/
theorem callExpr_append_forms_witness :
    callExpr exCtx (Expr.Ident "append" false) [Expr.Ident "s" true, Expr.Ident "x" true] false
          (exprList exCtx [Expr.Ident "s" true, Expr.Ident "x" true])
        = Except.ok (NewCallExpr "Data.sliceAppend" [CoqExpr.IdentExpr "s", CoqExpr.IdentExpr "x"])
      ∧ callExpr exCtx (Expr.Ident "append" false) [Expr.Ident "s" true, Expr.Ident "x" true] true
          (exprList exCtx [Expr.Ident "s" true, Expr.Ident "x" true])
        = Except.ok (NewCallExpr "Data.sliceAppendSlice"
            [CoqExpr.IdentExpr "s", CoqExpr.IdentExpr "x"])
      ∧ NewCallExpr "Data.sliceAppend" [CoqExpr.IdentExpr "s", CoqExpr.IdentExpr "x"]
        ≠ NewCallExpr "Data.sliceAppendSlice" [CoqExpr.IdentExpr "s", CoqExpr.IdentExpr "x"] :=
  callExpr_append_forms exCtx false (Expr.Ident "s" true) (Expr.Ident "x" true)
    (CoqExpr.IdentExpr "s") (CoqExpr.IdentExpr "x") rfl rfl

/-- C8. For a plain assignment `m[k] = v` where `m` has a map type, with any cursor and inside
or outside a loop, `assignStmt` returns the anonymous binding of the call
`Data.hashTableAlter(expr m, expr k, HashTableInsert(expr v))` and leaves the cursor as it is;
whenever it returns, the binding has that form. -/
theorem assignStmt_map_update (ctx : Ctx) (X Index v : Expr) (c : cursor)
    (loopVar : Option String) (kt vt : GoType) (hm : ctx.typeOf X = GoType.Map kt vt) :
    (∀ x i value, expr ctx X = Except.ok x → expr ctx Index = Except.ok i →
        expr ctx v = Except.ok value →
        (assignStmt ctx [Expr.IndexExpr X Index] Token.ASSIGN [v] c loopVar).map Step.out
          = Except.ok (NewAnon (NewCallExpr "Data.hashTableAlter"
              [x, i, CoqExpr.HashTableInsert value]), c))
      ∧ (∀ r, assignStmt ctx [Expr.IndexExpr X Index] Token.ASSIGN [v] c loopVar = Except.ok r →
        ∃ x i value, expr ctx X = Except.ok x ∧ expr ctx Index = Except.ok i ∧
          expr ctx v = Except.ok value ∧
          r.binding = NewAnon (NewCallExpr "Data.hashTableAlter"
            [x, i, CoqExpr.HashTableInsert value]) ∧ r.next = c) := by
  constructor
  · intro x i value hx hi hv
    simp [assignStmt, index, hm, hx, hi, hv, Step.stay, Step.out, Except.map, bind, Except.bind,
      pure, Except.pure]
  · intro r hr
    cases hv : expr ctx v with
    | error e => simp [assignStmt, index, hm, hv, bind, Except.bind, pure, Except.pure] at hr
    | ok value =>
      cases hx : expr ctx X with
      | error e =>
        simp [assignStmt, index, hm, hv, hx, bind, Except.bind, pure, Except.pure] at hr
      | ok x =>
        cases hi : expr ctx Index with
        | error e =>
          simp [assignStmt, index, hm, hv, hx, hi, bind, Except.bind, pure, Except.pure] at hr
        | ok i =>
          simp [assignStmt, index, hm, hv, hx, hi, Step.stay, bind, Except.bind, pure,
            Except.pure] at hr
          refine ⟨x, i, value, rfl, rfl, rfl, ?_, ?_⟩ <;> rw [← hr]

/-- The assignment `m[k] = v` outside a loop, with `m` a map. -/
theorem assignStmt_map_update_witness :
    (assignStmt exMapCtx [Expr.IndexExpr (Expr.Ident "m" true) (Expr.Ident "k" true)]
        Token.ASSIGN [Expr.Ident "v" true] ⟨[]⟩ Option.none).map Step.out
      = Except.ok (NewAnon (NewCallExpr "Data.hashTableAlter"
          [CoqExpr.IdentExpr "m", CoqExpr.IdentExpr "k",
            CoqExpr.HashTableInsert (CoqExpr.IdentExpr "v")]), ⟨[]⟩) :=
  (assignStmt_map_update exMapCtx (Expr.Ident "m" true) (Expr.Ident "k" true)
    (Expr.Ident "v" true) ⟨[]⟩ Option.none (GoType.Basic BasicKind.Uint64 "uint64")
    (GoType.Basic BasicKind.Uint64 "uint64") rfl).1
    (CoqExpr.IdentExpr "m") (CoqExpr.IdentExpr "k") (CoqExpr.IdentExpr "v") rfl rfl rfl

/-- C9. The map type `map[string]uint64`, whose key is an identifier other than `uint64`, raises
no diagnostic: `mapType` returns the zero `MapType`, with a nil value type, `coqType` passes it
on and `make` builds a hash table from it. -/
theorem mapType_accepts_string_key :
    mapType (Expr.Ident "string" false) (coqType exCtx (Expr.Ident "uint64" false))
        = Except.ok (CoqType.MapType CoqType.nil)
      ∧ coqType exCtx exStringMap = Except.ok (CoqType.MapType CoqType.nil)
      ∧ expr exCtx (Expr.CallExpr (Expr.Ident "make" false) [exStringMap] false)
        = Except.ok (NewCallExpr "Data.newHashTable" [CoqExpr.TypeExpr CoqType.nil]) :=
  ⟨rfl, rfl, rfl⟩

theorem coqTypeOfType_noPanic (t : GoType) : NoPanic (coqTypeOfType t) := by
  intro m
  cases t with
  | Named name u => cases u <;> simp [coqTypeOfType, pure, Except.pure]
  | Basic kind name =>
    simp only [coqTypeOfType]
    split_ifs <;> simp [todo, pure, Except.pure]
  | _ => simp [coqTypeOfType, pure, Except.pure]

theorem coqType_noPanic (ctx : Ctx) : ∀ e : Expr, NoPanic (coqType ctx e)
  | Expr.Ident name o => by
    simp only [coqType]; exact coqTypeOfType_noPanic _
  | Expr.MapType Key Value => by
    intro m
    have ih := coqType_noPanic ctx Value m
    cases Key <;> simp [coqType, mapType, unsupported]
    split_ifs
    · cases h : coqType ctx Value with
      | error e => simp [bind, Except.bind]; intro h'; exact ih (by rw [h, h'])
      | ok v => simp [bind, Except.bind, pure, Except.pure]
    · simp [pure, Except.pure]
  | Expr.SelectorExpr X Sel => by
    intro m
    simp only [coqType, selectorExprType]
    split_ifs <;> simp [unsupported, pure, Except.pure]
  | Expr.ArrayType Len Elt => by
    intro m
    have ih := coqType_noPanic ctx Elt m
    cases Len with
    | some l => simp [coqType, arrayType, unsupported]
    | none =>
      cases h : coqType ctx Elt with
      | error e =>
        simp [coqType, arrayType, h, bind, Except.bind]; intro h'; exact ih (by rw [h, h'])
      | ok v => simp [coqType, arrayType, h, bind, Except.bind, pure, Except.pure]
  | Expr.StarExpr X => by
    intro m
    have ih := coqType_noPanic ctx X m
    cases h : coqType ctx X with
    | error e => simp [coqType, h, bind, Except.bind]; intro h'; exact ih (by rw [h, h'])
    | ok v => simp [coqType, h, bind, Except.bind, pure, Except.pure]
  | Expr.CallExpr _ _ _ => by intro m; simp [coqType, unsupported]
  | Expr.CompositeLit _ _ => by intro m; simp [coqType, unsupported]
  | Expr.KeyValueExpr _ _ => by intro m; simp [coqType, unsupported]
  | Expr.BasicLit _ _ => by intro m; simp [coqType, unsupported]
  | Expr.BinaryExpr _ _ _ => by intro m; simp [coqType, unsupported]
  | Expr.SliceExpr _ _ _ _ _ => by intro m; simp [coqType, unsupported]
  | Expr.IndexExpr _ _ => by intro m; simp [coqType, unsupported]
  | Expr.UnaryExpr _ _ => by intro m; simp [coqType, unsupported]
  | Expr.ParenExpr _ => by intro m; simp [coqType, unsupported]
  | Expr.StructType _ => by intro m; simp [coqType, unsupported]
  | Expr.Other => by intro m; simp [coqType, unsupported]

theorem fieldDecl_noPanic (ctx : Ctx) (f : Field) : NoPanic (fieldDecl ctx f) := by
  intro m
  have ih := coqType_noPanic ctx f.Typ m
  unfold fieldDecl
  split_ifs
  · simp [futureWork]
  · cases hn : f.Names with
    | nil => simp [unsupported]
    | cons n ns =>
      cases h : coqType ctx f.Typ with
      | error e => simp [bind, Except.bind]; intro h'; exact ih (by rw [h, h'])
      | ok v => simp [bind, Except.bind, pure, Except.pure]

theorem fieldDecls_noPanic (ctx : Ctx) (fields : List Field) : NoPanic (fieldDecls ctx fields) := by
  induction fields with
  | nil => intro m; simp [fieldDecls, pure, Except.pure]
  | cons f rest ih =>
    intro m
    have h1 := fieldDecl_noPanic ctx f m
    have h2 := ih m
    cases hf : fieldDecl ctx f with
    | error e => simp [fieldDecls, hf, bind, Except.bind]; intro h'; exact h1 (by rw [hf, h'])
    | ok d =>
      cases hr : fieldDecls ctx rest with
      | error e => simp [fieldDecls, hf, hr, bind, Except.bind]; intro h'; exact h2 (by rw [hr, h'])
      | ok ds => simp [fieldDecls, hf, hr, bind, Except.bind, pure, Except.pure]

theorem checkUnnamed_named (rs : List Field) (h : ∃ r ∈ rs, r.Names ≠ []) :
    checkUnnamed rs = unsupported "named returned value" := by
  induction rs with
  | nil => simp at h
  | cons r rest ih =>
    unfold checkUnnamed
    by_cases hr : r.Names.length > 0
    · simp [hr]
    · simp only [hr, if_false]
      apply ih
      obtain ⟨x, hx, hne⟩ := h
      rcases List.mem_cons.mp hx with rfl | hx
      · exact absurd (List.length_pos.mpr hne) hr
      · exact ⟨x, hx, hne⟩

theorem checkUnnamed_unnamed (rs : List Field) (h : ∀ r ∈ rs, r.Names = []) :
    checkUnnamed rs = Except.ok () := by
  induction rs with
  | nil => rfl
  | cons r rest ih =>
    unfold checkUnnamed
    have hr : r.Names = [] := h r (List.mem_cons_self _ _)
    simp only [hr, List.length_nil, gt_iff_lt, lt_self_iff_false, if_false]
    exact ih (fun x hx => h x (List.mem_cons_of_mem _ hx))

theorem resultTypes_unnamed (ctx : Ctx) (rs : List Field) (h : ∀ r ∈ rs, r.Names = []) :
    resultTypes ctx rs = collect (rs.map (fun r => coqType ctx r.Typ)) := by
  induction rs with
  | nil => rfl
  | cons r rest ih =>
    have hr : r.Names = [] := h r (List.mem_cons_self _ _)
    have ih' := ih (fun x hx => h x (List.mem_cons_of_mem _ hx))
    simp [resultTypes, hr, ih', collect]

theorem funcDecl_named_result (ctx : Ctx) (Doc : Option String) (Pos : String)
    (Recv : Option (List Field)) (Name : String) (Params rs : List Field)
    (Body : Option (List Stmt)) (h : ∃ r ∈ rs, r.Names ≠ []) :
    ∃ d, funcDecl ctx Doc Pos Recv Name Params (some rs) Body = Except.error (Abort.goose d) := by
  cases Recv with
  | some recv => exact ⟨_, by simp [funcDecl, futureWork]; rfl⟩
  | none =>
    cases hp : fieldDecls ctx Params with
    | error e =>
      cases e with
      | goose d => exact ⟨d, by simp [funcDecl, hp, bind, Except.bind]⟩
      | runtime m => exact absurd hp (fieldDecls_noPanic ctx Params m)
    | ok args =>
      exact ⟨_, by simp [funcDecl, hp, returnType, checkUnnamed_named rs h, unsupported, bind,
        Except.bind]; rfl⟩

theorem declLoop_ok (ctx : Ctx) : ∀ (ds : List Decl) (acc r : List CoqDecl),
    declLoop ctx ds acc = Except.ok r → ∀ d ∈ ds, ∃ x, maybeDecl ctx d = Except.ok x
  | [], _, _, _ => by simp
  | d :: rest, acc, r, h => by
    intro d' hd'
    cases hm : maybeDecl ctx d with
    | error e => simp [declLoop, hm, bind, Except.bind] at h
    | ok x =>
      rcases List.mem_cons.mp hd' with rfl | hmem
      · exact ⟨x, hm⟩
      · cases x with
        | none =>
          simp [declLoop, hm, bind, Except.bind] at h
          exact declLoop_ok ctx rest acc r h d' hmem
        | some y =>
          simp [declLoop, hm, bind, Except.bind] at h
          exact declLoop_ok ctx rest _ r h d' hmem

theorem fileLoop_ok (ctx : Ctx) : ∀ (fs : List AstFile) (acc r : List CoqDecl),
    fileLoop ctx fs acc = Except.ok r →
      ∀ f ∈ fs, ∀ d ∈ f.Decls, ∃ x, maybeDecl ctx d = Except.ok x
  | [], _, _, _ => by simp
  | f :: rest, acc, r, h => by
    intro f' hf' d hd
    cases hl : declLoop ctx f.Decls acc with
    | error e => simp [fileLoop, hl, bind, Except.bind] at h
    | ok acc' =>
      simp [fileLoop, hl, bind, Except.bind] at h
      rcases List.mem_cons.mp hf' with rfl | hmem
      · exact declLoop_ok ctx _ acc acc' hl d hd
      · exact fileLoop_ok ctx rest acc' r h f' hmem d hd

/-- C5. A function declaration whose result list has a field that names an identifier makes
`funcDecl` fail with a diagnostic, so `File` on that declaration returns no declaration and an
error, and `File` on any list of files that contains it never returns without an error.  The
return type of an absent result list is the type identifier `unit`, and that of a list of
unnamed results is the tuple of their resolved types in order. -/
theorem funcDecl_rejects_named_results (ctx : Ctx) (Doc : Option String) (Pos : String)
    (Recv : Option (List Field)) (Name : String) (Params rs : List Field)
    (Body : Option (List Stmt)) (h : ∃ r ∈ rs, r.Names ≠ []) :
    (∃ d, funcDecl ctx Doc Pos Recv Name Params (some rs) Body = Except.error (Abort.goose d))
      ∧ (∃ d, File ctx [⟨[Decl.FuncDecl Doc Pos Recv Name Params (some rs) Body]⟩]
          = FileResult.returned [] (some d))
      ∧ (∀ fs f, f ∈ fs → Decl.FuncDecl Doc Pos Recv Name Params (some rs) Body ∈ f.Decls →
          ∀ ds, File ctx fs ≠ FileResult.returned ds Option.none)
      ∧ returnType ctx Option.none = Except.ok (CoqType.TypeIdent "unit")
      ∧ (∀ us : List Field, (∀ r ∈ us, r.Names = []) →
          returnType ctx (some us)
            = (collect (us.map (fun r => coqType ctx r.Typ))).map NewTupleType) := by
  obtain ⟨d, hd⟩ := funcDecl_named_result ctx Doc Pos Recv Name Params rs Body h
  refine ⟨⟨d, hd⟩, ⟨d, ?_⟩, ?_, rfl, ?_⟩
  · simp [File, assertGooseError, fileLoop, declLoop, maybeDecl, hd, bind, Except.bind]
  · intro fs f hf hmem ds hfile
    cases hl : fileLoop ctx fs [] with
    | error e =>
      cases e <;> simp [File, assertGooseError, hl] at hfile
    | ok r =>
      obtain ⟨x, hx⟩ := fileLoop_ok ctx fs [] r hl f hf _ hmem
      simp [maybeDecl, hd, bind, Except.bind] at hx
  · intro us hus
    simp only [returnType, checkUnnamed_unnamed us hus, resultTypes_unnamed ctx us hus]
    cases collect (us.map (fun r => coqType ctx r.Typ)) <;> rfl

/-- The declaration `func f() (r uint64) \x7b \x7d`, alone and after the declaration of `Pair`,
and the return type of the unnamed result list `(uint64)`. -/
theorem funcDecl_rejects_named_results_witness :
    (∃ d, funcDecl exPairCtx Option.none "f.go:1:1" Option.none "f" []
        (some [⟨["r"], Expr.Ident "uint64" false⟩]) (some []) = Except.error (Abort.goose d))
      ∧ (∃ d, File exPairCtx [⟨[exNamedResult]⟩] = FileResult.returned [] (some d))
      ∧ File exPairCtx [⟨[exTypeDecl, exNamedResult]⟩]
          ≠ FileResult.returned [exPairDecl] Option.none
      ∧ returnType exPairCtx Option.none = Except.ok (CoqType.TypeIdent "unit")
      ∧ returnType exPairCtx (some [⟨[], Expr.Ident "uint64" false⟩])
          = Except.ok (CoqType.TupleType [CoqType.TypeIdent "uint64"]) :=
  have h := funcDecl_rejects_named_results exPairCtx Option.none "f.go:1:1" Option.none "f" []
    [⟨["r"], Expr.Ident "uint64" false⟩] (some [])
    ⟨⟨["r"], Expr.Ident "uint64" false⟩, List.mem_singleton.mpr rfl, by simp⟩
  ⟨h.1, h.2.1,
    h.2.2.1 [⟨[exTypeDecl, exNamedResult]⟩] ⟨[exTypeDecl, exNamedResult]⟩
      (List.mem_singleton.mpr rfl) (List.mem_cons_of_mem _ (List.mem_singleton.mpr rfl))
      [exPairDecl],
    h.2.2.2.1,
    h.2.2.2.2 [⟨[], Expr.Ident "uint64" false⟩]
      (fun r hr => by rw [List.mem_singleton.mp hr])⟩

theorem declLoop_all_ok (ctx : Ctx) : ∀ (ds : List Decl) (acc : List CoqDecl)
    (rs : List (Option CoqDecl)), collect (ds.map (maybeDecl ctx)) = Except.ok rs →
    declLoop ctx ds acc = Except.ok (acc ++ rs.filterMap id)
  | [], acc, rs, h => by
    simp [collect, pure, Except.pure] at h
    subst h
    simp [declLoop, pure, Except.pure]
  | d :: rest, acc, rs, h => by
    cases hm : maybeDecl ctx d with
    | error e => simp [collect, hm, bind, Except.bind] at h
    | ok x =>
      cases hc : collect (rest.map (maybeDecl ctx)) with
      | error e => simp [collect, hm, hc, bind, Except.bind] at h
      | ok xs =>
        simp [collect, hm, hc, bind, Except.bind, pure, Except.pure] at h
        subst h
        cases x with
        | none =>
          simp [declLoop, hm, bind, Except.bind, declLoop_all_ok ctx rest acc xs hc]
        | some y =>
          simp [declLoop, hm, bind, Except.bind, declLoop_all_ok ctx rest (acc ++ [y]) xs hc]

theorem declLoop_first_abort (ctx : Ctx) : ∀ (pre : List Decl) (d : Decl) (post : List Decl)
    (acc : List CoqDecl) (e : Abort), (∀ x ∈ pre, ∃ r, maybeDecl ctx x = Except.ok r) →
    maybeDecl ctx d = Except.error e → declLoop ctx (pre ++ d :: post) acc = Except.error e
  | [], d, post, acc, e, _, hd => by
    simp [declLoop, hd, bind, Except.bind]
  | p :: pre, d, post, acc, e, hpre, hd => by
    obtain ⟨r, hr⟩ := hpre p (List.mem_cons_self _ _)
    have hpre' : ∀ x ∈ pre, ∃ r, maybeDecl ctx x = Except.ok r :=
      fun x hx => hpre x (List.mem_cons_of_mem _ hx)
    cases r with
    | none =>
      simp [declLoop, hr, bind, Except.bind, declLoop_first_abort ctx pre d post acc e hpre' hd]
    | some y =>
      simp [declLoop, hr, bind, Except.bind,
        declLoop_first_abort ctx pre d post (acc ++ [y]) e hpre' hd]

theorem declLoop_append (ctx : Ctx) : ∀ (xs ys : List Decl) (acc : List CoqDecl),
    declLoop ctx (xs ++ ys) acc = (declLoop ctx xs acc) >>= (declLoop ctx ys)
  | [], ys, acc => by simp [declLoop, bind, Except.bind, pure, Except.pure]
  | x :: xs, ys, acc => by
    cases hm : maybeDecl ctx x with
    | error e => simp [declLoop, hm, bind, Except.bind]
    | ok r =>
      cases r with
      | none =>
        have ih := declLoop_append ctx xs ys acc
        simp [declLoop, hm, bind, Except.bind] at ih ⊢
        exact ih
      | some y =>
        have ih := declLoop_append ctx xs ys (acc ++ [y])
        simp [declLoop, hm, bind, Except.bind] at ih ⊢
        exact ih

theorem fileLoop_eq_declLoop (ctx : Ctx) : ∀ (fs : List AstFile) (acc : List CoqDecl),
    fileLoop ctx fs acc = declLoop ctx (allDecls fs) acc
  | [], acc => by simp [fileLoop, allDecls, declLoop]
  | f :: rest, acc => by
    have happ : allDecls (f :: rest) = f.Decls ++ allDecls rest := by simp [allDecls]
    rw [happ, declLoop_append]
    cases hl : declLoop ctx f.Decls acc with
    | error e => simp [fileLoop, hl, bind, Except.bind]
    | ok acc' => simp [fileLoop, hl, bind, Except.bind, fileLoop_eq_declLoop ctx rest acc']

/-- C10. A file with the declarations `func g(n uint64) \x7b \x7d` and `func f() \x7b g(0x10) \x7d`:
the traversal ends in the panic of `basicLiteral` with the error of `strconv.ParseUint`, which
is not a `gooseError`.  The handler of `File` then panics with the zero `gooseError` of its
failed type assertion: `File` returns neither a file nor an error, and the caller does not see
the value of the first panic.  It is the same for the file with the declaration
`func h(i uint64, n uint64) \x7b if i > n \x7b \x7d \x7d`, whose traversal ends in an index out of range. -/
theorem File_panics_on_hex_literal :
    fileLoop exPairCtx [⟨[exGDecl, exHexDecl]⟩] []
        = runtimePanic "strconv.ParseUint: parsing failed"
      ∧ File exPairCtx [⟨[exGDecl, exHexDecl]⟩] = FileResult.panicked ⟨Option.none⟩
      ∧ (∀ ds err, File exPairCtx [⟨[exGDecl, exHexDecl]⟩] ≠ FileResult.returned ds err)
      ∧ fileLoop exPairCtx [⟨[exEmptyIfDecl]⟩] [] = runtimePanic "index out of range"
      ∧ File exPairCtx [⟨[exEmptyIfDecl]⟩] = FileResult.panicked ⟨Option.none⟩ := by
  have ht : coqType exPairCtx (Expr.Ident "uint64" false)
      = Except.ok (CoqType.TypeIdent "uint64") := rfl
  have h : fileLoop exPairCtx [⟨[exGDecl, exHexDecl]⟩] []
      = runtimePanic "strconv.ParseUint: parsing failed" := by
    have hp : ParseUint "0x10" = Option.none := by decide
    simp [fileLoop, declLoop, maybeDecl, exGDecl, exHexDecl, funcDecl, fieldDecls,
      fieldDecl, ht, returnType, blockStmt, stmts, stmtLoop, cursor.HasNext, cursor.Next, stmt,
      expr, exprList, callExpr, isIdent, getIdent, methodExpr, collect, basicLiteral, hp,
      runtimePanic, bind, Except.bind, pure, Except.pure]
  have hf : File exPairCtx [⟨[exGDecl, exHexDecl]⟩] = FileResult.panicked ⟨Option.none⟩ := by
    simp [File, assertGooseError, h, runtimePanic]
  have h2 : fileLoop exPairCtx [⟨[exEmptyIfDecl]⟩] [] = runtimePanic "index out of range" := by
    have he : endsWithReturn [] = runtimePanic "index out of range" := rfl
    have hi : ifStmt exPairCtx
        (Expr.BinaryExpr (Expr.Ident "i" true) Token.GTR (Expr.Ident "n" true)) []
        Option.none ⟨[]⟩ Option.none = runtimePanic "index out of range" := by
      have hn : stmts exPairCtx [] Option.none = Except.ok (CoqExpr.BlockExpr
          [NewAnon (CoqExpr.ReturnExpr (CoqExpr.IdentExpr "tt"))]) := by
        rw [stmts, stmtLoop]
        simp [cursor.HasNext, bind, Except.bind, pure, Except.pure]
      rw [ifStmt]
      simp [stmt, blockStmt, hn, expr, binExpr, he, Step.stay, NewAnon, Binding.Unwrap,
        runtimePanic, bind, Except.bind, pure, Except.pure]
    simp only [fileLoop, declLoop, maybeDecl, exEmptyIfDecl, funcDecl, fieldDecls, fieldDecl,
      ht, returnType, blockStmt, bind, Except.bind, pure, Except.pure]
    rw [stmts, stmtLoop]
    simp [cursor.HasNext, cursor.Next, stmt, hi, runtimePanic, bind, Except.bind, pure,
      Except.pure]
  have hf2 : File exPairCtx [⟨[exEmptyIfDecl]⟩] = FileResult.panicked ⟨Option.none⟩ := by
    simp [File, assertGooseError, h2, runtimePanic]
  exact ⟨h, hf, fun ds err h' => (by rw [hf] at h'; cases h'), h2, hf2⟩

/-- The results of `File` in general.  When every declaration of every file translates, `File`
returns the non-nil results in input order and no error.  When the first declaration that does
not translate raises a diagnostic, `File` returns the empty file and that diagnostic.  When it
panics with another value, whatever that value is, `File` panics with the zero `gooseError`. -/
theorem File_no_partial_output (ctx : Ctx) (fs : List AstFile) :
    (∀ rs, collect ((allDecls fs).map (maybeDecl ctx)) = Except.ok rs →
        File ctx fs = FileResult.returned (rs.filterMap id) Option.none)
      ∧ (∀ pre d post e, allDecls fs = pre ++ d :: post →
          (∀ x ∈ pre, ∃ r, maybeDecl ctx x = Except.ok r) →
          maybeDecl ctx d = Except.error (Abort.goose e) →
          File ctx fs = FileResult.returned [] (some e))
      ∧ (∀ pre d post m, allDecls fs = pre ++ d :: post →
          (∀ x ∈ pre, ∃ r, maybeDecl ctx x = Except.ok r) →
          maybeDecl ctx d = Except.error (Abort.runtime m) →
          File ctx fs = FileResult.panicked ⟨Option.none⟩) := by
  refine ⟨?_, ?_, ?_⟩
  · intro rs hrs
    simp [File, fileLoop_eq_declLoop, declLoop_all_ok ctx _ [] rs hrs]
  · intro pre d post e hsplit hpre hd
    simp [File, assertGooseError, fileLoop_eq_declLoop, hsplit,
      declLoop_first_abort ctx pre d post [] _ hpre hd]
  · intro pre d post m hsplit hpre hd
    simp [File, assertGooseError, fileLoop_eq_declLoop, hsplit,
      declLoop_first_abort ctx pre d post [] _ hpre hd]

/-- The declaration of `Pair` alone, and followed by a file whose first declaration has a named
result. -/
theorem File_no_partial_output_witness :
    File exPairCtx [⟨[exTypeDecl]⟩] = FileResult.returned [exPairDecl] Option.none
      ∧ File exPairCtx [⟨[exTypeDecl]⟩, ⟨[exNamedResult, exHexDecl]⟩]
        = FileResult.returned [] (some ⟨DiagClass.unsupported, "named returned value"⟩) :=
  ⟨(File_no_partial_output exPairCtx [⟨[exTypeDecl]⟩]).1 [some exPairDecl] rfl,
   (File_no_partial_output exPairCtx [⟨[exTypeDecl]⟩, ⟨[exNamedResult, exHexDecl]⟩]).2.1
     [exTypeDecl] exNamedResult [exHexDecl] ⟨DiagClass.unsupported, "named returned value"⟩ rfl
     (fun x hx => ⟨some exPairDecl, by rw [List.mem_singleton.mp hx]; rfl⟩) rfl⟩

theorem structLiteralElts_keyed (ctx : Ctx) : ∀ (kvs : List (String × Bool × Expr))
    (lit : List (String × CoqExpr)) (found : List String),
    structLiteralElts ctx (keyedElts kvs) lit found
      = (collect (kvs.map (fun kv => expr ctx kv.2.2))).map
          (fun vs => (lit ++ (kvs.map (fun kv => kv.1)).zip vs,
            (kvs.map (fun kv => kv.1)).reverse ++ found))
  | [], lit, found => by
    simp [keyedElts, structLiteralElts, collect, Except.map, pure, Except.pure]
  | kv :: rest, lit, found => by
    cases hv : expr ctx kv.2.2 with
    | error e =>
      simp [keyedElts, structLiteralElts, getIdent, hv, collect, Except.map, bind, Except.bind]
    | ok v =>
      have ih := structLiteralElts_keyed ctx rest (lit ++ [(kv.1, v)]) (kv.1 :: found)
      simp only [keyedElts] at ih
      cases hc : collect (rest.map (fun kv => expr ctx kv.2.2)) with
      | error e =>
        simp [keyedElts, structLiteralElts, getIdent, hv, hc, ih, collect, Except.map, bind,
          Except.bind]
      | ok vs =>
        simp [keyedElts, structLiteralElts, getIdent, hv, hc, ih, collect, Except.map, bind,
          Except.bind, pure, Except.pure]

theorem checkFields_complete (fields found : List String) (h : ∀ f ∈ fields, f ∈ found) :
    checkFields fields found = Except.ok () := by
  induction fields with
  | nil => rfl
  | cons f rest ih =>
    have hf : found.contains f = true := by simpa using h f (List.mem_cons_self _ _)
    simp only [checkFields, hf, if_true]
    exact ih (fun x hx => h x (List.mem_cons_of_mem _ hx))

theorem checkFields_incomplete (fields found : List String) (h : ¬ ∀ f ∈ fields, f ∈ found) :
    checkFields fields found = unsupported "incomplete struct literal" := by
  induction fields with
  | nil => exact absurd (fun f hf => absurd hf (List.not_mem_nil f)) h
  | cons f rest ih =>
    by_cases hf : found.contains f = true
    · simp only [checkFields, hf, if_true]
      apply ih
      intro hall
      apply h
      intro x hx
      rcases List.mem_cons.mp hx with rfl | hx
      · simpa using hf
      · exact hall x hx
    · simp only [checkFields]
      rw [if_neg hf]

/-- C6. The struct literal `pkg.Pair\x7bA: 1, B: 2\x7d` is keyed by identifiers and its keys cover
every declared field of `Pair`, yet `structLiteral` raises the `nope` diagnostic "non-struct
literal after type check", of the class of translator defects, because the type expression of
the literal is a selector and not an identifier; the same literal written `Pair\x7bA: 1, B: 2\x7d`
is translated.  The diagnostic is raised for every literal of a named struct type whose type
expression is a selector, whatever its elements. -/
theorem structLiteral_complete_but_rejected :
    exPairCtx.typeOf exQualifiedLit
        = GoType.Named "Pair" (GoType.Struct ["A", "B"] "struct\x7bA uint64; B uint64\x7d")
      ∧ expr exPairCtx exQualifiedLit = nope "non-struct literal after type check"
      ∧ expr exPairCtx exPlainLit
        = Except.ok (CoqExpr.StructLiteral "Pair"
            [("A", CoqExpr.IntLiteral 1), ("B", CoqExpr.IntLiteral 2)])
      ∧ ∀ (name : String) (fields : List String) (str : String) (X : Expr) (Sel : String)
          (elts : M (List (String × CoqExpr) × List String)),
          structLiteral (GoType.Named name (GoType.Struct fields str))
            (some (Expr.SelectorExpr X Sel)) elts
            = nope "non-struct literal after type check" :=
  ⟨rfl, rfl, rfl, fun _ _ _ _ _ _ => rfl⟩

/-- For a composite literal of a struct type whose type expression is an identifier and whose
elements are all keyed by identifiers with values that translate,
`structLiteral` succeeds if and only if every declared field occurs among the keys: it then
returns the struct literal with the key/value pairs in source order, and otherwise it raises
the diagnostic of an incomplete literal. -/
theorem structLiteral_complete_iff (ctx : Ctx) (t : GoType) (fields : List String)
    (str name : String) (o : Bool) (kvs : List (String × Bool × Expr)) (vs : List CoqExpr)
    (ht : t.Underlying = Except.ok (GoType.Struct fields str))
    (hvs : collect (kvs.map (fun kv => expr ctx kv.2.2)) = Except.ok vs) :
    ((∀ f ∈ fields, f ∈ kvs.map (fun kv => kv.1)) →
        structLiteral t (some (Expr.Ident name o)) (structLiteralElts ctx (keyedElts kvs) [] [])
          = Except.ok (CoqExpr.StructLiteral name ((kvs.map (fun kv => kv.1)).zip vs)))
      ∧ ((¬ ∀ f ∈ fields, f ∈ kvs.map (fun kv => kv.1)) →
        structLiteral t (some (Expr.Ident name o)) (structLiteralElts ctx (keyedElts kvs) [] [])
          = unsupported "incomplete struct literal") := by
  have helts := structLiteralElts_keyed ctx kvs [] []
  rw [hvs] at helts
  simp only [Except.map, List.nil_append, List.append_nil] at helts
  constructor
  · intro hall
    have hck := checkFields_complete fields (kvs.map (fun kv => kv.1)).reverse
      (fun f hf => List.mem_reverse.mpr (hall f hf))
    simp [structLiteral, ht, getIdent, helts, structTypeFields, hck, bind, Except.bind, pure,
      Except.pure]
  · intro hnot
    have hck := checkFields_incomplete fields (kvs.map (fun kv => kv.1)).reverse
      (fun hall => hnot (fun f hf => List.mem_reverse.mp (hall f hf)))
    simp [structLiteral, ht, getIdent, helts, structTypeFields, hck, unsupported, bind,
      Except.bind]

/-- The literals `Pair\x7bA: 1, B: 2\x7d` and `Pair\x7bA: 1\x7d`. -/
theorem structLiteral_complete_iff_witness :
    structLiteral (GoType.Named "Pair" (GoType.Struct ["A", "B"] "Pair")) (some (Expr.Ident "Pair" true))
        (structLiteralElts exCtx (keyedElts [("A", false, Expr.BasicLit Token.INT "1"),
          ("B", false, Expr.BasicLit Token.INT "2")]) [] [])
        = Except.ok (CoqExpr.StructLiteral "Pair"
            [("A", CoqExpr.IntLiteral 1), ("B", CoqExpr.IntLiteral 2)])
      ∧ structLiteral (GoType.Named "Pair" (GoType.Struct ["A", "B"] "Pair"))
          (some (Expr.Ident "Pair" true))
          (structLiteralElts exCtx (keyedElts [("A", false, Expr.BasicLit Token.INT "1")]) [] [])
        = unsupported "incomplete struct literal" :=
  ⟨(structLiteral_complete_iff exCtx (GoType.Named "Pair" (GoType.Struct ["A", "B"] "Pair"))
      ["A", "B"] "Pair" "Pair" true
      [("A", false, Expr.BasicLit Token.INT "1"), ("B", false, Expr.BasicLit Token.INT "2")]
      [CoqExpr.IntLiteral 1, CoqExpr.IntLiteral 2] rfl rfl).1 (by decide),
   (structLiteral_complete_iff exCtx (GoType.Named "Pair" (GoType.Struct ["A", "B"] "Pair"))
      ["A", "B"] "Pair" "Pair" true [("A", false, Expr.BasicLit Token.INT "1")]
      [CoqExpr.IntLiteral 1] rfl rfl).2 (by decide)⟩

theorem collect_ok_iff {α : Type} : ∀ (ms : List (M α)) (xs : List α),
    collect ms = Except.ok xs ↔ List.Forall₂ (fun m x => m = Except.ok x) ms xs
  | [], xs => by
    cases xs <;> simp [collect, pure, Except.pure]
  | m :: rest, xs => by
    cases hm : m with
    | error e =>
      simp only [collect, bind, Except.bind]
      constructor
      · intro h; cases h
      · intro h
        cases h with
        | cons h1 _ => cases h1
    | ok x =>
      cases hr : collect rest with
      | error e =>
        simp only [collect, hr, bind, Except.bind]
        constructor
        · intro h; cases h
        · intro h
          cases h with
          | cons _ h2 =>
            rw [(collect_ok_iff rest _).mpr h2] at hr
            cases hr
      | ok ys =>
        simp only [collect, hr, bind, Except.bind, pure, Except.pure]
        constructor
        · intro h
          cases h
          exact List.Forall₂.cons rfl ((collect_ok_iff rest ys).mp hr)
        · intro h
          cases h with
          | cons h1 h2 =>
            cases h1
            rw [(collect_ok_iff rest _).mpr h2] at hr
            cases hr
            rfl

theorem exprList_ok_iff (ctx : Ctx) : ∀ (es : List Expr) (rs : List CoqExpr),
    List.Forall₂ (fun m r => m = Except.ok r) (exprList ctx es) rs
      ↔ List.Forall₂ (fun e r => expr ctx e = Except.ok r) es rs
  | [], rs => by cases rs <;> simp [exprList]
  | e :: rest, rs => by
    cases rs with
    | nil => simp [exprList]
    | cons r rs' => simp [exprList, exprList_ok_iff ctx rest rs']

theorem returnExpr_ok_iff (ctx : Ctx) (es : List Expr) (x : CoqExpr) :
    returnExpr ctx es = Except.ok x
      ↔ ∃ rs, List.Forall₂ (fun e r => expr ctx e = Except.ok r) es rs
          ∧ x = CoqExpr.ReturnExpr (NewTuple rs) := by
  unfold returnExpr
  cases hc : collect (exprList ctx es) with
  | error e =>
    simp only [bind, Except.bind]
    constructor
    · intro h; cases h
    · rintro ⟨rs, hrs, _⟩
      rw [(collect_ok_iff _ rs).mpr ((exprList_ok_iff ctx es rs).mpr hrs)] at hc
      cases hc
  | ok ys =>
    have hys := (exprList_ok_iff ctx es ys).mp ((collect_ok_iff _ ys).mp hc)
    simp only [bind, Except.bind, pure, Except.pure]
    constructor
    · intro h
      cases h
      exact ⟨ys, hys, rfl⟩
    · rintro ⟨rs, hrs, rfl⟩
      rw [(collect_ok_iff _ rs).mpr ((exprList_ok_iff ctx es rs).mpr hrs)] at hc
      cases hc
      rfl

theorem forall₂_ok_of_all (ctx : Ctx) : ∀ es : List Expr,
    (∀ e ∈ es, ∃ r, expr ctx e = Except.ok r) →
      ∃ rs, List.Forall₂ (fun e r => expr ctx e = Except.ok r) es rs
  | [], _ => ⟨[], List.Forall₂.nil⟩
  | e :: rest, h => by
    obtain ⟨r, hr⟩ := h e (List.mem_cons_self _ _)
    obtain ⟨rs, hrs⟩ := forall₂_ok_of_all ctx rest (fun x hx => h x (List.mem_cons_of_mem _ hx))
    exact ⟨r :: rs, List.Forall₂.cons hr hrs⟩

theorem all_of_forall₂_ok (ctx : Ctx) : ∀ (es : List Expr) (rs : List CoqExpr),
    List.Forall₂ (fun e r => expr ctx e = Except.ok r) es rs →
      ∀ e ∈ es, ∃ r, expr ctx e = Except.ok r
  | [], _, _ => by simp
  | e :: rest, rs, h => by
    cases h with
    | cons h1 h2 =>
      intro x hx
      rcases List.mem_cons.mp hx with rfl | hx
      · exact ⟨_, h1⟩
      · exact all_of_forall₂_ok ctx rest _ h2 x hx

/-- C14. A return statement is translated if and only if no statement remains in the cursor, it
is not inside a loop and every one of its results translates; the binding is then the anonymous
return of the tuple of the translations of the results, in the order of the results, and the
cursor is left as it is.  A return followed by a statement and a return inside a loop raise a
diagnostic. -/
theorem stmt_return (ctx : Ctx) (Results : List Expr) (c : cursor) (loopVar : Option String) :
    (c.HasNext = true →
        stmt ctx (Stmt.ReturnStmt Results) c loopVar = unsupported "statement following return")
      ∧ (c.HasNext = false → loopVar.isSome = true →
        stmt ctx (Stmt.ReturnStmt Results) c loopVar = futureWork "return in loop (use break)")
      ∧ (∀ rs, c.HasNext = false → loopVar = Option.none →
        List.Forall₂ (fun e r => expr ctx e = Except.ok r) Results rs →
        (stmt ctx (Stmt.ReturnStmt Results) c loopVar).map Step.out
          = Except.ok (NewAnon (CoqExpr.ReturnExpr (NewTuple rs)), c))
      ∧ ((∃ r, stmt ctx (Stmt.ReturnStmt Results) c loopVar = Except.ok r)
          ↔ c.HasNext = false ∧ loopVar = Option.none
            ∧ ∀ e ∈ Results, ∃ r, expr ctx e = Except.ok r)
      ∧ (∀ r, stmt ctx (Stmt.ReturnStmt Results) c loopVar = Except.ok r →
          ∃ rs, List.Forall₂ (fun e x => expr ctx e = Except.ok x) Results rs
            ∧ r.out = (NewAnon (CoqExpr.ReturnExpr (NewTuple rs)), c)) := by
  have key : ∀ r, stmt ctx (Stmt.ReturnStmt Results) c loopVar = Except.ok r →
      c.HasNext = false ∧ loopVar = Option.none
        ∧ ∃ rs, List.Forall₂ (fun e x => expr ctx e = Except.ok x) Results rs
          ∧ r.out = (NewAnon (CoqExpr.ReturnExpr (NewTuple rs)), c) := by
    intro r hr
    rw [stmt] at hr
    cases hn : c.HasNext with
    | true => simp [hn, unsupported] at hr
    | false =>
      cases loopVar with
      | some v => simp [hn, futureWork] at hr
      | none =>
        cases hx : returnExpr ctx Results with
        | error e => simp [hn, hx, bind, Except.bind] at hr
        | ok x =>
          obtain ⟨rs, hrs, rfl⟩ := (returnExpr_ok_iff ctx Results x).mp hx
          simp [hn, hx, bind, Except.bind, pure, Except.pure] at hr
          refine ⟨rfl, rfl, rs, hrs, ?_⟩
          rw [← hr]
          rfl
  have ok : ∀ rs, c.HasNext = false → loopVar = Option.none →
      List.Forall₂ (fun e r => expr ctx e = Except.ok r) Results rs →
      (stmt ctx (Stmt.ReturnStmt Results) c loopVar).map Step.out
        = Except.ok (NewAnon (CoqExpr.ReturnExpr (NewTuple rs)), c) := by
    intro rs h hl hrs
    subst hl
    have hx := (returnExpr_ok_iff ctx Results _).mpr ⟨rs, hrs, rfl⟩
    rw [stmt]
    simp [h, hx, Step.stay, Step.out, Except.map, bind, Except.bind, pure, Except.pure]
  refine ⟨?_, ?_, ok, ?_, ?_⟩
  · intro h
    rw [stmt]; simp [h]
  · intro h hl
    rw [stmt]; simp [h, hl]
  · constructor
    · rintro ⟨r, hr⟩
      obtain ⟨h1, h2, rs, hrs, _⟩ := key r hr
      exact ⟨h1, h2, all_of_forall₂_ok ctx Results rs hrs⟩
    · rintro ⟨h1, h2, h3⟩
      obtain ⟨rs, hrs⟩ := forall₂_ok_of_all ctx Results h3
      have h := ok rs h1 h2 hrs
      cases hs : stmt ctx (Stmt.ReturnStmt Results) c loopVar with
      | error e => rw [hs] at h; simp [Except.map] at h
      | ok r => exact ⟨r, rfl⟩
  · intro r hr
    exact (key r hr).2.2

/-- The statement `return x` followed by `break` and inside a loop, and the statement
`return x, n` at the end of a list outside a loop. -/
theorem stmt_return_witness :
    (stmt exCtx (Stmt.ReturnStmt [Expr.Ident "x" true]) ⟨[exBreak]⟩ Option.none
        = unsupported "statement following return")
      ∧ (stmt exCtx (Stmt.ReturnStmt [Expr.Ident "x" true]) ⟨[]⟩ (some "i")
        = futureWork "return in loop (use break)")
      ∧ ((stmt exCtx (Stmt.ReturnStmt [Expr.Ident "x" true, Expr.Ident "n" true]) ⟨[]⟩
          Option.none).map Step.out
        = Except.ok (NewAnon (CoqExpr.ReturnExpr
            (NewTuple [CoqExpr.IdentExpr "x", CoqExpr.IdentExpr "n"])), ⟨[]⟩)) :=
  ⟨(stmt_return exCtx [Expr.Ident "x" true] ⟨[exBreak]⟩ Option.none).1 rfl,
   (stmt_return exCtx [Expr.Ident "x" true] ⟨[]⟩ (some "i")).2.1 rfl rfl,
   (stmt_return exCtx [Expr.Ident "x" true, Expr.Ident "n" true] ⟨[]⟩ Option.none).2.2.1
     [CoqExpr.IdentExpr "x", CoqExpr.IdentExpr "n"] rfl rfl
     (List.Forall₂.cons rfl (List.Forall₂.cons rfl List.Forall₂.nil))⟩

/-- C16. For operands that translate, `binExpr` returns the binary expression of the two
translations for the operators `<`, `>`, `+`, `-` and `==`, with the corresponding IR operator,
and raises an unsupported diagnostic for every other operator. -/
theorem binExpr_operators (ctx : Ctx) (X Y : Expr) (x y : CoqExpr)
    (hx : expr ctx X = Except.ok x) (hy : expr ctx Y = Except.ok y) :
    binExpr (expr ctx X) Token.LSS (expr ctx Y)
        = Except.ok (CoqExpr.BinaryExpr x BinOp.OpLessThan y)
      ∧ binExpr (expr ctx X) Token.GTR (expr ctx Y)
        = Except.ok (CoqExpr.BinaryExpr x BinOp.OpGreaterThan y)
      ∧ binExpr (expr ctx X) Token.ADD (expr ctx Y)
        = Except.ok (CoqExpr.BinaryExpr x BinOp.OpPlus y)
      ∧ binExpr (expr ctx X) Token.SUB (expr ctx Y)
        = Except.ok (CoqExpr.BinaryExpr x BinOp.OpMinus y)
      ∧ binExpr (expr ctx X) Token.EQL (expr ctx Y)
        = Except.ok (CoqExpr.BinaryExpr x BinOp.OpEquals y)
      ∧ (∀ Op, Op ≠ Token.LSS → Op ≠ Token.GTR → Op ≠ Token.ADD → Op ≠ Token.SUB →
          Op ≠ Token.EQL →
          binExpr (expr ctx X) Op (expr ctx Y) = unsupported "binary operator %v")
      ∧ (∀ Op r, binExpr (expr ctx X) Op (expr ctx Y) = Except.ok r →
          Op = Token.LSS ∨ Op = Token.GTR ∨ Op = Token.ADD ∨ Op = Token.SUB ∨ Op = Token.EQL) := by
  refine ⟨?_, ?_, ?_, ?_, ?_, ?_, ?_⟩
  · simp [binExpr, hx, hy, bind, Except.bind, pure, Except.pure]
  · simp [binExpr, hx, hy, bind, Except.bind, pure, Except.pure]
  · simp [binExpr, hx, hy, bind, Except.bind, pure, Except.pure]
  · simp [binExpr, hx, hy, bind, Except.bind, pure, Except.pure]
  · simp [binExpr, hx, hy, bind, Except.bind, pure, Except.pure]
  · intro Op h1 h2 h3 h4 h5
    cases Op <;> first
      | exact absurd rfl h1 | exact absurd rfl h2 | exact absurd rfl h3
      | exact absurd rfl h4 | exact absurd rfl h5
      | simp [binExpr, hx, hy, bind, Except.bind]
  · intro Op r h
    cases Op <;> simp [binExpr, hx, hy, unsupported, bind, Except.bind] at h ⊢

/-- The expressions `a < b` and `a * b`. -/
theorem binExpr_operators_witness :
    binExpr (expr exCtx (Expr.Ident "a" true)) Token.LSS (expr exCtx (Expr.Ident "b" true))
        = Except.ok (CoqExpr.BinaryExpr (CoqExpr.IdentExpr "a") BinOp.OpLessThan
            (CoqExpr.IdentExpr "b"))
      ∧ binExpr (expr exCtx (Expr.Ident "a" true)) Token.MUL (expr exCtx (Expr.Ident "b" true))
        = unsupported "binary operator %v" :=
  have h := binExpr_operators exCtx (Expr.Ident "a" true) (Expr.Ident "b" true)
    (CoqExpr.IdentExpr "a") (CoqExpr.IdentExpr "b") rfl rfl
  ⟨h.1, h.2.2.2.2.2.1 Token.MUL (by decide) (by decide) (by decide) (by decide) (by decide)⟩

/-- C17. For a slice expression whose parts translate: a three-index slice is rejected; with
only the low bound the result is the pure call `slice.skip`, with only the high bound
`slice.take`, with both `slice.subslice`, and with neither the expression is rejected.  In no
case does `sliceExpr` return the nil expression. -/
theorem sliceExpr_cases (ctx : Ctx) (X lo hi : Expr) (x l h : CoqExpr)
    (hx : expr ctx X = Except.ok x) (hl : expr ctx lo = Except.ok l)
    (hh : expr ctx hi = Except.ok h) :
    (∀ Low High, sliceExpr (expr ctx X) (exprOpt ctx Low) (exprOpt ctx High) true
        = unsupported "3-index slice")
      ∧ sliceExpr (expr ctx X) (exprOpt ctx (some lo)) (exprOpt ctx Option.none) false
        = Except.ok (PureCall (NewCallExpr "slice.skip" [l, x]))
      ∧ sliceExpr (expr ctx X) (exprOpt ctx Option.none) (exprOpt ctx (some hi)) false
        = Except.ok (PureCall (NewCallExpr "slice.take" [h, x]))
      ∧ sliceExpr (expr ctx X) (exprOpt ctx (some lo)) (exprOpt ctx (some hi)) false
        = Except.ok (PureCall (NewCallExpr "slice.subslice" [l, h, x]))
      ∧ sliceExpr (expr ctx X) (exprOpt ctx Option.none) (exprOpt ctx Option.none) false
        = unsupported "complete slice doesn't do anything"
      ∧ (∀ (Y : Expr) (Low High : Option Expr) (Slice3 : Bool),
          sliceExpr (expr ctx Y) (exprOpt ctx Low) (exprOpt ctx High) Slice3
            ≠ Except.ok CoqExpr.nil) := by
  refine ⟨?_, ?_, ?_, ?_, ?_, ?_⟩
  · intro Low High
    simp [sliceExpr]
  · simp [sliceExpr, exprOpt, exprCall, hx, hl, bind, Except.bind, pure, Except.pure]
  · simp [sliceExpr, exprOpt, exprCall, hx, hh, bind, Except.bind, pure, Except.pure]
  · simp [sliceExpr, exprOpt, exprCall, hx, hl, hh, bind, Except.bind, pure, Except.pure]
  · simp [sliceExpr, exprOpt, exprCall, hx, bind, Except.bind, unsupported]
  · intro Y Low High Slice3
    cases Slice3
    · cases hy : expr ctx Y with
      | error e => simp [sliceExpr, hy, bind, Except.bind]
      | ok y =>
        cases Low with
        | none =>
          cases High with
          | none => simp [sliceExpr, exprOpt, hy, bind, Except.bind, unsupported]
          | some b =>
            cases hb : expr ctx b <;>
              simp [sliceExpr, exprOpt, exprCall, hy, hb, bind, Except.bind, pure, Except.pure,
                PureCall, NewCallExpr]
        | some a =>
          cases ha : expr ctx a with
          | error e =>
            cases High <;> simp [sliceExpr, exprOpt, exprCall, hy, ha, bind, Except.bind]
          | ok a' =>
            cases High with
            | none =>
              simp [sliceExpr, exprOpt, exprCall, hy, ha, bind, Except.bind, pure, Except.pure,
                PureCall, NewCallExpr]
            | some b =>
              cases hb : expr ctx b <;>
                simp [sliceExpr, exprOpt, exprCall, hy, ha, hb, bind, Except.bind, pure,
                  Except.pure, PureCall, NewCallExpr]
    · simp [sliceExpr, unsupported]

/-- The slices `s[a:]`, `s[:b]`, `s[a:b]` and `s[:]`. -/
theorem sliceExpr_cases_witness :
    sliceExpr (expr exCtx (Expr.Ident "s" true)) (exprOpt exCtx (some (Expr.Ident "a" true)))
        (exprOpt exCtx Option.none) false
        = Except.ok (PureCall (NewCallExpr "slice.skip"
            [CoqExpr.IdentExpr "a", CoqExpr.IdentExpr "s"]))
      ∧ sliceExpr (expr exCtx (Expr.Ident "s" true)) (exprOpt exCtx Option.none)
        (exprOpt exCtx (some (Expr.Ident "b" true))) false
        = Except.ok (PureCall (NewCallExpr "slice.take"
            [CoqExpr.IdentExpr "b", CoqExpr.IdentExpr "s"]))
      ∧ sliceExpr (expr exCtx (Expr.Ident "s" true)) (exprOpt exCtx (some (Expr.Ident "a" true)))
        (exprOpt exCtx (some (Expr.Ident "b" true))) false
        = Except.ok (PureCall (NewCallExpr "slice.subslice"
            [CoqExpr.IdentExpr "a", CoqExpr.IdentExpr "b", CoqExpr.IdentExpr "s"]))
      ∧ sliceExpr (expr exCtx (Expr.Ident "s" true)) (exprOpt exCtx Option.none)
        (exprOpt exCtx Option.none) false
        = unsupported "complete slice doesn't do anything" :=
  have h := sliceExpr_cases exCtx (Expr.Ident "s" true) (Expr.Ident "a" true)
    (Expr.Ident "b" true) (CoqExpr.IdentExpr "s") (CoqExpr.IdentExpr "a") (CoqExpr.IdentExpr "b")
    rfl rfl rfl
  ⟨h.2.1, h.2.2.1, h.2.2.2.1, h.2.2.2.2.1⟩

/-- C18. The conversion `uint64(len(s))`, whose argument has the typed basic kind `int`, raises
no diagnostic: `callExpr` returns the translation of `len(s)`. -/
theorem callExpr_uint64_accepts_int :
    exLenCtx.typeOf exLenCall = GoType.Basic BasicKind.Int "int"
      ∧ callExpr exLenCtx (Expr.Ident "uint64" false) [exLenCall] false
          (exprList exLenCtx [exLenCall])
        = Except.ok (CoqExpr.PureCall "slice.length" [CoqExpr.IdentExpr "s"]) :=
  ⟨rfl, rfl⟩

/-- C18 (amended). The call `uint64(x)` returns exactly the translation of `x` when the type
recorded for `x` is a basic type of kind `uint64` or of kind `int`, and raises an unsupported
diagnostic for every other recorded type. -/
theorem callExpr_uint64_conversion (ctx : Ctx) (o Ellipsis : Bool) (x : Expr) :
    ((∃ name, ctx.typeOf x = GoType.Basic BasicKind.Uint64 name
          ∨ ctx.typeOf x = GoType.Basic BasicKind.Int name) →
        callExpr ctx (Expr.Ident "uint64" o) [x] Ellipsis (exprList ctx [x]) = expr ctx x)
      ∧ ((∀ name, ctx.typeOf x ≠ GoType.Basic BasicKind.Uint64 name
          ∧ ctx.typeOf x ≠ GoType.Basic BasicKind.Int name) →
        callExpr ctx (Expr.Ident "uint64" o) [x] Ellipsis (exprList ctx [x])
          = unsupported "casts from non-int type %v to uint64") := by
  constructor
  · rintro ⟨name, h | h⟩ <;>
      simp [callExpr, isIdent, getIdent, index, basicallyUInt64, h, exprList, sub, bind,
        Except.bind, pure, Except.pure]
  · intro h
    have hb : basicallyUInt64 ctx x = false := by
      unfold basicallyUInt64
      cases ht : ctx.typeOf x with
      | Basic kind name =>
        cases kind <;> first
          | rfl
          | exact absurd ht (h name).1
          | exact absurd ht (h name).2
      | _ => rfl
    simp [callExpr, isIdent, getIdent, index, hb, bind, Except.bind, pure, Except.pure]

/-- The conversions `uint64(len(s))`, of a typed `int`, and `uint64(n)` where the type recorded
for `n` is the untyped integer kind. -/
theorem callExpr_uint64_conversion_witness :
    callExpr exLenCtx (Expr.Ident "uint64" false) [exLenCall] false
        (exprList exLenCtx [exLenCall]) = expr exLenCtx exLenCall
      ∧ callExpr exLenCtx (Expr.Ident "uint64" false) [Expr.Ident "n" true] false
          (exprList exLenCtx [Expr.Ident "n" true])
        = unsupported "casts from non-int type %v to uint64" :=
  ⟨(callExpr_uint64_conversion exLenCtx false false exLenCall).1 ⟨"int", Or.inr rfl⟩,
   (callExpr_uint64_conversion exLenCtx false false (Expr.Ident "n" true)).2
     (fun name => ⟨by simp [exLenCtx], by simp [exLenCtx]⟩)⟩

theorem stmts_nil (ctx : Ctx) (loopVar : Option String) :
    stmts ctx [] loopVar = Except.ok (CoqExpr.BlockExpr [NewAnon returnUnit]) := by
  rw [stmts, stmtLoop]
  simp [cursor.HasNext, returnUnit, bind, Except.bind, pure, Except.pure]

/-- C19. The type resolver defaults: the identifier `Block`, an alias of `[]byte`, and the
predeclared identifier `any` resolve to the placeholder `<type>` without a diagnostic, also
below a pointer, and `File` returns the function `func f(x any) \x7b \x7d` with that placeholder as
the type of its parameter; a map with the key type `string` resolves to a map type without a
value type, and the fixed-length array that is its value type is not rejected. -/
theorem coqType_defaults :
    coqType exAliasCtx (Expr.Ident "Block" false) = Except.ok (CoqType.TypeIdent "<type>")
      ∧ coqType exAliasCtx (Expr.StarExpr (Expr.Ident "Block" false))
        = Except.ok (CoqType.PtrType (CoqType.TypeIdent "<type>"))
      ∧ coqType exAliasCtx (Expr.Ident "any" false) = Except.ok (CoqType.TypeIdent "<type>")
      ∧ File exAliasCtx [⟨[exAnyDecl]⟩]
        = FileResult.returned
            [CoqDecl.FuncDecl "f" [⟨"x", CoqType.TypeIdent "<type>"⟩] (CoqType.TypeIdent "unit")
              (CoqExpr.BlockExpr [NewAnon returnUnit]) ""] Option.none
      ∧ coqType exCtx exStringMap = Except.ok (CoqType.MapType CoqType.nil)
      ∧ coqType exCtx (Expr.MapType (Expr.Ident "string" false)
          (Expr.ArrayType (some (Expr.BasicLit Token.INT "4")) (Expr.Ident "uint64" false)))
        = Except.ok (CoqType.MapType CoqType.nil) := by
  refine ⟨rfl, rfl, rfl, ?_, rfl, rfl⟩
  have ht : coqType exAliasCtx (Expr.Ident "any" false)
      = Except.ok (CoqType.TypeIdent "<type>") := rfl
  have hc : exAliasCtx.AddSourceFileComments = false := rfl
  simp [File, assertGooseError, fileLoop, declLoop, maybeDecl, exAnyDecl, funcDecl, fieldDecls, fieldDecl, ht, hc,
    returnType, blockStmt, stmts_nil, addSourceFile, addSourceDoc, bind, Except.bind, pure,
    Except.pure]

/-- C20. Compound assignments are lowered as plain assignments of their right-hand side:
`m[k] += v` gives the hash-table update that inserts `v`, `i += 1; continue` in a loop over
`i` gives the loop continue with `1`, and `*p -= 1` gives the write of `1`. -/
theorem assignStmt_compound_as_plain :
    (assignStmt exMapCtx [Expr.IndexExpr (Expr.Ident "m" true) (Expr.Ident "k" true)]
        Token.ADD_ASSIGN [Expr.Ident "v" true] ⟨[]⟩ Option.none).map Step.out
        = Except.ok (NewAnon (NewCallExpr "Data.hashTableAlter"
            [CoqExpr.IdentExpr "m", CoqExpr.IdentExpr "k",
              CoqExpr.HashTableInsert (CoqExpr.IdentExpr "v")]), ⟨[]⟩)
      ∧ (assignStmt exCtx [Expr.Ident "i" true] Token.ADD_ASSIGN [Expr.BasicLit Token.INT "1"]
          ⟨[Stmt.BranchStmt Token.CONTINUE]⟩ (some "i")).map Step.out
        = Except.ok (NewAnon (CoqExpr.LoopContinueExpr (CoqExpr.IntLiteral 1)), ⟨[]⟩)
      ∧ (assignStmt exCtx [Expr.StarExpr (Expr.Ident "p" true)] Token.SUB_ASSIGN
          [Expr.BasicLit Token.INT "1"] ⟨[]⟩ Option.none).map Step.out
        = Except.ok (NewAnon (NewCallExpr "Data.writeIORef"
            [CoqExpr.IdentExpr "p", CoqExpr.IntLiteral 1]), ⟨[]⟩) :=
  ⟨rfl, rfl, rfl⟩

theorem loopVar_rejects (ctx : Ctx) (s : Stmt) (h : s.isLoopInit = false) :
    (∃ a, loopVar ctx s = Except.error a)
      ∧ (s.sidesPresent = true → ∃ d, loopVar ctx s = Except.error (Abort.goose d)) := by
  cases s with
  | AssignStmt Lhs Tok Rhs =>
    simp only [loopVar]
    split_ifs with hc
    · exact ⟨⟨_, rfl⟩, fun _ => ⟨_, rfl⟩⟩
    · simp at hc
      obtain ⟨⟨hL, hR⟩, hT⟩ := hc
      subst hT
      rcases Lhs with _ | ⟨l, _ | ⟨l2, Ls⟩⟩
      · exact ⟨⟨_, rfl⟩, fun hp => by simp [Stmt.sidesPresent] at hp⟩
      · rcases Rhs with _ | ⟨r, _ | ⟨r2, Rs⟩⟩
        · exact ⟨⟨_, rfl⟩, fun hp => by simp [Stmt.sidesPresent] at hp⟩
        · cases l <;> first
            | exact ⟨⟨_, rfl⟩, fun _ => ⟨_, rfl⟩⟩
            | (simp [Stmt.isLoopInit] at h)
        · simp at hR
      · simp at hL
  | _ => exact ⟨⟨_, rfl⟩, fun _ => ⟨_, rfl⟩⟩

/-- C15. `forStmt` rejects a for statement with a condition or a post statement, one without an
initializer, and one whose initializer is not a `:=` definition of one identifier from one
expression; for any other for statement whose initial value and body translate, the loop has
that identifier as its loop variable, the translated right-hand side as its initial value and
the body translated with that identifier as the loop-carried variable. -/
theorem forStmt_shapes (ctx : Ctx) (Init : Option Stmt) (Cond : Option Expr)
    (Post : Option Stmt) (Body : List Stmt) :
    (Cond.isSome = true ∨ Post.isSome = true →
        forStmt ctx Init Cond Post Body
          = unsupported "loop conditions and post expressions are unsupported")
      ∧ forStmt ctx Option.none Option.none Option.none Body
          = futureWork "loops without a loop variable"
      ∧ (∀ init, init.isLoopInit = false →
          (∃ a, forStmt ctx (some init) Option.none Option.none Body = Except.error a)
          ∧ (init.sidesPresent = true →
            ∃ d, forStmt ctx (some init) Option.none Option.none Body
              = Except.error (Abort.goose d)))
      ∧ (∀ ident o rhs initial bindings, expr ctx rhs = Except.ok initial →
          stmtLoop ctx ⟨Body⟩ [] (some ident) = Except.ok bindings →
          forStmt ctx (some (Stmt.AssignStmt [Expr.Ident ident o] Token.DEFINE [rhs]))
              Option.none Option.none Body
            = Except.ok (CoqExpr.LoopExpr ident initial (CoqExpr.BlockExpr bindings))) := by
  refine ⟨?_, ?_, ?_, ?_⟩
  · intro h
    rw [forStmt.eq_def]
    rcases h with h | h <;> simp [h]
  · rw [forStmt.eq_def]; simp
  · intro init hinit
    obtain ⟨⟨a, ha⟩, hd⟩ := loopVar_rejects ctx init hinit
    constructor
    · exact ⟨a, by rw [forStmt.eq_def]; simp [ha, bind, Except.bind]⟩
    · intro hp
      obtain ⟨d, hd⟩ := hd hp
      exact ⟨d, by rw [forStmt.eq_def]; simp [hd, bind, Except.bind]⟩
  · intro ident o rhs initial bindings hrhs hbody
    rw [forStmt.eq_def]
    simp [loopVar, index, getIdent, hrhs, hbody, bind, Except.bind, pure, Except.pure]

theorem stmtLoop_exLoopBody :
    stmtLoop exCtx ⟨exLoopBody⟩ [] (some "i")
      = Except.ok [NewAnon (CoqExpr.LoopContinueExpr (CoqExpr.IdentExpr "next"))] := by
  simp [exLoopBody, stmtLoop, cursor.HasNext, cursor.Next, stmt, assignStmt, loopAssignStmt,
    index, expr, bind, Except.bind, pure, Except.pure]

/-- The loops `for i := x; i < n; \x7b ... \x7d`, `for ; ; \x7b ... \x7d`,
`for i = x; ; \x7b ... \x7d` and `for i := x; ; \x7b i = next; continue \x7d`. -/
theorem forStmt_shapes_witness :
    forStmt exCtx (some exInit)
        (some (Expr.BinaryExpr (Expr.Ident "i" true) Token.LSS (Expr.Ident "n" true)))
        Option.none exLoopBody
        = unsupported "loop conditions and post expressions are unsupported"
      ∧ forStmt exCtx Option.none Option.none Option.none exLoopBody
        = futureWork "loops without a loop variable"
      ∧ (∃ d, forStmt exCtx
          (some (Stmt.AssignStmt [Expr.Ident "i" true] Token.ASSIGN [Expr.Ident "x" true]))
          Option.none Option.none exLoopBody = Except.error (Abort.goose d))
      ∧ forStmt exCtx (some exInit) Option.none Option.none exLoopBody
        = Except.ok (CoqExpr.LoopExpr "i" (CoqExpr.IdentExpr "x")
            (CoqExpr.BlockExpr
              [NewAnon (CoqExpr.LoopContinueExpr (CoqExpr.IdentExpr "next"))])) :=
  ⟨(forStmt_shapes exCtx (some exInit)
      (some (Expr.BinaryExpr (Expr.Ident "i" true) Token.LSS (Expr.Ident "n" true)))
      Option.none exLoopBody).1 (Or.inl rfl),
   (forStmt_shapes exCtx Option.none Option.none Option.none exLoopBody).2.1,
   ((forStmt_shapes exCtx Option.none Option.none Option.none exLoopBody).2.2.1
      (Stmt.AssignStmt [Expr.Ident "i" true] Token.ASSIGN [Expr.Ident "x" true]) rfl).2 rfl,
   (forStmt_shapes exCtx Option.none Option.none Option.none exLoopBody).2.2.2
      "i" true (Expr.Ident "x" true) (CoqExpr.IdentExpr "x") _ rfl stmtLoop_exLoopBody⟩

theorem ifStmt_then_abort (ctx : Ctx) (Cond : Expr) (Body : List Stmt) (Else : Option Stmt)
    (c : cursor) (loopVar : Option String) (e : Abort)
    (hthen : stmts ctx Body loopVar = Except.error e) :
    ifStmt ctx Cond Body Else c loopVar = Except.error e := by
  rw [ifStmt]
  simp [stmt, blockStmt, hthen, bind, Except.bind]

/-- C12. The conditional `if i > n \x7b return \x7d` at the end of a loop body, without an else
branch: `ifStmt` raises the future-work diagnostic of a return inside a loop, which comes from
the translation of the then-body, and not the unsupported diagnostic of an implicit loop
continue. -/
theorem ifStmt_return_in_loop :
    ifStmt exCtx exCond [Stmt.ReturnStmt []] Option.none ⟨[]⟩ (some "i")
      = futureWork "return in loop (use break)" := by
  apply ifStmt_then_abort
  rw [stmts, stmtLoop]
  simp [cursor.HasNext, cursor.Next, stmt, futureWork, bind, Except.bind, pure, Except.pure]

theorem ifStmt_last_no_else (ctx : Ctx) (Cond : Expr) (Body : List Stmt)
    (last : Stmt) (loopVar : Option String) (thenBlock cond : CoqExpr)
    (hlast : Body.getLast? = some last)
    (hthen : stmts ctx Body loopVar = Except.ok thenBlock)
    (hcond : expr ctx Cond = Except.ok cond) :
    (loopVar = Option.none →
        (ifStmt ctx Cond Body Option.none ⟨[]⟩ loopVar).map Step.out
          = Except.ok (NewAnon (CoqExpr.IfExpr cond thenBlock returnUnit), ⟨[]⟩))
      ∧ (loopVar.isSome = true →
        ifStmt ctx Cond Body Option.none ⟨[]⟩ loopVar = unsupported "implicit loop continue") := by
  have hends := endsWithReturn_of_getLast Body last hlast
  constructor
  · intro hl
    subst hl
    rw [ifStmt]
    simp [stmt, blockStmt, hthen, Step.stay, NewAnon, Binding.Unwrap, hcond, hends,
      cursor.HasNext, Step.out, returnUnit, Except.map, bind, Except.bind, pure, Except.pure]
  · intro hl
    obtain ⟨v, rfl⟩ := Option.isSome_iff_exists.mp hl
    rw [ifStmt]
    simp [stmt, blockStmt, hthen, Step.stay, NewAnon, Binding.Unwrap, hcond, hends,
      cursor.HasNext, bind, Except.bind, pure, Except.pure]

/-- C12 (amended). For a conditional without an else branch whose then-body ends in a return or
branch statement, whose then-body and condition translate, and after which no statement
remains: outside a loop `ifStmt` returns the anonymous binding of the conditional whose else
branch is the return of `tt`, and inside a loop it raises the unsupported diagnostic of an
implicit loop continue. -/
theorem ifStmt_no_else_nothing_remaining (ctx : Ctx) (Cond : Expr) (Body : List Stmt)
    (last : Stmt) (loopVar : Option String) (thenBlock cond : CoqExpr)
    (hlast : Body.getLast? = some last) (_hret : last.isReturnOrBranch = true)
    (hthen : stmts ctx Body loopVar = Except.ok thenBlock)
    (hcond : expr ctx Cond = Except.ok cond) :
    (loopVar = Option.none →
        (ifStmt ctx Cond Body Option.none ⟨[]⟩ loopVar).map Step.out
          = Except.ok (NewAnon (CoqExpr.IfExpr cond thenBlock returnUnit), ⟨[]⟩))
      ∧ (loopVar.isSome = true →
        ifStmt ctx Cond Body Option.none ⟨[]⟩ loopVar = unsupported "implicit loop continue") :=
  ifStmt_last_no_else ctx Cond Body last loopVar thenBlock cond hlast hthen hcond

theorem stmts_exBreak : stmts exCtx [exBreak] (some "i")
    = Except.ok (CoqExpr.BlockExpr [NewAnon CoqExpr.LoopRetExpr]) := by
  simp [stmts, stmtLoop, exBreak, cursor.HasNext, cursor.Next, stmt, Step.stay, bind,
    Except.bind, pure, Except.pure]

/-- The conditionals `if i > n \x7b return x \x7d` at the end of a function body and
`if i > n \x7b break \x7d` at the end of a loop body. -/
theorem ifStmt_no_else_nothing_remaining_witness :
    (ifStmt exCtx exCond exThen Option.none ⟨[]⟩ Option.none).map Step.out
        = Except.ok (NewAnon (CoqExpr.IfExpr exCondExpr exThenBlock returnUnit), ⟨[]⟩)
      ∧ ifStmt exCtx exCond [exBreak] Option.none ⟨[]⟩ (some "i")
        = unsupported "implicit loop continue" :=
  ⟨(ifStmt_no_else_nothing_remaining exCtx exCond exThen (Stmt.ReturnStmt [Expr.Ident "x" true])
      Option.none exThenBlock exCondExpr rfl rfl stmts_exThen rfl).1 rfl,
   (ifStmt_no_else_nothing_remaining exCtx exCond [exBreak] exBreak (some "i")
      (CoqExpr.BlockExpr [NewAnon CoqExpr.LoopRetExpr]) exCondExpr rfl rfl stmts_exBreak rfl).2
      rfl⟩

theorem stmts_exCallF (loopVar : Option String) : stmts exCtx [exCallF] loopVar
    = Except.ok (CoqExpr.BlockExpr [exCallFBinding]) := by
  rw [stmts, stmtLoop]
  simp [exCallF, exCallFBinding, cursor.HasNext, cursor.Next, stmt, expr, exprList, callExpr,
    isIdent, getIdent, methodExpr, collect, Step.stay, bind, Except.bind, pure, Except.pure]
  rw [stmtLoop]
  simp [cursor.HasNext, pure, Except.pure]

/-- C13. The conditionals `if i > n \x7b f(i) \x7d` and `if i > n \x7b f(i) \x7d else \x7b f(i) \x7d`, at the
end of a function body, have a then-body that does not end in a return or branch statement, and
`ifStmt` lowers both. -/
theorem ifStmt_accepts_open_then :
    exCallF.isReturnOrBranch = false
      ∧ (ifStmt exCtx exCond [exCallF] Option.none ⟨[]⟩ Option.none).map Step.out
        = Except.ok (NewAnon (CoqExpr.IfExpr exCondExpr (CoqExpr.BlockExpr [exCallFBinding])
            returnUnit), ⟨[]⟩)
      ∧ (ifStmt exCtx exCond [exCallF] (some (Stmt.BlockStmt [exCallF])) ⟨[]⟩
          Option.none).map Step.out
        = Except.ok (NewAnon (CoqExpr.IfExpr exCondExpr (CoqExpr.BlockExpr [exCallFBinding])
            (CoqExpr.BlockExpr [exCallFBinding])), ⟨[]⟩) := by
  refine ⟨rfl, ?_, ?_⟩
  · exact (ifStmt_last_no_else exCtx exCond [exCallF] exCallF Option.none
      (CoqExpr.BlockExpr [exCallFBinding]) exCondExpr rfl (stmts_exCallF _) rfl).1 rfl
  · have hc : expr exCtx exCond = Except.ok exCondExpr := rfl
    have he : endsWithReturn [exCallF] = Except.ok false := rfl
    rw [ifStmt]
    simp [stmt, blockStmt, stmts_exCallF, hc, he, Step.stay, NewAnon, Binding.Unwrap,
      cursor.HasNext, Step.out, Except.map, bind, Except.bind, pure, Except.pure]

theorem ifStmt_followed_futureWork (ctx : Ctx) (Cond : Expr) (Body : List Stmt)
    (Else : Option Stmt) (rest : List Stmt) (loopVar : Option String)
    (thenBlock cond : CoqExpr) (last : Stmt) (hrest : rest ≠ [])
    (hshape : Else.isSome = true
      ∨ ∀ l, Body.getLast? = some l → l.isReturnOrBranch = false)
    (hthen : stmts ctx Body loopVar = Except.ok thenBlock)
    (hcond : expr ctx Cond = Except.ok cond) (hlast : Body.getLast? = some last) :
    ∃ msg, ifStmt ctx Cond Body Else ⟨rest⟩ loopVar = futureWork msg := by
  have hends := endsWithReturn_of_getLast Body last hlast
  have hnext : cursor.HasNext ⟨rest⟩ = true := by
    cases rest with
    | nil => exact absurd rfl hrest
    | cons x xs => simp [cursor.HasNext]
  cases hb : last.isReturnOrBranch with
  | false =>
    rw [hb] at hends
    refine ⟨"non-terminal if expressions are only partially supported", ?_⟩
    rw [ifStmt]
    simp [stmt, blockStmt, hthen, Step.stay, NewAnon, Binding.Unwrap, hcond, hends, hnext, bind,
      Except.bind, pure, Except.pure]
  | true =>
    rw [hb] at hends
    have hE : Else.isSome = true := by
      rcases hshape with h | h
      · exact h
      · rw [h last hlast] at hb; cases hb
    obtain ⟨e, rfl⟩ := Option.isSome_iff_exists.mp hE
    refine ⟨"else with early return", ?_⟩
    rw [ifStmt]
    simp [stmt, blockStmt, hthen, Step.stay, NewAnon, Binding.Unwrap, hcond, hends, hnext, bind,
      Except.bind, pure, Except.pure]

theorem getLast?_of_ne_nil (Body : List Stmt) (h : Body ≠ []) : ∃ last, Body.getLast? = some last := by
  cases hl : Body.getLast? with
  | none => exact absurd (List.getLast?_eq_none_iff.mp hl) h
  | some last => exact ⟨last, rfl⟩

theorem ifStmt_last_else (ctx : Ctx) (Cond : Expr) (Body : List Stmt) (els : Stmt)
    (thenBlock cond elseExpr : CoqExpr) (elseStep : Step ⟨[]⟩) (hbody : Body ≠ [])
    (hthen : stmts ctx Body Option.none = Except.ok thenBlock)
    (hcond : expr ctx Cond = Except.ok cond)
    (hels : stmt ctx els ⟨[]⟩ Option.none = Except.ok elseStep)
    (hun : elseStep.binding.Unwrap = some elseExpr) :
    (ifStmt ctx Cond Body (some els) ⟨[]⟩ Option.none).map Step.out
      = Except.ok (NewAnon (CoqExpr.IfExpr cond thenBlock elseExpr), elseStep.next) := by
  obtain ⟨last, hlast⟩ := getLast?_of_ne_nil Body hbody
  have hends := endsWithReturn_of_getLast Body last hlast
  have hu : ∀ e : CoqExpr, (NewAnon e).Unwrap = some e := fun _ => rfl
  rw [ifStmt]
  simp [stmt, blockStmt, hthen, bind, Except.bind, pure, Except.pure, Step.stay, hu, hcond,
    hends, cursor.HasNext, hels, hun, Step.out, Except.map]

theorem stmt_exCallF_block :
    stmt exCtx (Stmt.BlockStmt [exCallF]) ⟨[]⟩ Option.none
      = Except.ok (Step.stay ⟨[]⟩ (NewAnon (CoqExpr.BlockExpr [exCallFBinding]))) := by
  rw [stmt]
  simp [blockStmt, stmts_exCallF, bind, Except.bind, pure, Except.pure]

/-- C13 (amended). A conditional that is followed by further statements and that has an else
branch, or whose then-body does not end in a return or branch statement, is never lowered: when
its then-body is not empty and its then-body and its condition translate, `ifStmt` raises a
future-work diagnostic.  A conditional with a non-empty then-body after which nothing remains
is lowered outside a loop whatever the last statement of its then-body is, when its then-body
and its condition translate: without an else branch with the return of `tt` as the else, and
with an else branch that translates with the translation of that branch as the else. -/
theorem ifStmt_rejected_shapes (ctx : Ctx) (Cond : Expr) (Body : List Stmt) :
    (∀ (Else : Option Stmt) (rest : List Stmt) (loopVar : Option String), rest ≠ [] →
        (Else.isSome = true ∨ ∀ l, Body.getLast? = some l → l.isReturnOrBranch = false) →
        (∀ r, ifStmt ctx Cond Body Else ⟨rest⟩ loopVar ≠ Except.ok r)
          ∧ (∀ thenBlock cond, Body ≠ [] → stmts ctx Body loopVar = Except.ok thenBlock →
            expr ctx Cond = Except.ok cond →
            ∃ msg, ifStmt ctx Cond Body Else ⟨rest⟩ loopVar = futureWork msg))
      ∧ (∀ thenBlock cond, Body ≠ [] → stmts ctx Body Option.none = Except.ok thenBlock →
          expr ctx Cond = Except.ok cond →
          (ifStmt ctx Cond Body Option.none ⟨[]⟩ Option.none).map Step.out
            = Except.ok (NewAnon (CoqExpr.IfExpr cond thenBlock returnUnit), ⟨[]⟩))
      ∧ (∀ els thenBlock cond elseExpr (elseStep : Step ⟨[]⟩), Body ≠ [] →
          stmts ctx Body Option.none = Except.ok thenBlock → expr ctx Cond = Except.ok cond →
          stmt ctx els ⟨[]⟩ Option.none = Except.ok elseStep →
          elseStep.binding.Unwrap = some elseExpr →
          (ifStmt ctx Cond Body (some els) ⟨[]⟩ Option.none).map Step.out
            = Except.ok (NewAnon (CoqExpr.IfExpr cond thenBlock elseExpr), elseStep.next)) := by
  refine ⟨?_, ?_, ?_⟩
  · intro Else rest loopVar hrest hshape
    have hfw : ∀ thenBlock cond, Body ≠ [] → stmts ctx Body loopVar = Except.ok thenBlock →
        expr ctx Cond = Except.ok cond →
        ∃ msg, ifStmt ctx Cond Body Else ⟨rest⟩ loopVar = futureWork msg := by
      intro thenBlock cond hbody hthen hcond
      obtain ⟨last, hlast⟩ := getLast?_of_ne_nil Body hbody
      exact ifStmt_followed_futureWork ctx Cond Body Else rest loopVar thenBlock cond last hrest
        hshape hthen hcond hlast
    refine ⟨?_, hfw⟩
    intro r hr
    cases hthen : stmts ctx Body loopVar with
    | error e =>
      rw [ifStmt_then_abort ctx Cond Body Else ⟨rest⟩ loopVar e hthen] at hr
      cases hr
    | ok thenBlock =>
      cases hcond : expr ctx Cond with
      | error e =>
        rw [ifStmt] at hr
        simp [stmt, blockStmt, hthen, Step.stay, NewAnon, Binding.Unwrap, hcond, bind,
          Except.bind, pure, Except.pure] at hr
      | ok cond =>
        cases hlast : Body.getLast? with
        | none =>
          have hB : Body = [] := List.getLast?_eq_none_iff.mp hlast
          subst hB
          have he : endsWithReturn [] = runtimePanic "index out of range" := rfl
          rw [ifStmt] at hr
          simp [stmt, blockStmt, hthen, Step.stay, NewAnon, Binding.Unwrap, hcond, he,
            runtimePanic, bind, Except.bind, pure, Except.pure] at hr
        | some last =>
          have hbody : Body ≠ [] := by
            intro hB
            rw [hB] at hlast
            cases hlast
          obtain ⟨msg, hm⟩ := hfw thenBlock cond hbody hthen hcond
          rw [hm] at hr
          cases hr
  · intro thenBlock cond hbody hthen hcond
    obtain ⟨last, hlast⟩ := getLast?_of_ne_nil Body hbody
    exact (ifStmt_last_no_else ctx Cond Body last Option.none thenBlock cond hlast hthen
      hcond).1 rfl
  · intro els thenBlock cond elseExpr elseStep hbody hthen hcond hels hun
    exact ifStmt_last_else ctx Cond Body els thenBlock cond elseExpr elseStep hbody hthen hcond
      hels hun

theorem loopAssignStmt_next_length (ctx : Ctx) (Lhs Rhs : List Expr) (c : cursor) (r : Step c)
    (h : loopAssignStmt ctx Lhs Rhs c = Except.ok r) :
    r.next.Stmts.length ≤ c.Stmts.length := by
  obtain ⟨l⟩ := c
  cases l with
  | nil => simp [loopAssignStmt, cursor.HasNext, unsupported] at h
  | cons x xs =>
    simp only [loopAssignStmt, cursor.HasNext, cursor.Next, bind, Except.bind, pure,
      Except.pure] at h
    simp at h
    split at h
    · split at h
      · cases h
      · split at h <;> cases h
    · split at h
      · cases h
      · split at h
        · cases h
        · simp at h
          rw [← h]
          simp

theorem assignStmt_next_length (ctx : Ctx) (Lhs : List Expr) (Tok : Token) (Rhs : List Expr)
    (c : cursor) (loopVar : Option String) (r : Step c)
    (h : assignStmt ctx Lhs Tok Rhs c loopVar = Except.ok r) :
    r.next.Stmts.length ≤ c.Stmts.length := by
  unfold assignStmt at h
  split at h
  · cases hd : defineStmt ctx Lhs Rhs with
    | error e => simp [hd, bind, Except.bind] at h
    | ok b =>
      simp [hd, bind, Except.bind, pure, Except.pure, Step.stay] at h
      rw [← h]
  · split at h
    · cases h
    · cases hi : index Lhs 0 with
      | error e => simp [hi, bind, Except.bind] at h
      | ok lhs =>
        simp only [hi, bind, Except.bind] at h
        cases lhs with
        | Ident Name o =>
          simp only at h
          cases loopVar with
          | none => cases h
          | some v =>
            simp only at h
            split at h
            · cases h
            · exact loopAssignStmt_next_length ctx Lhs Rhs c r h
        | IndexExpr X Index =>
          simp only at h
          split at h
          · cases h
          · cases hr : index Rhs 0 with
            | error e => simp [hr] at h
            | ok rhs =>
              cases hv : expr ctx rhs with
              | error e => simp [hr, hv] at h
              | ok v =>
                cases hx : expr ctx X with
                | error e => simp [hr, hv, hx] at h
                | ok x =>
                  cases hi2 : expr ctx Index with
                  | error e => simp [hr, hv, hx, hi2] at h
                  | ok i =>
                    simp [hr, hv, hx, hi2, pure, Except.pure, Step.stay] at h
                    rw [← h]
          · cases h
        | StarExpr X =>
          simp only at h
          cases hx : expr ctx X with
          | error e => simp [hx] at h
          | ok x =>
            cases hr : index Rhs 0 with
            | error e => simp [hx, hr] at h
            | ok rhs =>
              cases hv : expr ctx rhs with
              | error e => simp [hx, hr, hv] at h
              | ok v =>
                simp [hx, hr, hv, pure, Except.pure, Step.stay] at h
                rw [← h]
        | _ => cases h

theorem ifStmt_next_length (ctx : Ctx) (Cond : Expr) (Body : List Stmt) (Else : Option Stmt)
    (c : cursor) (loopVar : Option String) (r : Step c)
    (ih : ∀ e, Else = some e → ∀ r' : Step c, stmt ctx e c loopVar = Except.ok r' →
      r'.next.Stmts.length ≤ c.Stmts.length)
    (h : ifStmt ctx Cond Body Else c loopVar = Except.ok r) :
    r.next.Stmts.length ≤ c.Stmts.length := by
  rw [ifStmt] at h
  cases h1 : stmt ctx (Stmt.BlockStmt Body) ⟨[]⟩ loopVar with
  | error e => simp [h1, bind, Except.bind] at h
  | ok thenStep =>
    cases h2 : thenStep.binding.Unwrap with
    | none => simp [h1, h2, nope, bind, Except.bind] at h
    | some thenExpr =>
      cases h3 : expr ctx Cond with
      | error e => simp [h1, h2, h3, bind, Except.bind] at h
      | ok cond =>
        cases h4 : endsWithReturn Body with
        | error e => simp [h1, h2, h3, h4, bind, Except.bind] at h
        | ok ends =>
          simp only [h1, h2, h3, h4, bind, Except.bind] at h
          split at h
          · cases Else with
            | some e => cases h
            | none =>
              simp only at h
              cases h5 : stmts ctx c.Remainder.1 loopVar with
              | error e => simp [h5] at h
              | ok els =>
                simp [h5, pure, Except.pure] at h
                rw [← h]
                simp [cursor.Remainder]
          · split at h
            · cases Else with
              | none =>
                cases loopVar with
                | some v => cases h
                | none =>
                  simp [pure, Except.pure, Step.stay] at h
                  rw [← h]
              | some e =>
                simp only at h
                cases h6 : stmt ctx e c loopVar with
                | error err => simp [h6] at h
                | ok elseStep =>
                  cases h7 : elseStep.binding.Unwrap with
                  | none => simp [h6, h7, nope] at h
                  | some elseExpr =>
                    simp [h6, h7, pure, Except.pure] at h
                    rw [← h]
                    exact ih e rfl elseStep h6
            · cases h

theorem stmt_next_length (ctx : Ctx) : ∀ (s : Stmt) (c : cursor) (loopVar : Option String)
    (r : Step c), stmt ctx s c loopVar = Except.ok r → r.next.Stmts.length ≤ c.Stmts.length
  | Stmt.ReturnStmt Results, c, loopVar, r, h => by
    rw [stmt] at h
    split at h
    · cases h
    · split at h
      · cases h
      · cases hr : returnExpr ctx Results with
        | error e => simp [hr, bind, Except.bind] at h
        | ok x =>
          simp [hr, bind, Except.bind, pure, Except.pure, Step.stay] at h
          rw [← h]
  | Stmt.BranchStmt Tok, c, loopVar, r, h => by
    rw [stmt] at h
    split at h
    · cases h
    · split at h
      · cases h
      · simp [pure, Except.pure, Step.stay] at h
        rw [← h]
  | Stmt.ExprStmt X, c, loopVar, r, h => by
    rw [stmt] at h
    cases hx : expr ctx X with
    | error e => simp [hx, bind, Except.bind] at h
    | ok x =>
      simp [hx, bind, Except.bind, pure, Except.pure, Step.stay] at h
      rw [← h]
  | Stmt.AssignStmt Lhs Tok Rhs, c, loopVar, r, h => by
    rw [stmt] at h
    exact assignStmt_next_length ctx Lhs Tok Rhs c loopVar r h
  | Stmt.BlockStmt List, c, loopVar, r, h => by
    rw [stmt] at h
    cases hb : blockStmt ctx List loopVar with
    | error e => simp [hb, bind, Except.bind] at h
    | ok x =>
      simp [hb, bind, Except.bind, pure, Except.pure, Step.stay] at h
      rw [← h]
  | Stmt.IfStmt Init Cond Body Option.none, c, loopVar, r, h => by
    rw [stmt] at h
    refine ifStmt_next_length ctx Cond Body Option.none c loopVar r ?_ h
    intro e he
    cases he
  | Stmt.IfStmt Init Cond Body (some els), c, loopVar, r, h => by
    rw [stmt] at h
    refine ifStmt_next_length ctx Cond Body (some els) c loopVar r ?_ h
    intro e he r' hr'
    cases he
    exact stmt_next_length ctx els c loopVar r' hr'
  | Stmt.ForStmt Init Cond Post Body, c, loopVar, r, h => by
    rw [stmt] at h
    cases hb : forStmt ctx Init Cond Post Body with
    | error e => simp [hb, bind, Except.bind] at h
    | ok x =>
      simp [hb, bind, Except.bind, pure, Except.pure, Step.stay] at h
      rw [← h]
  | Stmt.GoStmt Call, c, loopVar, r, h => by
    rw [stmt] at h
    cases h
  | Stmt.Other, c, loopVar, r, h => by
    rw [stmt] at h
    cases h
termination_by s => sizeOf s
decreasing_by
  simp_wf
  omega

theorem stmtLoop_length (ctx : Ctx) (loopVar : Option String) :
    ∀ (n : Nat) (c : cursor) (acc bs : List Binding), c.Stmts.length ≤ n →
      stmtLoop ctx c acc loopVar = Except.ok bs →
      acc.length ≤ bs.length ∧ bs.length ≤ acc.length + c.Stmts.length
        ∧ (c.Stmts ≠ [] → acc.length < bs.length) := by
  intro n
  induction n with
  | zero =>
    intro c acc bs hn h
    obtain ⟨l⟩ := c
    have hl : l = [] := List.length_eq_zero.mp (Nat.le_zero.mp hn)
    subst hl
    rw [stmtLoop] at h
    simp [cursor.HasNext, pure, Except.pure] at h
    subst h
    simp
  | succ n ih =>
    intro c acc bs hn h
    obtain ⟨l⟩ := c
    cases l with
    | nil =>
      rw [stmtLoop] at h
      simp [cursor.HasNext, pure, Except.pure] at h
      subst h
      simp
    | cons s rest =>
      rw [stmtLoop] at h
      simp only [cursor.HasNext, cursor.Next, bind, Except.bind, pure, Except.pure] at h
      simp at h
      cases hs : stmt ctx s ⟨rest⟩ loopVar with
      | error e => simp [hs] at h
      | ok r =>
        simp [hs] at h
        have hr := stmt_next_length ctx s ⟨rest⟩ loopVar r hs
        simp at hr hn
        obtain ⟨h1, h2, _⟩ := ih r.next (acc ++ [r.binding]) bs (by omega) h
        simp at h1 h2
        refine ⟨by omega, by simp; omega, fun _ => by omega⟩

/-- C11. The empty statement list gives a block with one binding, which is more bindings than
the list has statements. -/
theorem stmts_empty_exceeds_bound :
    stmts exCtx [] Option.none = Except.ok (CoqExpr.BlockExpr [NewAnon returnUnit])
      ∧ ¬ [NewAnon returnUnit].length ≤ ([] : List Stmt).length := by
  constructor
  · rw [stmts, stmtLoop]
    simp [cursor.HasNext, returnUnit, bind, Except.bind, pure, Except.pure]
  · simp

/-- C11 (amended). The empty statement list gives the block of exactly one anonymous binding
of the return of `tt`; whenever `stmts` succeeds, the result is a block with at least one
binding, and for a non-empty list it has at most as many bindings as the list has statements. -/
theorem stmts_block_size (ctx : Ctx) (ss : List Stmt) (loopVar : Option String) :
    stmts ctx [] loopVar
        = Except.ok (CoqExpr.BlockExpr [NewAnon (CoqExpr.ReturnExpr (CoqExpr.IdentExpr "tt"))])
      ∧ (∀ e, stmts ctx ss loopVar = Except.ok e →
          ∃ bs, e = CoqExpr.BlockExpr bs ∧ 1 ≤ bs.length
            ∧ (ss ≠ [] → bs.length ≤ ss.length)) := by
  constructor
  · rw [stmts, stmtLoop]
    simp [cursor.HasNext, bind, Except.bind, pure, Except.pure]
  · intro e h
    rw [stmts] at h
    cases hl : stmtLoop ctx ⟨ss⟩ [] loopVar with
    | error err => simp [hl, bind, Except.bind] at h
    | ok bs =>
      obtain ⟨_, h2, h3⟩ := stmtLoop_length ctx loopVar ss.length ⟨ss⟩ [] bs (Nat.le_refl _) hl
      simp at h2 h3
      simp only [hl, bind, Except.bind] at h
      split at h
      · rename_i h0
        simp [pure, Except.pure] at h
        have hss : ss = [] := by
          by_contra hne
          have := h3 hne
          omega
        exact ⟨_, h.symm, by simp, fun hne => absurd hss hne⟩
      · rename_i h0
        simp [pure, Except.pure] at h
        exact ⟨bs, h.symm, by omega, fun _ => h2⟩

/-- The statement lists `return x` and `y := f(); return y`. -/
theorem stmts_block_size_witness :
    (∃ bs, exThenBlock = CoqExpr.BlockExpr bs ∧ 1 ≤ bs.length
        ∧ (exThen ≠ [] → bs.length ≤ exThen.length))
      ∧ (∃ bs, exRestBlock = CoqExpr.BlockExpr bs ∧ 1 ≤ bs.length
        ∧ (exRest ≠ [] → bs.length ≤ exRest.length)) :=
  ⟨(stmts_block_size exCtx exThen Option.none).2 exThenBlock stmts_exThen,
   (stmts_block_size exCtx exRest Option.none).2 exRestBlock stmts_exRest⟩

/-- The conditionals `if i > n \x7b f(i) \x7d; f(i)` and `if i > n \x7b return x \x7d else \x7b f(i) \x7d; f(i)`,
each followed by a statement, and the conditionals `if i > n \x7b f(i) \x7d` and
`if i > n \x7b f(i) \x7d else \x7b f(i) \x7d` at the end of a function body. -/
theorem ifStmt_rejected_shapes_witness :
    (∃ msg, ifStmt exCtx exCond [exCallF] Option.none ⟨[exCallF]⟩ Option.none = futureWork msg)
      ∧ (∃ msg, ifStmt exCtx exCond exThen (some (Stmt.BlockStmt [exCallF])) ⟨[exCallF]⟩
          Option.none = futureWork msg)
      ∧ (ifStmt exCtx exCond [exCallF] Option.none ⟨[]⟩ Option.none).map Step.out
        = Except.ok (NewAnon (CoqExpr.IfExpr exCondExpr (CoqExpr.BlockExpr [exCallFBinding])
            returnUnit), ⟨[]⟩)
      ∧ (ifStmt exCtx exCond [exCallF] (some (Stmt.BlockStmt [exCallF])) ⟨[]⟩
          Option.none).map Step.out
        = Except.ok (NewAnon (CoqExpr.IfExpr exCondExpr (CoqExpr.BlockExpr [exCallFBinding])
            (CoqExpr.BlockExpr [exCallFBinding])), ⟨[]⟩) :=
  ⟨((ifStmt_rejected_shapes exCtx exCond [exCallF]).1 Option.none [exCallF] Option.none
      (by simp) (Or.inr (fun l hl => by cases hl; rfl))).2
      (CoqExpr.BlockExpr [exCallFBinding]) exCondExpr (by simp) (stmts_exCallF _) rfl,
   ((ifStmt_rejected_shapes exCtx exCond exThen).1 (some (Stmt.BlockStmt [exCallF])) [exCallF]
      Option.none (by simp) (Or.inl rfl)).2
      exThenBlock exCondExpr (by simp [exThen]) stmts_exThen rfl,
   (ifStmt_rejected_shapes exCtx exCond [exCallF]).2.1
      (CoqExpr.BlockExpr [exCallFBinding]) exCondExpr (by simp) (stmts_exCallF _) rfl,
   (ifStmt_rejected_shapes exCtx exCond [exCallF]).2.2 (Stmt.BlockStmt [exCallF])
      (CoqExpr.BlockExpr [exCallFBinding]) exCondExpr (CoqExpr.BlockExpr [exCallFBinding])
      (Step.stay ⟨[]⟩ (NewAnon (CoqExpr.BlockExpr [exCallFBinding]))) (by simp)
      (stmts_exCallF _) rfl stmt_exCallF_block rfl⟩

/-- C21. Integer literals that are not plain decimal: on the hexadecimal literal `0x1F` and on
the literal `1_000` with a digit separator `basicLiteral` panics with the error of
`strconv.ParseUint`, which is called with base 10; on the octal literal `010`, whose Go value
is 8, it returns the literal 10. -/
theorem basicLiteral_non_decimal :
    basicLiteral Token.INT "0x1F" = runtimePanic "strconv.ParseUint: parsing failed"
      ∧ basicLiteral Token.INT "1_000" = runtimePanic "strconv.ParseUint: parsing failed"
      ∧ basicLiteral Token.INT "010" = Except.ok (CoqExpr.IntLiteral 10)
      ∧ expr exCtx (Expr.BasicLit Token.INT "0x1F")
        = runtimePanic "strconv.ParseUint: parsing failed" := by
  refine ⟨?_, ?_, ?_, ?_⟩
  · have hp : ParseUint "0x1F" = Option.none := by decide
    simp [basicLiteral, hp]
  · have hp : ParseUint "1_000" = Option.none := by decide
    simp [basicLiteral, hp]
  · have hp : ParseUint "010" = some 10 := by decide
    simp [basicLiteral, hp, pure, Except.pure]
  · have hp : ParseUint "0x1F" = Option.none := by decide
    simp [expr, basicLiteral, hp]

/-- C22. The conditional `if i > n \x7b \x7d` with an empty then-body: `endsWithReturn` indexes the
empty statement list at `len - 1`, and `ifStmt` ends in that run-time panic, for a cursor with
and without remaining statements, instead of a binding or a diagnostic. -/
theorem ifStmt_empty_body_panics :
    endsWithReturn [] = runtimePanic "index out of range"
      ∧ ifStmt exCtx exCond [] Option.none ⟨[]⟩ Option.none
        = runtimePanic "index out of range"
      ∧ ifStmt exCtx exCond [] Option.none ⟨[exCallF]⟩ Option.none
        = runtimePanic "index out of range" := by
  have hc : expr exCtx exCond = Except.ok exCondExpr := rfl
  have he : endsWithReturn [] = runtimePanic "index out of range" := rfl
  refine ⟨rfl, ?_, ?_⟩
  · rw [ifStmt]
    simp [stmt, blockStmt, stmts_nil, hc, he, Step.stay, NewAnon, Binding.Unwrap, runtimePanic,
      bind, Except.bind, pure, Except.pure]
  · rw [ifStmt]
    simp [stmt, blockStmt, stmts_nil, hc, he, Step.stay, NewAnon, Binding.Unwrap, runtimePanic,
      bind, Except.bind, pure, Except.pure]

/-! ### The two `nope` branches of `ifStmt` -/

@[simp] theorem avoids_ok {α : Type} (x : α) : Avoids (Except.ok x : M α) := by
  simp [Avoids]
@[simp] theorem avoids_pure {α : Type} (x : α) : Avoids (pure x : M α) := by
  simp [Avoids, pure, Except.pure]
@[simp] theorem avoids_unsupported {α : Type} (msg : String) : Avoids (unsupported msg : M α) := by
  simp [Avoids, unsupported, bodyNope, elseNope]
@[simp] theorem avoids_futureWork {α : Type} (msg : String) : Avoids (futureWork msg : M α) := by
  simp [Avoids, futureWork, bodyNope, elseNope]
@[simp] theorem avoids_todo {α : Type} (msg : String) : Avoids (todo msg : M α) := by
  simp [Avoids, todo, bodyNope, elseNope]
@[simp] theorem avoids_noExample {α : Type} (msg : String) : Avoids (noExample msg : M α) := by
  simp [Avoids, noExample, bodyNope, elseNope]
@[simp] theorem avoids_runtimePanic {α : Type} (msg : String) : Avoids (runtimePanic msg : M α) := by
  simp [Avoids, runtimePanic, bodyNope, elseNope]
theorem avoids_nope {α : Type} (msg : String)
    (h1 : msg ≠ "if statement body ends with an assignment")
    (h2 : msg ≠ "if statement else ends with an assignment") : Avoids (nope msg : M α) := by
  simp [Avoids, nope, bodyNope, elseNope, h1, h2]

@[simp] theorem avoids_index {α : Type} (xs : List α) (i : Nat) : Avoids (index xs i) := by
  unfold index
  split
  · exact avoids_pure _
  · exact avoids_runtimePanic _

@[simp] theorem avoids_methodExpr (f : Expr) : Avoids (methodExpr f) := by
  unfold methodExpr
  split
  · exact avoids_pure _
  · split_ifs <;> first | exact avoids_pure _ | exact avoids_unsupported _
  · exact avoids_unsupported _

@[simp] theorem avoids_bind_iff {α β : Type} (m : M α) (f : α → M β) :
    Avoids (m >>= f) ↔ Avoids m ∧ ∀ x, m = Except.ok x → Avoids (f x) := by
  cases h : m with
  | error e => simp [Avoids, bind, Except.bind]
  | ok x => simp [Avoids, bind, Except.bind]

@[simp] theorem avoids_ite {α : Type} (c : Prop) [Decidable c] (x y : M α) :
    Avoids (if c then x else y) ↔ (c → Avoids x) ∧ (¬ c → Avoids y) := by
  split_ifs with h <;> simp [h]

@[simp] theorem avoids_map {α β : Type} (f : α → β) (m : M α) : Avoids (f <$> m) ↔ Avoids m := by
  cases m with
  | error e => simp [Avoids, Functor.map, Except.map]
  | ok x => simp [Avoids, Functor.map, Except.map]

theorem avoids_collect {α : Type} : ∀ (ms : List (M α)), (∀ m ∈ ms, Avoids m) → Avoids (collect ms)
  | [], _ => by simp [collect]
  | m :: rest, h => by
    have ih := avoids_collect rest (fun x hx => h x (List.mem_cons_of_mem _ hx))
    have hm := h m (List.mem_cons_self _ _)
    simp [collect, hm, ih]

theorem avoids_sub (args : List (M CoqExpr)) (i : Nat) (h : ∀ m ∈ args, Avoids m) :
    Avoids (sub args i) := by
  unfold sub
  split
  · rename_i m hm
    exact h m (List.get?_mem hm)
  · simp

theorem avoids_coqTypeOfType (t : GoType) : Avoids (coqTypeOfType t) := by
  unfold coqTypeOfType
  split
  · split <;> simp
  · simp
  · simp
  · simp

theorem avoids_selectorExprType (X : Expr) (Sel : String) : Avoids (selectorExprType X Sel) := by
  unfold selectorExprType
  simp

theorem avoids_mapType (Key : Expr) (value : M CoqType) (h : Avoids value) :
    Avoids (mapType Key value) := by
  unfold mapType
  split <;> simp [h]

theorem avoids_arrayType (Len : Option Expr) (elt : M CoqType) (h : Avoids elt) :
    Avoids (arrayType Len elt) := by
  unfold arrayType
  split <;> simp [h]

theorem avoids_coqType (ctx : Ctx) : ∀ e : Expr, Avoids (coqType ctx e)
  | Expr.Ident name o => by simp [coqType, avoids_coqTypeOfType]
  | Expr.MapType Key Value => by
    simp only [coqType]; exact avoids_mapType _ _ (avoids_coqType ctx Value)
  | Expr.SelectorExpr X Sel => by simp [coqType, avoids_selectorExprType]
  | Expr.ArrayType Len Elt => by
    simp only [coqType]; exact avoids_arrayType _ _ (avoids_coqType ctx Elt)
  | Expr.StarExpr X => by
    have ih := avoids_coqType ctx X
    simp [coqType, ih]
  | Expr.CallExpr _ _ _ => by simp [coqType]
  | Expr.CompositeLit _ _ => by simp [coqType]
  | Expr.KeyValueExpr _ _ => by simp [coqType]
  | Expr.BasicLit _ _ => by simp [coqType]
  | Expr.BinaryExpr _ _ _ => by simp [coqType]
  | Expr.SliceExpr _ _ _ _ _ => by simp [coqType]
  | Expr.IndexExpr _ _ => by simp [coqType]
  | Expr.UnaryExpr _ _ => by simp [coqType]
  | Expr.ParenExpr _ => by simp [coqType]
  | Expr.StructType _ => by simp [coqType]
  | Expr.Other => by simp [coqType]

theorem avoids_makeExpr (ctx : Ctx) (args : List Expr) : Avoids (makeExpr ctx args) := by
  unfold makeExpr
  split
  · simp
  · simp [avoids_mapType, avoids_coqType]
  · split <;> simp [avoids_nope]
  · simp [avoids_nope]

theorem avoids_newExpr (ctx : Ctx) (ty : Expr) : Avoids (newExpr ctx ty) := by
  simp [newExpr, avoids_coqType]

theorem avoids_basicLiteral (Kind : Token) (Value : String) : Avoids (basicLiteral Kind Value) := by
  unfold basicLiteral
  split_ifs
  · simp
  · split <;> simp

theorem avoids_nilExpr (t : GoType) : Avoids (nilExpr t) := by
  unfold nilExpr
  split
  · split_ifs
    · simp [avoids_nope]
    · simp
  · simp

theorem avoids_lenExpr (ctx : Ctx) (Args : List Expr) (args : List (M CoqExpr))
    (h : ∀ m ∈ args, Avoids m) : Avoids (lenExpr ctx Args args) := by
  have hs := fun i => avoids_sub args i h
  unfold lenExpr
  simp
  intro x _
  split <;> simp [hs]

theorem avoids_callExpr (ctx : Ctx) (Fun : Expr) (Args : List Expr) (Ellipsis : Bool)
    (args : List (M CoqExpr)) (h : ∀ m ∈ args, Avoids m) :
    Avoids (callExpr ctx Fun Args Ellipsis args) := by
  have hs := fun i => avoids_sub args i h
  have hl := avoids_lenExpr ctx Args args h
  have hc := avoids_collect args h
  unfold callExpr
  simp [avoids_makeExpr, avoids_newExpr, hs, hl, hc]

theorem avoids_structSelector (ctx : Ctx) (X : Expr) (Sel : String) (x : M CoqExpr)
    (h : Avoids x) : Avoids (structSelector ctx X Sel x) := by
  unfold structSelector
  split <;> simp [h]

theorem avoids_checkFields (found : List String) : ∀ fields, Avoids (checkFields fields found)
  | [] => by simp [checkFields]
  | f :: rest => by
    have ih := avoids_checkFields found rest
    simp [checkFields, ih]

theorem avoids_GoType_Underlying (t : GoType) : Avoids t.Underlying := by
  unfold GoType.Underlying
  split <;> simp

theorem avoids_structLiteral (t : GoType) (Typ : Option Expr)
    (elts : M (List (String × CoqExpr) × List String)) (h : Avoids elts) :
    Avoids (structLiteral t Typ elts) := by
  unfold structLiteral
  simp [avoids_GoType_Underlying]
  intro u _
  split
  · split
    · exact avoids_nope _ (by decide) (by decide)
    · simp [h, avoids_checkFields]
  · simp

theorem avoids_binExpr (x y : M CoqExpr) (Op : Token) (hx : Avoids x) (hy : Avoids y) :
    Avoids (binExpr x Op y) := by
  unfold binExpr
  simp [hx, hy]
  intro a _ b _
  split <;> simp

theorem avoids_exprCall (e : Option (M CoqExpr)) (h : ∀ m, e = some m → Avoids m) :
    Avoids (exprCall e) := by
  unfold exprCall
  split
  · exact h _ rfl
  · simp

theorem avoids_sliceExpr (x : M CoqExpr) (Low High : Option (M CoqExpr)) (Slice3 : Bool)
    (hx : Avoids x) (hl : ∀ m, Low = some m → Avoids m) (hh : ∀ m, High = some m → Avoids m) :
    Avoids (sliceExpr x Low High Slice3) := by
  have h1 := avoids_exprCall Low hl
  have h2 := avoids_exprCall High hh
  unfold sliceExpr
  simp [hx, h1, h2]

mutual
theorem avoids_expr (ctx : Ctx) : ∀ e : Expr, Avoids (expr ctx e)
  | Expr.CallExpr Fun Args Ellipsis => by
    simp only [expr]
    exact avoids_callExpr ctx Fun Args Ellipsis _ (avoids_exprList ctx Args)
  | Expr.MapType Key Value => by
    simp [expr, avoids_mapType, avoids_coqType]
  | Expr.Ident Name hasObj => by
    simp [expr, avoids_nilExpr]
  | Expr.SelectorExpr X Sel => by
    simp only [expr]
    exact avoids_structSelector ctx X Sel _ (avoids_expr ctx X)
  | Expr.CompositeLit Typ Elts => by
    simp only [expr]
    exact avoids_structLiteral _ _ _ (avoids_structLiteralElts ctx Elts [] [])
  | Expr.BasicLit Kind Value => by
    simp [expr, avoids_basicLiteral]
  | Expr.BinaryExpr X Op Y => by
    simp only [expr]
    exact avoids_binExpr _ _ _ (avoids_expr ctx X) (avoids_expr ctx Y)
  | Expr.SliceExpr X Low High _ Slice3 => by
    simp only [expr]
    exact avoids_sliceExpr _ _ _ _ (avoids_expr ctx X) (avoids_exprOpt ctx Low)
      (avoids_exprOpt ctx High)
  | Expr.IndexExpr X Index => by
    have h1 := avoids_expr ctx X
    have h2 := avoids_expr ctx Index
    simp only [expr]
    split <;> simp [h1, h2]
  | Expr.UnaryExpr Op X => by
    have h1 := avoids_expr ctx X
    simp [expr, h1]
  | Expr.ParenExpr X => by
    simp only [expr]
    exact avoids_expr ctx X
  | Expr.StarExpr X => by
    have h1 := avoids_expr ctx X
    simp [expr, h1]
  | Expr.KeyValueExpr _ _ => by simp [expr]
  | Expr.ArrayType _ _ => by simp [expr]
  | Expr.StructType _ => by simp [expr]
  | Expr.Other => by simp [expr]
theorem avoids_exprList (ctx : Ctx) : ∀ es : List Expr, ∀ m ∈ exprList ctx es, Avoids m
  | [] => by simp [exprList]
  | e :: rest => by
    have h1 := avoids_expr ctx e
    have h2 := avoids_exprList ctx rest
    intro m hm
    simp only [exprList, List.mem_cons] at hm
    rcases hm with hm | hm
    · rw [hm]; exact h1
    · exact h2 m hm
theorem avoids_exprOpt (ctx : Ctx) : ∀ e : Option Expr, ∀ m, exprOpt ctx e = some m → Avoids m
  | Option.none => by simp [exprOpt]
  | some e => by
    have h1 := avoids_expr ctx e
    intro m hm
    simp only [exprOpt, Option.some.injEq] at hm
    rw [← hm]; exact h1
theorem avoids_structLiteralElts (ctx : Ctx) :
    ∀ (es : List Expr) (lit : List (String × CoqExpr)) (found : List String),
      Avoids (structLiteralElts ctx es lit found)
  | [], lit, found => by simp [structLiteralElts]
  | Expr.KeyValueExpr Key Value :: rest, lit, found => by
    have h1 := avoids_expr ctx Value
    simp only [structLiteralElts]
    split
    · simp
    · simp only [avoids_bind_iff]
      exact ⟨h1, fun v _ => avoids_structLiteralElts ctx rest _ _⟩
  | Expr.CallExpr _ _ _ :: _, _, _ => by
    simp only [structLiteralElts]; exact avoids_nope _ (by decide) (by decide)
  | Expr.MapType _ _ :: _, _, _ => by
    simp only [structLiteralElts]; exact avoids_nope _ (by decide) (by decide)
  | Expr.Ident _ _ :: _, _, _ => by
    simp only [structLiteralElts]; exact avoids_nope _ (by decide) (by decide)
  | Expr.SelectorExpr _ _ :: _, _, _ => by
    simp only [structLiteralElts]; exact avoids_nope _ (by decide) (by decide)
  | Expr.CompositeLit _ _ :: _, _, _ => by
    simp only [structLiteralElts]; exact avoids_nope _ (by decide) (by decide)
  | Expr.BasicLit _ _ :: _, _, _ => by
    simp only [structLiteralElts]; exact avoids_nope _ (by decide) (by decide)
  | Expr.BinaryExpr _ _ _ :: _, _, _ => by
    simp only [structLiteralElts]; exact avoids_nope _ (by decide) (by decide)
  | Expr.SliceExpr _ _ _ _ _ :: _, _, _ => by
    simp only [structLiteralElts]; exact avoids_nope _ (by decide) (by decide)
  | Expr.IndexExpr _ _ :: _, _, _ => by
    simp only [structLiteralElts]; exact avoids_nope _ (by decide) (by decide)
  | Expr.UnaryExpr _ _ :: _, _, _ => by
    simp only [structLiteralElts]; exact avoids_nope _ (by decide) (by decide)
  | Expr.ParenExpr _ :: _, _, _ => by
    simp only [structLiteralElts]; exact avoids_nope _ (by decide) (by decide)
  | Expr.StarExpr _ :: _, _, _ => by
    simp only [structLiteralElts]; exact avoids_nope _ (by decide) (by decide)
  | Expr.ArrayType _ _ :: _, _, _ => by
    simp only [structLiteralElts]; exact avoids_nope _ (by decide) (by decide)
  | Expr.StructType _ :: _, _, _ => by
    simp only [structLiteralElts]; exact avoids_nope _ (by decide) (by decide)
  | Expr.Other :: _, _, _ => by
    simp only [structLiteralElts]; exact avoids_nope _ (by decide) (by decide)
end

theorem avoids_returnExpr (ctx : Ctx) (es : List Expr) : Avoids (returnExpr ctx es) := by
  have h := avoids_collect _ (avoids_exprList ctx es)
  simp [returnExpr, h]

theorem avoids_endsWithReturn (b : List Stmt) : Avoids (endsWithReturn b) := by
  unfold endsWithReturn
  split
  · simp only [avoids_bind_iff]
    refine ⟨avoids_runtimePanic _, ?_⟩
    intro x hx
    simp [runtimePanic] at hx
  · simp only [avoids_bind_iff]
    refine ⟨avoids_index _ _, ?_⟩
    intro x _
    split <;> simp

theorem avoids_defineNames : ∀ es : List Expr, Avoids (defineNames es)
  | [] => by simp [defineNames]
  | e :: rest => by
    have ih := avoids_defineNames rest
    simp only [defineNames]
    split
    · exact avoids_nope _ (by decide) (by decide)
    · simp [ih]

theorem avoids_defineStmt (ctx : Ctx) (Lhs Rhs : List Expr) : Avoids (defineStmt ctx Lhs Rhs) := by
  simp [defineStmt, avoids_defineNames, avoids_expr]

theorem avoids_cursor_Next (c : cursor) : Avoids c.Next := by
  unfold cursor.Next
  split <;> simp

theorem avoids_loopAssignStmt (ctx : Ctx) (Lhs Rhs : List Expr) (c : cursor) :
    Avoids (loopAssignStmt ctx Lhs Rhs c) := by
  unfold loopAssignStmt
  simp [avoids_cursor_Next, avoids_expr]
  intro _ a _ _ x _
  split <;> simp

theorem avoids_assignStmt (ctx : Ctx) (Lhs : List Expr) (Tok : Token) (Rhs : List Expr)
    (c : cursor) (loopVar : Option String) : Avoids (assignStmt ctx Lhs Tok Rhs c loopVar) := by
  unfold assignStmt
  simp [avoids_defineStmt]
  intro _ _ _ lhs _
  split
  · split
    · simp [avoids_loopAssignStmt]
    · simp
  · split <;> simp [avoids_expr]
  · simp [avoids_expr]
  · simp

theorem avoids_loopVar (ctx : Ctx) (s : Stmt) : Avoids (loopVar ctx s) := by
  unfold loopVar
  split
  · simp
    intro _ _ _ lhs _ rhs _
    split
    · exact avoids_nope _ (by decide) (by decide)
    · simp [avoids_expr]
  · simp

theorem stmt_block_anon (ctx : Ctx) (L : List Stmt) (c : cursor) (loopVar : Option String)
    (r : Step c) (h : stmt ctx (Stmt.BlockStmt L) c loopVar = Except.ok r) :
    ∃ e, r.binding = NewAnon e := by
  rw [stmt] at h
  cases hb : blockStmt ctx L loopVar with
  | error e => simp [hb, bind, Except.bind] at h
  | ok x =>
    simp [hb, bind, Except.bind, pure, Except.pure, Step.stay] at h
    rw [← h]
    exact ⟨x, rfl⟩

theorem ifStmt_anon (ctx : Ctx) (Cond : Expr) (Body : List Stmt) (Else : Option Stmt)
    (c : cursor) (loopVar : Option String) (r : Step c)
    (h : ifStmt ctx Cond Body Else c loopVar = Except.ok r) : ∃ e, r.binding = NewAnon e := by
  rw [ifStmt] at h
  cases h1 : stmt ctx (Stmt.BlockStmt Body) ⟨[]⟩ loopVar with
  | error e => simp [h1, bind, Except.bind] at h
  | ok thenStep =>
    cases h2 : thenStep.binding.Unwrap with
    | none => simp [h1, h2, nope, bind, Except.bind] at h
    | some thenExpr =>
      cases h3 : expr ctx Cond with
      | error e => simp [h1, h2, h3, bind, Except.bind] at h
      | ok cond =>
        cases h4 : endsWithReturn Body with
        | error e => simp [h1, h2, h3, h4, bind, Except.bind] at h
        | ok ends =>
          simp only [h1, h2, h3, h4, bind, Except.bind] at h
          split at h
          · cases Else with
            | some e => cases h
            | none =>
              simp only at h
              cases h5 : stmts ctx c.Remainder.1 loopVar with
              | error e => simp [h5] at h
              | ok els =>
                simp [h5, pure, Except.pure] at h
                rw [← h]
                exact ⟨_, rfl⟩
          · split at h
            · cases Else with
              | none =>
                cases loopVar with
                | some v => cases h
                | none =>
                  simp [pure, Except.pure, Step.stay] at h
                  rw [← h]
                  exact ⟨_, rfl⟩
              | some e =>
                simp only at h
                cases h6 : stmt ctx e c loopVar with
                | error err => simp [h6] at h
                | ok elseStep =>
                  cases h7 : elseStep.binding.Unwrap with
                  | none => simp [h6, h7, nope] at h
                  | some elseExpr =>
                    simp [h6, h7, pure, Except.pure] at h
                    rw [← h]
                    exact ⟨_, rfl⟩
            · cases h

theorem stmt_blockOrIf_anon (ctx : Ctx) (s : Stmt) (c : cursor) (loopVar : Option String)
    (r : Step c) (hs : s.isBlockOrIf = true) (h : stmt ctx s c loopVar = Except.ok r) :
    ∃ e, r.binding = NewAnon e := by
  cases s with
  | BlockStmt L => exact stmt_block_anon ctx L c loopVar r h
  | IfStmt Init Cond Body Else =>
    rw [stmt] at h
    exact ifStmt_anon ctx Cond Body Else c loopVar r h
  | _ => simp [Stmt.isBlockOrIf] at hs

theorem loopAssignStmt_next_suffix (ctx : Ctx) (Lhs Rhs : List Expr) (c : cursor) (r : Step c)
    (h : loopAssignStmt ctx Lhs Rhs c = Except.ok r) :
    r.next.Stmts <:+ c.Stmts := by
  obtain ⟨l⟩ := c
  cases l with
  | nil => simp [loopAssignStmt, cursor.HasNext, unsupported] at h
  | cons x xs =>
    simp only [loopAssignStmt, cursor.HasNext, cursor.Next, bind, Except.bind, pure,
      Except.pure] at h
    simp at h
    split at h
    · split at h
      · cases h
      · split at h <;> cases h
    · split at h
      · cases h
      · split at h
        · cases h
        · simp at h
          rw [← h]
          exact List.suffix_cons x xs

theorem assignStmt_next_suffix (ctx : Ctx) (Lhs : List Expr) (Tok : Token) (Rhs : List Expr)
    (c : cursor) (loopVar : Option String) (r : Step c)
    (h : assignStmt ctx Lhs Tok Rhs c loopVar = Except.ok r) :
    r.next.Stmts <:+ c.Stmts := by
  unfold assignStmt at h
  split at h
  · cases hd : defineStmt ctx Lhs Rhs with
    | error e => simp [hd, bind, Except.bind] at h
    | ok b =>
      simp [hd, bind, Except.bind, pure, Except.pure, Step.stay] at h
      rw [← h]
  · split at h
    · cases h
    · cases hi : index Lhs 0 with
      | error e => simp [hi, bind, Except.bind] at h
      | ok lhs =>
        simp only [hi, bind, Except.bind] at h
        cases lhs with
        | Ident Name o =>
          simp only at h
          cases loopVar with
          | none => cases h
          | some v =>
            simp only at h
            split at h
            · cases h
            · exact loopAssignStmt_next_suffix ctx Lhs Rhs c r h
        | IndexExpr X Index =>
          simp only at h
          split at h
          · cases h
          · cases hr : index Rhs 0 with
            | error e => simp [hr] at h
            | ok rhs =>
              cases hv : expr ctx rhs with
              | error e => simp [hr, hv] at h
              | ok v =>
                cases hx : expr ctx X with
                | error e => simp [hr, hv, hx] at h
                | ok x =>
                  cases hi2 : expr ctx Index with
                  | error e => simp [hr, hv, hx, hi2] at h
                  | ok i =>
                    simp [hr, hv, hx, hi2, pure, Except.pure, Step.stay] at h
                    rw [← h]
          · cases h
        | StarExpr X =>
          simp only at h
          cases hx : expr ctx X with
          | error e => simp [hx] at h
          | ok x =>
            cases hr : index Rhs 0 with
            | error e => simp [hx, hr] at h
            | ok rhs =>
              cases hv : expr ctx rhs with
              | error e => simp [hx, hr, hv] at h
              | ok v =>
                simp [hx, hr, hv, pure, Except.pure, Step.stay] at h
                rw [← h]
        | _ => cases h

theorem ifStmt_next_suffix (ctx : Ctx) (Cond : Expr) (Body : List Stmt) (Else : Option Stmt)
    (c : cursor) (loopVar : Option String) (r : Step c)
    (ih : ∀ e, Else = some e → ∀ r' : Step c, stmt ctx e c loopVar = Except.ok r' →
      r'.next.Stmts <:+ c.Stmts)
    (h : ifStmt ctx Cond Body Else c loopVar = Except.ok r) :
    r.next.Stmts <:+ c.Stmts := by
  rw [ifStmt] at h
  cases h1 : stmt ctx (Stmt.BlockStmt Body) ⟨[]⟩ loopVar with
  | error e => simp [h1, bind, Except.bind] at h
  | ok thenStep =>
    cases h2 : thenStep.binding.Unwrap with
    | none => simp [h1, h2, nope, bind, Except.bind] at h
    | some thenExpr =>
      cases h3 : expr ctx Cond with
      | error e => simp [h1, h2, h3, bind, Except.bind] at h
      | ok cond =>
        cases h4 : endsWithReturn Body with
        | error e => simp [h1, h2, h3, h4, bind, Except.bind] at h
        | ok ends =>
          simp only [h1, h2, h3, h4, bind, Except.bind] at h
          split at h
          · cases Else with
            | some e => cases h
            | none =>
              simp only at h
              cases h5 : stmts ctx c.Remainder.1 loopVar with
              | error e => simp [h5] at h
              | ok els =>
                simp [h5, pure, Except.pure] at h
                rw [← h]
                simp [cursor.Remainder]
          · split at h
            · cases Else with
              | none =>
                cases loopVar with
                | some v => cases h
                | none =>
                  simp [pure, Except.pure, Step.stay] at h
                  rw [← h]
              | some e =>
                simp only at h
                cases h6 : stmt ctx e c loopVar with
                | error err => simp [h6] at h
                | ok elseStep =>
                  cases h7 : elseStep.binding.Unwrap with
                  | none => simp [h6, h7, nope] at h
                  | some elseExpr =>
                    simp [h6, h7, pure, Except.pure] at h
                    rw [← h]
                    exact ih e rfl elseStep h6
            · cases h

theorem stmt_next_suffix (ctx : Ctx) : ∀ (s : Stmt) (c : cursor) (loopVar : Option String)
    (r : Step c), stmt ctx s c loopVar = Except.ok r → r.next.Stmts <:+ c.Stmts
  | Stmt.ReturnStmt Results, c, loopVar, r, h => by
    rw [stmt] at h
    split at h
    · cases h
    · split at h
      · cases h
      · cases hr : returnExpr ctx Results with
        | error e => simp [hr, bind, Except.bind] at h
        | ok x =>
          simp [hr, bind, Except.bind, pure, Except.pure, Step.stay] at h
          rw [← h]
  | Stmt.BranchStmt Tok, c, loopVar, r, h => by
    rw [stmt] at h
    split at h
    · cases h
    · split at h
      · cases h
      · simp [pure, Except.pure, Step.stay] at h
        rw [← h]
  | Stmt.ExprStmt X, c, loopVar, r, h => by
    rw [stmt] at h
    cases hx : expr ctx X with
    | error e => simp [hx, bind, Except.bind] at h
    | ok x =>
      simp [hx, bind, Except.bind, pure, Except.pure, Step.stay] at h
      rw [← h]
  | Stmt.AssignStmt Lhs Tok Rhs, c, loopVar, r, h => by
    rw [stmt] at h
    exact assignStmt_next_suffix ctx Lhs Tok Rhs c loopVar r h
  | Stmt.BlockStmt List, c, loopVar, r, h => by
    rw [stmt] at h
    cases hb : blockStmt ctx List loopVar with
    | error e => simp [hb, bind, Except.bind] at h
    | ok x =>
      simp [hb, bind, Except.bind, pure, Except.pure, Step.stay] at h
      rw [← h]
  | Stmt.IfStmt Init Cond Body Option.none, c, loopVar, r, h => by
    rw [stmt] at h
    refine ifStmt_next_suffix ctx Cond Body Option.none c loopVar r ?_ h
    intro e he
    cases he
  | Stmt.IfStmt Init Cond Body (some els), c, loopVar, r, h => by
    rw [stmt] at h
    refine ifStmt_next_suffix ctx Cond Body (some els) c loopVar r ?_ h
    intro e he r' hr'
    cases he
    exact stmt_next_suffix ctx els c loopVar r' hr'
  | Stmt.ForStmt Init Cond Post Body, c, loopVar, r, h => by
    rw [stmt] at h
    cases hb : forStmt ctx Init Cond Post Body with
    | error e => simp [hb, bind, Except.bind] at h
    | ok x =>
      simp [hb, bind, Except.bind, pure, Except.pure, Step.stay] at h
      rw [← h]
  | Stmt.GoStmt Call, c, loopVar, r, h => by
    rw [stmt] at h
    cases h
  | Stmt.Other, c, loopVar, r, h => by
    rw [stmt] at h
    cases h
termination_by s => sizeOf s
decreasing_by
  simp_wf
  omega

theorem stmtsElseShape_suffix : ∀ (l k : List Stmt), k <:+ l → stmtsElseShape l = true →
    stmtsElseShape k = true
  | [], k, hk, _ => by
    have : k = [] := List.suffix_nil.mp hk
    subst this
    rfl
  | x :: xs, k, hk, hl => by
    rcases List.suffix_cons_iff.mp hk with h | h
    · subst h; exact hl
    · simp only [stmtsElseShape, Bool.and_eq_true] at hl
      exact stmtsElseShape_suffix xs k h hl.2

theorem avoids_stmtLoop_of (ctx : Ctx) (n : Nat)
    (H : ∀ (s : Stmt) (c : cursor) (lv : Option String), sizeOf s + sizeOf c.Stmts ≤ n →
      s.elseShape = true → stmtsElseShape c.Stmts = true → Avoids (stmt ctx s c lv)) :
    ∀ (m : Nat) (c : cursor) (bs : List Binding) (lv : Option String),
      sizeOf c.Stmts ≤ m → m ≤ n + 1 → stmtsElseShape c.Stmts = true →
      Avoids (stmtLoop ctx c bs lv) := by
  intro m
  induction m with
  | zero =>
    intro c bs lv hm _ _
    have : 0 < sizeOf c.Stmts := by cases c.Stmts <;> simp
    omega
  | succ m ih =>
    intro c bs lv hm hn hc
    obtain ⟨l⟩ := c
    cases l with
    | nil =>
      rw [stmtLoop]
      simp [cursor.HasNext]
    | cons s rest =>
      rw [stmtLoop]
      simp only [stmtsElseShape, Bool.and_eq_true] at hc
      simp only [List.cons.sizeOf_spec] at hm
      simp [cursor.HasNext, cursor.Next]
      refine ⟨H s ⟨rest⟩ lv (by simp only; omega) hc.1 hc.2, ?_⟩
      intro r hr
      have hsuf := stmt_next_suffix ctx s ⟨rest⟩ lv r hr
      have hsh := r.shrinks
      simp only at hsh
      exact ih r.next _ lv (by omega) (by omega) (stmtsElseShape_suffix rest _ hsuf hc.2)

theorem avoids_stmt_bounded (ctx : Ctx) : ∀ (n : Nat) (s : Stmt) (c : cursor)
    (lv : Option String), sizeOf s + sizeOf c.Stmts ≤ n → s.elseShape = true →
    stmtsElseShape c.Stmts = true → Avoids (stmt ctx s c lv) := by
  intro n
  induction n with
  | zero =>
    intro s c lv h _ _
    have : 0 < sizeOf s := by cases s <;> simp
    omega
  | succ n ih =>
    intro s c lv hn hs hc
    have hloop : ∀ (c' : cursor) (bs : List Binding) (lv' : Option String),
        sizeOf c'.Stmts ≤ n → stmtsElseShape c'.Stmts = true →
        Avoids (stmtLoop ctx c' bs lv') := fun c' bs lv' h1 h2 =>
      avoids_stmtLoop_of ctx n ih (sizeOf c'.Stmts) c' bs lv' (Nat.le_refl _) (by omega) h2
    have hstmts : ∀ (ss : List Stmt) (lv' : Option String), sizeOf ss ≤ n →
        stmtsElseShape ss = true → Avoids (stmts ctx ss lv') := by
      intro ss lv' h1 h2
      rw [stmts]
      simp [hloop ⟨ss⟩ [] lv' h1 h2]
    have hcpos : 0 < sizeOf c.Stmts := by cases c.Stmts <;> simp
    cases s with
    | ReturnStmt Results =>
      rw [stmt]
      simp [avoids_returnExpr]
    | BranchStmt Tok =>
      rw [stmt]
      simp
    | ExprStmt X =>
      rw [stmt]
      simp [avoids_expr]
    | AssignStmt Lhs Tok Rhs =>
      rw [stmt]
      exact avoids_assignStmt ctx Lhs Tok Rhs c lv
    | BlockStmt L =>
      rw [stmt, blockStmt]
      simp only [Stmt.elseShape] at hs
      simp only [Stmt.BlockStmt.sizeOf_spec] at hn
      simp [hstmts L lv (by omega) hs]
    | IfStmt Init Cond Body Else =>
      rw [stmt, ifStmt]
      simp only [Stmt.elseShape, Bool.and_eq_true] at hs
      simp only [Stmt.IfStmt.sizeOf_spec] at hn
      have hI : 0 < sizeOf Init := by cases Init <;> simp
      have hC : 0 < sizeOf Cond := by cases Cond <;> simp
      have hE : 0 < sizeOf Else := by cases Else <;> simp
      simp only [avoids_bind_iff]
      refine ⟨ih (Stmt.BlockStmt Body) ⟨[]⟩ lv (by simp; omega) (by simpa [Stmt.elseShape] using hs.1) rfl, ?_⟩
      intro thenStep hthen
      obtain ⟨e, he⟩ := stmt_block_anon ctx Body ⟨[]⟩ lv thenStep hthen
      simp only [he, NewAnon, Binding.Unwrap, avoids_bind_iff]
      refine ⟨avoids_expr ctx Cond, fun cond _ => ⟨avoids_endsWithReturn Body, fun ends _ => ?_⟩⟩
      split_ifs
      · cases Else with
        | some els => simp
        | none =>
          simp only [avoids_bind_iff]
          refine ⟨hstmts _ lv (by simp only [cursor.Remainder]; omega) (by simpa [cursor.Remainder] using hc), ?_⟩
          intro x _
          exact avoids_pure _
      · cases Else with
        | none => cases lv <;> simp
        | some els =>
          simp only [optElseShape, Bool.and_eq_true] at hs
          simp only [Option.some.sizeOf_spec] at hn
          simp only [avoids_bind_iff]
          refine ⟨ih els c lv (by omega) hs.2.2 hc, ?_⟩
          intro elseStep helse
          obtain ⟨e2, he2⟩ := stmt_blockOrIf_anon ctx els c lv elseStep hs.2.1 helse
          simp only [he2, NewAnon, Binding.Unwrap]
          exact avoids_pure _
      · simp
    | ForStmt Init Cond Post Body =>
      rw [stmt, forStmt.eq_def]
      simp only [Stmt.elseShape] at hs
      simp only [Stmt.ForStmt.sizeOf_spec] at hn
      simp only [avoids_bind_iff]
      refine ⟨?_, fun _ _ => avoids_pure _⟩
      split_ifs
      · simp
      · cases Init with
        | none => simp
        | some init =>
          simp only [avoids_bind_iff]
          refine ⟨avoids_loopVar ctx init, ?_⟩
          intro p _
          refine ⟨hloop ⟨Body⟩ [] _ (by simp only; omega) hs, fun _ _ => avoids_pure _⟩
    | GoStmt Call =>
      rw [stmt]
      simp
    | Other =>
      rw [stmt]
      simp

/-- C23. The two `nope` branches of `ifStmt` are unreachable.  For a conditional whose else
branch is absent, a block or another conditional, as is every conditional nested in it and in
the statements that follow it, the binding that `stmt` returns for the then-block and for the
else branch is anonymous and `Unwrap` succeeds on it, and `ifStmt` raises neither "if statement
body ends with an assignment" nor "if statement else ends with an assignment". -/
theorem ifStmt_nope_unreachable (ctx : Ctx) (Cond : Expr) (Body : List Stmt)
    (Else : Option Stmt) (c : cursor) (loopVar : Option String)
    (hbody : stmtsElseShape Body = true) (helse : optElseShape Else = true)
    (hrest : stmtsElseShape c.Stmts = true) :
    (∀ r, stmt ctx (Stmt.BlockStmt Body) ⟨[]⟩ loopVar = Except.ok r →
        ∃ e, r.binding = NewAnon e ∧ r.binding.Unwrap = some e)
      ∧ (∀ els r, Else = some els → stmt ctx els c loopVar = Except.ok r →
        ∃ e, r.binding = NewAnon e ∧ r.binding.Unwrap = some e)
      ∧ ifStmt ctx Cond Body Else c loopVar ≠ nope "if statement body ends with an assignment"
      ∧ ifStmt ctx Cond Body Else c loopVar
        ≠ nope "if statement else ends with an assignment" := by
  refine ⟨?_, ?_, ?_⟩
  · intro r hr
    obtain ⟨e, he⟩ := stmt_block_anon ctx Body ⟨[]⟩ loopVar r hr
    exact ⟨e, he, by rw [he]; rfl⟩
  · intro els r hels hr
    subst hels
    simp only [optElseShape, Bool.and_eq_true] at helse
    obtain ⟨e, he⟩ := stmt_blockOrIf_anon ctx els c loopVar r helse.1 hr
    exact ⟨e, he, by rw [he]; rfl⟩
  · have hs : (Stmt.IfStmt Option.none Cond Body Else).elseShape = true := by
      simp only [Stmt.elseShape, Bool.and_eq_true]
      exact ⟨hbody, helse⟩
    have h := avoids_stmt_bounded ctx _ (Stmt.IfStmt Option.none Cond Body Else) c loopVar
      (Nat.le_refl _) hs hrest
    rw [stmt] at h
    exact h

/-- The conditional `if i > n \x7b return x \x7d else if i > n \x7b return x \x7d else \x7b f(i) \x7d` at the
end of a function body. -/
theorem ifStmt_nope_unreachable_witness :
    stmtsElseShape exThen = true ∧ optElseShape (some exElseIf) = true
      ∧ stmtsElseShape (cursor.mk []).Stmts = true
      ∧ (∀ r, stmt exCtx (Stmt.BlockStmt exThen) ⟨[]⟩ Option.none = Except.ok r →
        ∃ e, r.binding = NewAnon e ∧ r.binding.Unwrap = some e)
      ∧ (∀ els r, some exElseIf = some els → stmt exCtx els ⟨[]⟩ Option.none = Except.ok r →
        ∃ e, r.binding = NewAnon e ∧ r.binding.Unwrap = some e)
      ∧ ifStmt exCtx exCond exThen (some exElseIf) ⟨[]⟩ Option.none
        ≠ nope "if statement body ends with an assignment"
      ∧ ifStmt exCtx exCond exThen (some exElseIf) ⟨[]⟩ Option.none
        ≠ nope "if statement else ends with an assignment" :=
  ⟨by decide, by decide, by decide,
   ifStmt_nope_unreachable exCtx exCond exThen (some exElseIf) ⟨[]⟩ Option.none
     (by decide) (by decide) (by decide)⟩

end Goose
